import Mathlib

/-!
Verification of the `go-unfold` polyhedron-unfolding engine.

The development shallowly embeds the Go source (`unfolder.go`): faces are
ordered loops of vertex indices (`Int`, as in Go), the adjacency builder
scans every face edge into an edge map and emits symmetric neighbor pairs
for edges used by exactly two faces, and the spanning-tree selector runs a
breadth-first search over the adjacency graph.  Go's float64 arithmetic is
idealized as real arithmetic; Go slice indexing is modelled by `zread` /
`zwrite`, which return `none` exactly where the Go program would fault on
an out-of-range index.  Go's unordered-map iteration over the edge map is
modelled by an explicit `keyOrder` parameter ranging over permutations of
the edge-key set.  The parts of the source file that are not present
(the tail of `placeRootFace`, `placeAdjacentFace` and the small vector
helpers) are modelled from the specification; their doc comments say so.
-/

/-- A 3D point or vector (source name `Vector3`, taken in Lean by Mathlib; float64 idealized as `ℝ`). -/
structure Vec3 where
  x : ℝ
  y : ℝ
  z : ℝ

/-- A 2D point (source: `Point2`). -/
structure Point2 where
  x : ℝ
  y : ℝ

/-- A face: ordered loop of vertex indices (source: `Face`). Go `int` is `ℤ`. -/
structure Face where
  vertices : List ℤ
deriving DecidableEq, Repr

/-- The 3D model: vertex list, face list and a display name (source: `Polyhedron`). -/
structure Polyhedron where
  vertices : List Vec3
  faces : List Face
  pname : String

/-- Adjacency info from one face's perspective (source: `FaceNeighbor`). -/
structure FaceNeighbor where
  faceIndex : ℤ
  sharedEdge : ℤ × ℤ
  thisFaceEdge : ℤ × ℤ
deriving DecidableEq, Repr

/-- Adjacency for all faces (source: `FaceAdjacency`).  The Go value is a
`map[int][]FaceNeighbor` that only ever grows by appending to a key's slice;
we record the append sequence and recover each key's slice by filtering. -/
structure FaceAdjacency where
  entries : List (ℤ × FaceNeighbor)
deriving DecidableEq, Repr

/-- The neighbor list of face `f` (Go `adj.Neighbors[f]`, `nil` ≅ `[]`). -/
def FaceAdjacency.get (adj : FaceAdjacency) (f : ℤ) : List FaceNeighbor :=
  (adj.entries.filter (fun e => e.1 = f)).map (fun e => e.2)

/-- Go slice read `l[i]` for an `int` index: `none` exactly when Go faults. -/
def zread {α : Type _} (l : List α) (i : ℤ) : Option α :=
  if 0 ≤ i then l.get? i.toNat else none

/-- Go slice write `l[i] = a` for an `int` index: `none` exactly when Go faults. -/
def zwrite {α : Type _} (l : List α) (i : ℤ) (a : α) : Option (List α) :=
  if 0 ≤ i ∧ i.toNat < l.length then some (l.set i.toNat a) else none

/-- Source `sortPair`: the canonical (smaller first) edge key. -/
def sortPair (a b : ℤ) : ℤ × ℤ :=
  if a < b then (a, b) else (b, a)

/-- The canonical edge keys of one face, in the source's scan order
(consecutive vertex pairs, wrapping). -/
def faceEdgeKeys (face : Face) : List (ℤ × ℤ) :=
  (List.range face.vertices.length).map (fun i =>
    sortPair (face.vertices.getD i 0)
      (face.vertices.getD ((i + 1) % face.vertices.length) 0))

/-- All edge-key insertions of the polyhedron in the source's scan order
(face-major, then edge order inside the face). -/
def edgeKeys (faces : List Face) : List (ℤ × ℤ) :=
  (faces.map faceEdgeKeys).flatten

/-- The face list `edgeMap[key]` of the source's edge map: every face index
repeated once per use of `key` by that face, in insertion order. -/
def edgeFaces (faces : List Face) (key : ℤ × ℤ) : List ℕ :=
  (faces.enum.map (fun p =>
    ((faceEdgeKeys p.2).filter (fun k => k = key)).map (fun _ => p.1))).flatten

/-- A legitimate iteration order of the Go edge map: each present key
exactly once, in an arbitrary order. -/
def ValidKeyOrder (faces : List Face) (keyOrder : List (ℤ × ℤ)) : Prop :=
  keyOrder.Perm (edgeKeys faces).dedup

instance (faces : List Face) (keyOrder : List (ℤ × ℤ)) :
    Decidable (ValidKeyOrder faces keyOrder) :=
  inferInstanceAs (Decidable (keyOrder.Perm (edgeKeys faces).dedup))

/-- Source `findEdgeInFace`: first consecutive position pair of the face
whose canonical key is `sortedEdge`; `none` models the error return. -/
def findEdgeInFace (face : Face) (sortedEdge : ℤ × ℤ) : Option (ℕ × ℕ) :=
  (List.range face.vertices.length).findSome? (fun i =>
    let j := (i + 1) % face.vertices.length
    if sortPair (face.vertices.getD i 0) (face.vertices.getD j 0) = sortedEdge
    then some (i, j) else none)

/-- The loop body of `BuildFaceAdjacency` for a single edge-map entry:
edges used by exactly two faces emit a symmetric pair of neighbor entries;
a failed local-edge lookup is silently skipped (`continue` in the source);
any other face count contributes nothing. -/
def processEdgeEntry (faces : List Face) (key : ℤ × ℤ) (faceList : List ℕ)
    (acc : List (ℤ × FaceNeighbor)) : List (ℤ × FaceNeighbor) :=
  match faceList with
  | [f0, f1] =>
    match findEdgeInFace (faces.getD f0 ⟨[]⟩) key,
          findEdgeInFace (faces.getD f1 ⟨[]⟩) key with
    | some e0, some e1 =>
      acc ++ [((f0 : ℤ), ⟨(f1 : ℤ), key, ((e0.1 : ℤ), (e0.2 : ℤ))⟩),
              ((f1 : ℤ), ⟨(f0 : ℤ), key, ((e1.1 : ℤ), (e1.2 : ℤ))⟩)]
    | _, _ => acc
  | _ => acc

/-- Source `BuildFaceAdjacency` (adjacency part).  It only reads the face
list; `keyOrder` is the iteration order of the unordered edge map. -/
def BuildFaceAdjacency (faces : List Face) (keyOrder : List (ℤ × ℤ)) :
    FaceAdjacency :=
  ⟨keyOrder.foldl (fun acc key => processEdgeEntry faces key (edgeFaces faces key) acc) []⟩

/-- Source `BuildFaceAdjacency`'s error result: the function ends in
`return &adj, nil`, so the error component is constantly absent. -/
def BuildFaceAdjacencyErr (_faces : List Face) (_keyOrder : List (ℤ × ℤ)) :
    Option String :=
  none

/-- Inner loop of the BFS in `BuildFaceSpanningTree`: scan the current
face's neighbor list, marking and enqueueing unvisited neighbors. -/
def visitNbrs (cur : ℤ) : List FaceNeighbor → List ℤ → List Bool → List ℤ →
    Option (List ℤ × List Bool × List ℤ)
  | [], queue, visited, parent => some (queue, visited, parent)
  | nbr :: rest, queue, visited, parent =>
    match zread visited nbr.faceIndex with
    | none => none
    | some true => visitNbrs cur rest queue visited parent
    | some false =>
      match zwrite visited nbr.faceIndex true, zwrite parent nbr.faceIndex cur with
      | some visited2, some parent2 =>
        visitNbrs cur rest (queue ++ [nbr.faceIndex]) visited2 parent2
      | _, _ => none

/-- The BFS queue loop of `BuildFaceSpanningTree`.  The fuel bounds the
number of dequeues; `BuildFaceSpanningTree` passes `nFaces`, which is shown
sufficient (`bfsLoop_isSome_of_fuel`). -/
def bfsLoop (adj : FaceAdjacency) : ℕ → List ℤ → List Bool → List ℤ →
    Option (List ℤ)
  | _, [], _, parent => some parent
  | 0, _ :: _, _, _ => none
  | Nat.succ fuel, cur :: rest, visited, parent =>
    match visitNbrs cur (adj.get cur) rest visited parent with
    | none => none
    | some (queue2, visited2, parent2) => bfsLoop adj fuel queue2 visited2 parent2

/-- Source `BuildFaceSpanningTree`: BFS from `rootFace`; `parent` array with
`-1` sentinel.  `none` models the out-of-range slice faults of the Go code. -/
def BuildFaceSpanningTree (adj : FaceAdjacency) (rootFace : ℤ) (nFaces : ℕ) :
    Option (List ℤ) :=
  match zwrite (List.replicate nFaces false) rootFace true with
  | none => none
  | some visited => bfsLoop adj nFaces [rootFace] visited (List.replicate nFaces (-1))

/-- One neighbor hop in the adjacency graph. -/
def NbrStep (adj : FaceAdjacency) (u v : ℤ) : Prop :=
  ∃ e ∈ adj.get u, e.faceIndex = v

/-- Connectivity in the adjacency graph (reflexive-transitive closure of
neighbor hops); "the connected component containing the root". -/
def Reaches (adj : FaceAdjacency) (u v : ℤ) : Prop :=
  Relation.ReflTransGen (NbrStep adj) u v

/-- Follow `parent` links `k` times (`-1` and out-of-range stop with `none`). -/
def parIter (parent : List ℤ) : ℕ → ℤ → Option ℤ
  | 0, f => some f
  | Nat.succ k, f =>
    match zread parent f with
    | none => none
    | some g => if g = -1 then none else parIter parent k g

/-- The core's typed failure (spec taxonomy `InvalidGeometry`: empty mesh,
face with fewer than 3 vertices, degenerate edge/normal in basis building). -/
inductive GeomError where
  | invalidGeometry
deriving DecidableEq

/-- Modelled from the spec: vector subtraction helper `sub` (the source
file is cut off before the vector helpers). -/
def sub (a b : Vec3) : Vec3 :=
  ⟨a.x - b.x, a.y - b.y, a.z - b.z⟩

/-- Modelled from the spec: dot product helper (missing from the source). -/
def dot (a b : Vec3) : ℝ :=
  a.x * b.x + a.y * b.y + a.z * b.z

/-- Modelled from the spec: cross product helper `cross` (missing from the
source; its first use is visible at the truncation point). -/
def cross (a b : Vec3) : Vec3 :=
  ⟨a.y * b.z - a.z * b.y, a.z * b.x - a.x * b.z, a.x * b.y - a.y * b.x⟩

/-- Squared Euclidean length. -/
def lenSq (v : Vec3) : ℝ :=
  dot v v

/-- Euclidean length. -/
noncomputable def vlen (v : Vec3) : ℝ :=
  Real.sqrt (lenSq v)

/-- Modelled from the spec: the source's `normalize` (that name is taken
in Lean by Mathlib) with the prescribed explicit
pre-check — a zero-length vector raises `InvalidGeometry` instead of
dividing by zero (the source's latent defect, replaced per the spec). -/
noncomputable def vnormalize (v : Vec3) : Except GeomError Vec3 :=
  if lenSq v = 0 then .error .invalidGeometry
  else .ok ⟨v.x / vlen v, v.y / vlen v, v.z / vlen v⟩

/-- Euclidean distance of 3D points. -/
noncomputable def dist3 (a b : Vec3) : ℝ :=
  Real.sqrt (lenSq (sub a b))

/-- Euclidean distance of 2D points. -/
noncomputable def dist2 (p q : Point2) : ℝ :=
  Real.sqrt ((p.x - q.x) ^ 2 + (p.y - q.y) ^ 2)

/-- The in-plane basis of a face, shared by root and child placement
(source `placeRootFace` up to the truncation point, finished per the spec):
origin at the first vertex, x-axis the normalized first edge, y-axis the
cross product of the normalized face normal with the x-axis.  `none` models
an out-of-range vertex-index fault; `Except.error` the `InvalidGeometry`
returns (fewer than 3 vertices, zero first edge, zero normal). -/
noncomputable def faceBasis (poly : Polyhedron) (face : Face) :
    Option (Except GeomError (Vec3 × Vec3 × Vec3)) :=
  if face.vertices.length < 3 then some (.error .invalidGeometry)
  else
    match zread poly.vertices (face.vertices.getD 0 0),
          zread poly.vertices (face.vertices.getD 1 0),
          zread poly.vertices (face.vertices.getD 2 0) with
    | some p0, some p1, some p2 =>
      let e01 := sub p1 p0
      let e02 := sub p2 p0
      match vnormalize e01 with
      | .error e => some (.error e)
      | .ok xAxis =>
        match vnormalize (cross e01 e02) with
        | .error e => some (.error e)
        | .ok nrm => some (.ok (p0, xAxis, cross nrm xAxis))
    | _, _, _ => none

/-- Modelled from the spec: project a vertex onto a face basis to get its
local 2D coordinates. -/
noncomputable def projVertex (p0 xAxis yAxis p : Vec3) : Point2 :=
  ⟨dot (sub p p0) xAxis, dot (sub p p0) yAxis⟩

/-- Modelled from the spec: the candidate local 2D placement of every
vertex of a face in its own basis (`none` on an out-of-range vertex index). -/
noncomputable def candCoords (poly : Polyhedron) (face : Face)
    (p0 xAxis yAxis : Vec3) : Option (List Point2) :=
  face.vertices.mapM (fun v => (zread poly.vertices v).map (projVertex p0 xAxis yAxis))

/-- Write each computed 2D coordinate into the global vertex table at its
vertex index (`none` on an out-of-range index, as the Go writes would fault). -/
def writeCoords (v2d : List Point2) : List ℤ → List Point2 → Option (List Point2)
  | [], _ => some v2d
  | _, [] => some v2d
  | v :: vs, c :: cs =>
    match zwrite v2d v c with
    | none => none
    | some v2d2 => writeCoords v2d2 vs cs

/-- Source `placeRootFace` (its visible head, finished per the spec): place
the face in the plane via its own basis and record the coordinates both as
the face's `Face2D` entry and in the global vertex table. -/
noncomputable def placeRootFace (poly : Polyhedron) (faceIdx : ℤ)
    (v2d : List Point2) : Option (Except GeomError (List Point2 × List Point2)) :=
  match zread poly.faces faceIdx with
  | none => none
  | some face =>
    match faceBasis poly face with
    | none => none
    | some (.error e) => some (.error e)
    | some (.ok (p0, xAxis, yAxis)) =>
      match candCoords poly face p0 xAxis yAxis with
      | none => none
      | some cs =>
        match writeCoords v2d face.vertices cs with
        | none => none
        | some v2d2 => some (.ok (cs, v2d2))

/-- Modelled from the spec: the closed-form 2D rigid transform (rotation
plus translation, orientation preserving, no scale) that maps the segment
`s0 → s1` onto the segment `t0 → t1` (exactly when both have the same
length; it always maps `s0` to `t0` and preserves all distances). -/
noncomputable def rigidFrom (s0 s1 t0 t1 : Point2) (p : Point2) : Point2 :=
  let dsx := s1.x - s0.x
  let dsy := s1.y - s0.y
  let dtx := t1.x - t0.x
  let dty := t1.y - t0.y
  let lenS := Real.sqrt (dsx ^ 2 + dsy ^ 2)
  let lenT := Real.sqrt (dtx ^ 2 + dty ^ 2)
  let c := (dsx * dtx + dsy * dty) / (lenS * lenT)
  let s := (dsx * dty - dsy * dtx) / (lenS * lenT)
  ⟨c * (p.x - s0.x) - s * (p.y - s0.y) + t0.x,
   s * (p.x - s0.x) + c * (p.y - s0.y) + t0.y⟩

/-- Modelled from the spec: place a child face across its hinge.  Build the
child's own basis and candidate placement exactly as for the root, read the
hinge endpoints' already-assigned global 2D positions, solve the closed-form
2D rotation-plus-translation (orientation preserving) that maps the
candidate hinge endpoints onto them, apply it to every candidate vertex and
write the results into the face entry and the global table.  A degenerate
(zero-length) hinge on either side raises `InvalidGeometry`. -/
noncomputable def placeAdjacentFace (poly : Polyhedron) (nfIdx : ℤ)
    (nbr : FaceNeighbor) (v2d : List Point2) :
    Option (Except GeomError (List Point2 × List Point2)) :=
  match zread poly.faces nfIdx with
  | none => none
  | some face =>
    match faceBasis poly face with
    | none => none
    | some (.error e) => some (.error e)
    | some (.ok (p0, xAxis, yAxis)) =>
      match candCoords poly face p0 xAxis yAxis with
      | none => none
      | some cs =>
        match zread poly.vertices nbr.sharedEdge.1,
              zread poly.vertices nbr.sharedEdge.2,
              zread v2d nbr.sharedEdge.1,
              zread v2d nbr.sharedEdge.2 with
        | some pa, some pb, some t0, some t1 =>
          let s0 := projVertex p0 xAxis yAxis pa
          let s1 := projVertex p0 xAxis yAxis pb
          if (s1.x - s0.x) ^ 2 + (s1.y - s0.y) ^ 2 = 0 ∨
              (t1.x - t0.x) ^ 2 + (t1.y - t0.y) ^ 2 = 0 then
            some (.error .invalidGeometry)
          else
            let cs2 := cs.map (rigidFrom s0 s1 t0 t1)
            match writeCoords v2d face.vertices cs2 with
            | none => none
            | some v2d2 => some (.ok (cs2, v2d2))
        | _, _, _, _ => none

/-- Inner loop of the unfolding BFS in `UnfoldMesh`: scan the current
face's neighbor list and place every not-yet-placed neighbor whose spanning
tree parent is the current face. -/
noncomputable def placeNbrs (poly : Polyhedron) (parent : List ℤ) (cur : ℤ) :
    List FaceNeighbor → List ℤ → List Bool → List (List Point2) → List Point2 →
    Option (Except GeomError (List ℤ × List Bool × List (List Point2) × List Point2))
  | [], queue, placed, f2ds, v2d => some (.ok (queue, placed, f2ds, v2d))
  | nbr :: rest, queue, placed, f2ds, v2d =>
    match zread parent nbr.faceIndex, zread placed nbr.faceIndex with
    | some pv, some pl =>
      if pv = cur ∧ pl = false then
        match placeAdjacentFace poly nbr.faceIndex nbr v2d with
        | none => none
        | some (.error e) => some (.error e)
        | some (.ok (cs, v2d2)) =>
          match zwrite placed nbr.faceIndex true, zwrite f2ds nbr.faceIndex cs with
          | some placed2, some f2ds2 =>
            placeNbrs poly parent cur rest (queue ++ [nbr.faceIndex]) placed2 f2ds2 v2d2
          | _, _ => none
      else placeNbrs poly parent cur rest queue placed f2ds v2d
    | _, _ => none

/-- The BFS queue loop of `UnfoldMesh`'s unfolding phase.  The fuel bounds
the number of dequeues; `UnfoldMesh` passes `nFaces`, shown sufficient. -/
noncomputable def placeLoop (poly : Polyhedron) (adj : FaceAdjacency)
    (parent : List ℤ) :
    ℕ → List ℤ → List Bool → List (List Point2) → List Point2 →
    Option (Except GeomError (List Bool × List (List Point2) × List Point2))
  | _, [], placed, f2ds, v2d => some (.ok (placed, f2ds, v2d))
  | 0, _ :: _, _, _, _ => none
  | Nat.succ fuel, cur :: rest, placed, f2ds, v2d =>
    match placeNbrs poly parent cur (adj.get cur) rest placed f2ds v2d with
    | none => none
    | some (.error e) => some (.error e)
    | some (.ok (queue2, placed2, f2ds2, v2d2)) =>
      placeLoop poly adj parent fuel queue2 placed2 f2ds2 v2d2

/-- The final result (source `UnfoldResult`); a face's `Face2D` entry is its
list of 2D vertex coordinates. -/
structure UnfoldResult where
  vertex2D : List Point2
  face2D : List (List Point2)
  spanningTree : List ℤ

/-- Source `UnfoldMesh`: empty-mesh check, adjacency, spanning tree, root
placement, then BFS placement along tree edges.  `none` models a runtime
fault (out-of-range index), `Except.error` the typed error returns. -/
noncomputable def UnfoldMesh (poly : Polyhedron) (rootFace : ℤ)
    (keyOrder : List (ℤ × ℤ)) : Option (Except GeomError UnfoldResult) :=
  if poly.faces.length = 0 then some (.error .invalidGeometry)
  else
    let adj := BuildFaceAdjacency poly.faces keyOrder
    let nFaces := poly.faces.length
    match BuildFaceSpanningTree adj rootFace nFaces with
    | none => none
    | some parent =>
      match zwrite (List.replicate nFaces false) rootFace true with
      | none => none
      | some placed =>
        let f2ds : List (List Point2) := List.replicate nFaces []
        let v2d : List Point2 := List.replicate poly.vertices.length ⟨0, 0⟩
        match placeRootFace poly rootFace v2d with
        | none => none
        | some (.error e) => some (.error e)
        | some (.ok (cs, v2d2)) =>
          match zwrite f2ds rootFace cs with
          | none => none
          | some f2ds2 =>
            match placeLoop poly adj parent nFaces [rootFace] placed f2ds2 v2d2 with
            | none => none
            | some (.error e) => some (.error e)
            | some (.ok (_, f2ds3, v2d3)) => some (.ok ⟨v2d3, f2ds3, parent⟩)

/-- Well-formed polyhedron: every face's vertex indices address the vertex
list (the data model's "vertex indices into the owning polyhedron's vertex
list"). -/
def WFPoly (poly : Polyhedron) : Prop :=
  ∀ face ∈ poly.faces, ∀ v ∈ face.vertices, 0 ≤ v ∧ v.toNat < poly.vertices.length

/-- A face all of whose vertices lie in the plane spanned by its first
three vertices (through the first vertex). -/
def PlanarFace (poly : Polyhedron) (face : Face) : Prop :=
  ∀ p0 p1 p2, zread poly.vertices (face.vertices.getD 0 0) = some p0 →
    zread poly.vertices (face.vertices.getD 1 0) = some p1 →
    zread poly.vertices (face.vertices.getD 2 0) = some p2 →
    ∀ v ∈ face.vertices, ∀ pv, zread poly.vertices v = some pv →
      dot (sub pv p0) (cross (sub p1 p0) (sub p2 p0)) = 0

/-- A face on which basis construction fails: fewer than 3 vertices, a
zero-length first edge, or a zero normal (collinear first three vertices). -/
def BadFace (poly : Polyhedron) (face : Face) : Prop :=
  face.vertices.length < 3 ∨
  ∃ p0 p1 p2, zread poly.vertices (face.vertices.getD 0 0) = some p0 ∧
    zread poly.vertices (face.vertices.getD 1 0) = some p1 ∧
    zread poly.vertices (face.vertices.getD 2 0) = some p2 ∧
    (lenSq (sub p1 p0) = 0 ∨ lenSq (cross (sub p1 p0) (sub p2 p0)) = 0)

/-- The per-face isometry property: the 2D entry has one coordinate per
loop vertex and every (wrapping) edge keeps its 3D length. -/
def IsomFace (poly : Polyhedron) (face : Face) (cs : List Point2) : Prop :=
  cs.length = face.vertices.length ∧
  ∀ i pa pb, i < face.vertices.length →
    zread poly.vertices (face.vertices.getD i 0) = some pa →
    zread poly.vertices (face.vertices.getD ((i + 1) % face.vertices.length) 0) = some pb →
    dist2 (cs.getD i ⟨0, 0⟩) (cs.getD ((i + 1) % face.vertices.length) ⟨0, 0⟩) = dist3 pa pb


/-- The neighbor-entry pair contributed by a single edge key (empty unless
the key is used by exactly two face slots and both local lookups succeed). -/
def keyEntries (faces : List Face) (key : ℤ × ℤ) : List (ℤ × FaceNeighbor) :=
  processEdgeEntry faces key (edgeFaces faces key) []

/-- The parent chain from `f` reaches the root. -/
def ReachRoot (parent : List ℤ) (root f : ℤ) : Prop :=
  ∃ k, parIter parent k f = some root

/-- Every entry of the adjacency graph names face indices below `n`. -/
def AdjWF (adj : FaceAdjacency) (n : ℕ) : Prop :=
  ∀ p ∈ adj.entries, (0 ≤ p.1 ∧ p.1.toNat < n) ∧
    (0 ≤ p.2.faceIndex ∧ p.2.faceIndex.toNat < n)

/-- Every entry's shared edge consists of vertices of both named faces. -/
def AdjEdgeWF (faces : List Face) (adj : FaceAdjacency) : Prop :=
  ∀ p ∈ adj.entries,
    (p.2.sharedEdge.1 ∈ (faces.getD p.1.toNat ⟨[]⟩).vertices ∧
     p.2.sharedEdge.2 ∈ (faces.getD p.1.toNat ⟨[]⟩).vertices) ∧
    (p.2.sharedEdge.1 ∈ (faces.getD p.2.faceIndex.toNat ⟨[]⟩).vertices ∧
     p.2.sharedEdge.2 ∈ (faces.getD p.2.faceIndex.toNat ⟨[]⟩).vertices)

/-- Invariant of the spanning-tree BFS loop state. -/
structure TreeInv (adj : FaceAdjacency) (root : ℤ) (n : ℕ)
    (queue : List ℤ) (visited : List Bool) (parent : List ℤ) : Prop where
  lenV : visited.length = n
  lenP : parent.length = n
  rootVisited : zread visited root = some true
  rootPar : zread parent root = some (-1)
  visitedReach : ∀ f, zread visited f = some true → Reaches adj root f
  parSet : ∀ f g, zread parent f = some g → g ≠ -1 →
    zread visited f = some true ∧ zread visited g = some true ∧
      ∃ e ∈ adj.get g, e.faceIndex = f
  visitedChain : ∀ f, zread visited f = some true → ReachRoot parent root f
  queueVisited : ∀ q ∈ queue, zread visited q = some true
  queueNodup : queue.Nodup
  closed : ∀ f, zread visited f = some true → f ∉ queue →
    ∀ e ∈ adj.get f, zread visited e.faceIndex = some true

/-- A vertex no reachable face mentions (so no placement may write it). -/
def ProtectedV (poly : Polyhedron) (adj : FaceAdjacency) (root v : ℤ) : Prop :=
  ∀ f face, Reaches adj root f → zread poly.faces f = some face →
    v ∉ face.vertices

/-- A vertex that no reachable *still-unplaced* face mentions: the rest of
the unfolding loop can never write its global 2D entry. -/
def UntouchedV (poly : Polyhedron) (adj : FaceAdjacency) (root : ℤ)
    (placed : List Bool) (v : ℤ) : Prop :=
  ∀ f face, Reaches adj root f → zread placed f = some false →
    zread poly.faces f = some face → v ∉ face.vertices

/-- Invariant of the unfolding BFS loop state. -/
structure PlaceInv (poly : Polyhedron) (adj : FaceAdjacency) (parent : List ℤ)
    (root : ℤ) (n : ℕ) (queue : List ℤ) (placed : List Bool)
    (f2ds : List (List Point2)) (v2d : List Point2) : Prop where
  lenPl : placed.length = n
  lenF : f2ds.length = n
  lenV : v2d.length = poly.vertices.length
  placedReach : ∀ f, zread placed f = some true → Reaches adj root f
  unplacedDefault : ∀ f, zread placed f = some false → zread f2ds f = some []
  placedGood : ∀ f, zread placed f = some true →
    ∃ face, zread poly.faces f = some face ∧ ¬ BadFace poly face
  placedIsom : ∀ f face cs, zread placed f = some true →
    zread poly.faces f = some face → zread f2ds f = some cs →
    PlanarFace poly face → IsomFace poly face cs
  queuePlaced : ∀ q ∈ queue, zread placed q = some true
  queueNodup : queue.Nodup
  closed : ∀ f, zread placed f = some true → f ∉ queue →
    ∀ e ∈ adj.get f, zread parent e.faceIndex = some f →
      zread placed e.faceIndex = some true

/-! ### Concrete meshes used by the witnesses and counterexamples -/

/-- A single well-formed triangle. -/
noncomputable def triPoly : Polyhedron :=
  ⟨[⟨0,0,0⟩, ⟨1,0,0⟩, ⟨0,1,0⟩], [⟨[0,1,2]⟩], "tri"⟩

/-- An edge-map order for `triPoly`. -/
def sigTri : List (ℤ × ℤ) := [(0,1),(1,2),(0,2)]

/-- A triangle plus a disconnected face with only 2 vertices. -/
noncomputable def polyA : Polyhedron :=
  ⟨[⟨0,0,0⟩, ⟨1,0,0⟩, ⟨0,1,0⟩, ⟨5,5,5⟩, ⟨6,5,5⟩], [⟨[0,1,2]⟩, ⟨[3,4]⟩], "A"⟩

/-- An edge-map order for `polyA`. -/
def sigA : List (ℤ × ℤ) := [(0,1),(1,2),(0,2),(3,4)]

/-- A degenerate triangle: three collinear vertices (nonzero first edge,
zero normal). -/
noncomputable def polyB : Polyhedron :=
  ⟨[⟨0,0,0⟩, ⟨1,0,0⟩, ⟨2,0,0⟩], [⟨[0,1,2]⟩], "B"⟩

/-- A single non-planar quadrilateral. -/
noncomputable def polyQ : Polyhedron :=
  ⟨[⟨0,0,0⟩, ⟨2,0,0⟩, ⟨2,2,0⟩, ⟨0,2,1⟩], [⟨[0,1,2,3]⟩], "Q"⟩

/-- An edge-map order for `polyQ`. -/
def sigQ : List (ℤ × ℤ) := [(0,1),(1,2),(2,3),(0,3)]

/-- A planar square plus a coplanar triangle attached across edge (2,3)
(and also sharing edge (0,3)); the triangle contains vertex 0 away from its
hinge, so placing it overwrites vertex 0's global 2D entry. -/
noncomputable def polyC : Polyhedron :=
  ⟨[⟨0,0,0⟩, ⟨2,0,0⟩, ⟨2,2,0⟩, ⟨0,2,0⟩], [⟨[0,1,2,3]⟩, ⟨[3,2,0]⟩], "C"⟩

/-- An edge-map order for `polyC` that lists the (2,3) hinge first. -/
def sigC : List (ℤ × ℤ) := [(2,3),(0,3),(0,1),(1,2),(0,2)]

/-- Four faces: a root triangle adjacent to two triangles, both adjacent to
a fourth face; the fourth face's BFS parent depends on the edge-map order. -/
def c5Faces : List Face := [⟨[0,1,2]⟩, ⟨[1,0,3]⟩, ⟨[2,1,4]⟩, ⟨[0,3,4,2,5]⟩]

/-- One legitimate edge-map iteration order for `c5Faces`. -/
def sig51 : List (ℤ × ℤ) := [(0,1),(1,2),(0,3),(2,4),(0,2),(1,3),(1,4),(3,4),(2,5),(0,5)]

/-- A second legitimate edge-map iteration order for `c5Faces`. -/
def sig52 : List (ℤ × ℤ) := [(1,2),(0,1),(0,3),(2,4),(0,2),(1,3),(1,4),(3,4),(2,5),(0,5)]

/-- Three triangles sharing edge (0,1) — a non-manifold edge — plus one
triangle attached to the first across edge (1,2). -/
def nmFaces : List Face := [⟨[0,1,2]⟩, ⟨[0,1,3]⟩, ⟨[0,1,4]⟩, ⟨[2,1,5]⟩]

/-- An edge-map order for `nmFaces`. -/
def signm : List (ℤ × ℤ) := [(0,1),(1,2),(0,2),(1,3),(0,3),(1,4),(0,4),(1,5),(2,5)]

/-- Two triangles sharing one edge. -/
def twoTriFaces : List Face := [⟨[0,1,2]⟩, ⟨[1,0,3]⟩]

/-- An edge-map order for `twoTriFaces`. -/
def sigTT : List (ℤ × ℤ) := [(0,1),(1,2),(0,2),(0,3),(1,3)]

/-- The empty polyhedron (no vertices, no faces). -/
def polyE : Polyhedron := ⟨[], [], "E"⟩

/-! ### Indexing lemmas -/

theorem zread_eq_some {α : Type _} {l : List α} {i : ℤ} {a : α} :
    zread l i = some a ↔ 0 ≤ i ∧ l.get? i.toNat = some a := by
  unfold zread
  by_cases h : 0 ≤ i <;> simp [h]

theorem zread_bounds {α : Type _} {l : List α} {i : ℤ} {a : α}
    (h : zread l i = some a) : 0 ≤ i ∧ i.toNat < l.length := by
  obtain ⟨h0, hg⟩ := zread_eq_some.mp h
  obtain ⟨hlt, -⟩ := List.get?_eq_some.mp hg
  exact ⟨h0, hlt⟩

theorem zread_of_lt {α : Type _} {l : List α} {i : ℤ}
    (h0 : 0 ≤ i) (h : i.toNat < l.length) : ∃ a, zread l i = some a := by
  obtain ⟨a, ha⟩ : ∃ a, l.get? i.toNat = some a := ⟨_, List.get?_eq_get h⟩
  exact ⟨a, zread_eq_some.mpr ⟨h0, ha⟩⟩

theorem zread_replicate {α : Type _} {n : ℕ} {a : α} {i : ℤ}
    (h0 : 0 ≤ i) (h : i.toNat < n) : zread (List.replicate n a) i = some a := by
  refine zread_eq_some.mpr ⟨h0, ?_⟩
  simp [List.get?_eq_getElem?, List.getElem?_replicate, h]

theorem zwrite_eq_some {α : Type _} {l l' : List α} {i : ℤ} {a : α}
    (h : zwrite l i a = some l') :
    0 ≤ i ∧ i.toNat < l.length ∧ l' = l.set i.toNat a := by
  unfold zwrite at h
  by_cases hb : 0 ≤ i ∧ i.toNat < l.length
  · rw [if_pos hb] at h
    exact ⟨hb.1, hb.2, (Option.some.injEq _ _ ▸ h).symm⟩
  · simp [hb] at h

theorem zwrite_isSome {α : Type _} {l : List α} {i : ℤ} {a : α}
    (h0 : 0 ≤ i) (h : i.toNat < l.length) : ∃ l', zwrite l i a = some l' := by
  refine ⟨l.set i.toNat a, ?_⟩
  unfold zwrite
  rw [if_pos ⟨h0, h⟩]

theorem zwrite_length {α : Type _} {l l' : List α} {i : ℤ} {a : α}
    (h : zwrite l i a = some l') : l'.length = l.length := by
  obtain ⟨-, -, rfl⟩ := zwrite_eq_some h
  exact List.length_set ..

theorem zread_zwrite_self {α : Type _} {l l' : List α} {i : ℤ} {a : α}
    (h : zwrite l i a = some l') : zread l' i = some a := by
  obtain ⟨h0, hlt, rfl⟩ := zwrite_eq_some h
  exact zread_eq_some.mpr ⟨h0, List.get?_set_eq_of_lt a hlt⟩

theorem zread_zwrite_ne {α : Type _} {l l' : List α} {i j : ℤ} {a : α}
    (h : zwrite l i a = some l') (hne : j ≠ i) : zread l' j = zread l j := by
  obtain ⟨h0, hlt, rfl⟩ := zwrite_eq_some h
  unfold zread
  by_cases hj : 0 ≤ j
  · simp only [hj, if_true]
    apply List.get?_set_ne
    intro hc
    exact hne (by omega)
  · simp [hj]

/-! ### Structure of the built adjacency graph -/

theorem processEdgeEntry_eq_append (faces : List Face) (key : ℤ × ℤ)
    (fl : List ℕ) (acc : List (ℤ × FaceNeighbor)) :
    processEdgeEntry faces key fl acc = acc ++ processEdgeEntry faces key fl [] := by
  cases fl with
  | nil => simp [processEdgeEntry]
  | cons f0 tl =>
    cases tl with
    | nil => simp [processEdgeEntry]
    | cons f1 tl2 =>
      cases tl2 with
      | cons f2 tl3 => simp [processEdgeEntry]
      | nil =>
        simp only [processEdgeEntry]
        cases h0 : findEdgeInFace (faces.getD f0 ⟨[]⟩) key with
        | none =>
          cases h1 : findEdgeInFace (faces.getD f1 ⟨[]⟩) key with
          | none => simp
          | some e1 => simp
        | some e0 =>
          cases h1 : findEdgeInFace (faces.getD f1 ⟨[]⟩) key with
          | none => simp
          | some e1 => simp

theorem BuildFaceAdjacency_entries (faces : List Face) (keyOrder : List (ℤ × ℤ)) :
    (BuildFaceAdjacency faces keyOrder).entries =
      (keyOrder.map (keyEntries faces)).flatten := by
  unfold BuildFaceAdjacency keyEntries
  suffices h : ∀ acc, keyOrder.foldl
      (fun acc key => processEdgeEntry faces key (edgeFaces faces key) acc) acc =
      acc ++ (keyOrder.map (fun key => processEdgeEntry faces key (edgeFaces faces key) [])).flatten by
    simpa using h []
  induction keyOrder with
  | nil => intro acc; simp
  | cons k ks ih =>
    intro acc
    simp only [List.foldl_cons, List.map_cons, List.flatten_cons]
    rw [processEdgeEntry_eq_append, ih, List.append_assoc]

theorem mem_adj_entries {faces : List Face} {keyOrder : List (ℤ × ℤ)}
    {p : ℤ × FaceNeighbor} :
    p ∈ (BuildFaceAdjacency faces keyOrder).entries ↔
      ∃ key ∈ keyOrder, p ∈ keyEntries faces key := by
  rw [BuildFaceAdjacency_entries]
  constructor
  · intro h
    obtain ⟨s, hs, hp⟩ := List.mem_join.mp h
    obtain ⟨key, hk, rfl⟩ := List.mem_map.mp hs
    exact ⟨key, hk, hp⟩
  · rintro ⟨key, hk, hp⟩
    exact List.mem_join.mpr ⟨_, List.mem_map.mpr ⟨key, hk, rfl⟩, hp⟩

theorem keyEntries_cases {faces : List Face} {key : ℤ × ℤ}
    {p : ℤ × FaceNeighbor} (h : p ∈ keyEntries faces key) :
    ∃ f0 f1 e0 e1, edgeFaces faces key = [f0, f1] ∧
      findEdgeInFace (faces.getD f0 ⟨[]⟩) key = some e0 ∧
      findEdgeInFace (faces.getD f1 ⟨[]⟩) key = some e1 ∧
      (p = ((f0 : ℤ), ⟨(f1 : ℤ), key, ((e0.1 : ℤ), (e0.2 : ℤ))⟩) ∨
       p = ((f1 : ℤ), ⟨(f0 : ℤ), key, ((e1.1 : ℤ), (e1.2 : ℤ))⟩)) := by
  unfold keyEntries at h
  cases hfl : edgeFaces faces key with
  | nil => rw [hfl] at h; simp [processEdgeEntry] at h
  | cons f0 tl =>
    cases tl with
    | nil => rw [hfl] at h; simp [processEdgeEntry] at h
    | cons f1 tl2 =>
      cases tl2 with
      | cons f2 tl3 => rw [hfl] at h; simp [processEdgeEntry] at h
      | nil =>
        rw [hfl] at h
        simp only [processEdgeEntry] at h
        cases h0 : findEdgeInFace (faces.getD f0 ⟨[]⟩) key with
        | none =>
          rw [h0] at h
          cases h1 : findEdgeInFace (faces.getD f1 ⟨[]⟩) key with
          | none => rw [h1] at h; simp at h
          | some e1 => rw [h1] at h; simp at h
        | some e0 =>
          rw [h0] at h
          cases h1 : findEdgeInFace (faces.getD f1 ⟨[]⟩) key with
          | none => rw [h1] at h; simp at h
          | some e1 =>
            rw [h1] at h
            simp only [List.nil_append, List.mem_cons, List.not_mem_nil, or_false] at h
            exact ⟨f0, f1, e0, e1, rfl, h0, h1, h⟩

theorem mem_get_iff {adj : FaceAdjacency} {f : ℤ} {nbr : FaceNeighbor} :
    nbr ∈ adj.get f ↔ (f, nbr) ∈ adj.entries := by
  unfold FaceAdjacency.get
  constructor
  · intro h
    obtain ⟨e, he, rfl⟩ := List.mem_map.mp h
    have := List.mem_filter.mp he
    obtain ⟨hmem, hf⟩ := this
    have : e.1 = f := by simpa using hf
    rw [← this]
    exact hmem
  · intro h
    refine List.mem_map.mpr ⟨(f, nbr), List.mem_filter.mpr ⟨h, by simp⟩, rfl⟩

theorem mem_edgeFaces {faces : List Face} {key : ℤ × ℤ} {f : ℕ} :
    f ∈ edgeFaces faces key ↔
      f < faces.length ∧ key ∈ faceEdgeKeys (faces.getD f ⟨[]⟩) := by
  unfold edgeFaces
  constructor
  · intro h
    obtain ⟨s, hs, hf⟩ := List.mem_join.mp h
    obtain ⟨q, hq, rfl⟩ := List.mem_map.mp hs
    obtain ⟨k, hk, rfl⟩ := List.mem_map.mp hf
    have hkk := List.mem_filter.mp hk
    have hkey : k = key := by simpa using hkk.2
    have hget : faces.get? q.1 = some q.2 := List.mem_enum_iff_get?.mp hq
    obtain ⟨hlt, hgeteq⟩ := List.get?_eq_some.mp hget
    have hgetd : faces.getD q.1 ⟨[]⟩ = q.2 := by
      rw [List.getD_eq_get faces ⟨[]⟩ hlt, hgeteq]
    exact ⟨hlt, by rw [hgetd]; exact hkey ▸ hkk.1⟩
  · rintro ⟨hlt, hkey⟩
    have hget : faces.get? f = some (faces.getD f ⟨[]⟩) := by
      rw [List.getD_eq_get faces ⟨[]⟩ hlt]
      exact List.get?_eq_get hlt
    refine List.mem_join.mpr ⟨_, List.mem_map.mpr
      ⟨(f, faces.getD f ⟨[]⟩), List.mem_enum_iff_get?.mpr hget, rfl⟩, ?_⟩
    exact List.mem_map.mpr ⟨key, List.mem_filter.mpr ⟨hkey, by simp⟩, rfl⟩

theorem findEdgeInFace_isSome {face : Face} {key : ℤ × ℤ}
    (h : key ∈ faceEdgeKeys face) : (findEdgeInFace face key).isSome := by
  by_contra hc
  have hn : findEdgeInFace face key = none := by
    cases he : findEdgeInFace face key with
    | none => rfl
    | some e => rw [he] at hc; simp at hc
  unfold findEdgeInFace at hn
  rw [List.findSome?_eq_none_iff] at hn
  unfold faceEdgeKeys at h
  obtain ⟨i, hi, hk⟩ := List.mem_map.mp h
  have := hn i hi
  simp at this
  exact this (by simpa using hk)

theorem faceEdgeKeys_endpoints {face : Face} {key : ℤ × ℤ}
    (h : key ∈ faceEdgeKeys face) :
    key.1 ∈ face.vertices ∧ key.2 ∈ face.vertices := by
  unfold faceEdgeKeys at h
  obtain ⟨i, hi, hk⟩ := List.mem_map.mp h
  have hilt : i < face.vertices.length := List.mem_range.mp hi
  have hjlt : (i + 1) % face.vertices.length < face.vertices.length :=
    Nat.mod_lt _ (by omega)
  have hu : face.vertices.getD i 0 ∈ face.vertices := by
    rw [List.getD_eq_get face.vertices 0 hilt]; exact List.get_mem _ _ _
  have hv : face.vertices.getD ((i + 1) % face.vertices.length) 0 ∈ face.vertices := by
    rw [List.getD_eq_get face.vertices 0 hjlt]; exact List.get_mem _ _ _
  rw [← hk]
  unfold sortPair
  split <;> exact ⟨by assumption, by assumption⟩

theorem adjWF_build (faces : List Face) (keyOrder : List (ℤ × ℤ)) :
    AdjWF (BuildFaceAdjacency faces keyOrder) faces.length := by
  intro p hp
  obtain ⟨key, -, hk⟩ := mem_adj_entries.mp hp
  obtain ⟨f0, f1, e0, e1, hfl, -, -, hcase⟩ := keyEntries_cases hk
  have h0 : f0 ∈ edgeFaces faces key := by rw [hfl]; simp
  have h1 : f1 ∈ edgeFaces faces key := by rw [hfl]; simp
  have h0l := (mem_edgeFaces.mp h0).1
  have h1l := (mem_edgeFaces.mp h1).1
  rcases hcase with rfl | rfl
  · exact ⟨⟨Int.ofNat_nonneg _, by simpa using h0l⟩, ⟨Int.ofNat_nonneg _, by simpa using h1l⟩⟩
  · exact ⟨⟨Int.ofNat_nonneg _, by simpa using h1l⟩, ⟨Int.ofNat_nonneg _, by simpa using h0l⟩⟩

theorem adjEdgeWF_build (faces : List Face) (keyOrder : List (ℤ × ℤ)) :
    AdjEdgeWF faces (BuildFaceAdjacency faces keyOrder) := by
  intro p hp
  obtain ⟨key, -, hk⟩ := mem_adj_entries.mp hp
  obtain ⟨f0, f1, e0, e1, hfl, -, -, hcase⟩ := keyEntries_cases hk
  have h0 : f0 ∈ edgeFaces faces key := by rw [hfl]; simp
  have h1 : f1 ∈ edgeFaces faces key := by rw [hfl]; simp
  have h0k := (mem_edgeFaces.mp h0).2
  have h1k := (mem_edgeFaces.mp h1).2
  have he0 := faceEdgeKeys_endpoints h0k
  have he1 := faceEdgeKeys_endpoints h1k
  rcases hcase with rfl | rfl
  · simp only [Int.toNat_ofNat]
    exact ⟨he0, he1⟩
  · simp only [Int.toNat_ofNat]
    exact ⟨he1, he0⟩

theorem keyEntries_eq {faces : List Face} {key : ℤ × ℤ} {f0 f1 : ℕ}
    {e0 e1 : ℕ × ℕ} (hfl : edgeFaces faces key = [f0, f1])
    (h0 : findEdgeInFace (faces.getD f0 ⟨[]⟩) key = some e0)
    (h1 : findEdgeInFace (faces.getD f1 ⟨[]⟩) key = some e1) :
    keyEntries faces key =
      [((f0 : ℤ), ⟨(f1 : ℤ), key, ((e0.1 : ℤ), (e0.2 : ℤ))⟩),
       ((f1 : ℤ), ⟨(f0 : ℤ), key, ((e1.1 : ℤ), (e1.2 : ℤ))⟩)] := by
  unfold keyEntries
  rw [hfl]
  simp only [processEdgeEntry]
  rw [h0, h1]
  rfl

theorem adj_symm_entries {faces : List Face} {keyOrder : List (ℤ × ℤ)}
    {A : ℤ} {nbr : FaceNeighbor}
    (h : (A, nbr) ∈ (BuildFaceAdjacency faces keyOrder).entries) :
    ∃ sl, (nbr.faceIndex, (⟨A, nbr.sharedEdge, sl⟩ : FaceNeighbor)) ∈
      (BuildFaceAdjacency faces keyOrder).entries := by
  obtain ⟨key, hko, hk⟩ := mem_adj_entries.mp h
  obtain ⟨f0, f1, e0, e1, hfl, h0, h1, hcase⟩ := keyEntries_cases hk
  have heq := keyEntries_eq hfl h0 h1
  rcases hcase with hp | hp
  · obtain ⟨rfl, hnbr⟩ : A = (f0 : ℤ) ∧ nbr = ⟨(f1 : ℤ), key, ((e0.1 : ℤ), (e0.2 : ℤ))⟩ := by
      constructor <;> [exact congrArg Prod.fst hp; exact congrArg Prod.snd hp]
    refine ⟨((e1.1 : ℤ), (e1.2 : ℤ)), mem_adj_entries.mpr ⟨key, hko, ?_⟩⟩
    rw [heq, hnbr]
    simp
  · obtain ⟨rfl, hnbr⟩ : A = (f1 : ℤ) ∧ nbr = ⟨(f0 : ℤ), key, ((e1.1 : ℤ), (e1.2 : ℤ))⟩ := by
      constructor <;> [exact congrArg Prod.fst hp; exact congrArg Prod.snd hp]
    refine ⟨((e0.1 : ℤ), (e0.2 : ℤ)), mem_adj_entries.mpr ⟨key, hko, ?_⟩⟩
    rw [heq, hnbr]
    simp

theorem entries_sharedEdge_two {faces : List Face} {keyOrder : List (ℤ × ℤ)}
    {p : ℤ × FaceNeighbor}
    (hp : p ∈ (BuildFaceAdjacency faces keyOrder).entries) :
    (edgeFaces faces p.2.sharedEdge).length = 2 := by
  obtain ⟨key, -, hk⟩ := mem_adj_entries.mp hp
  obtain ⟨f0, f1, e0, e1, hfl, -, -, hcase⟩ := keyEntries_cases hk
  have hkey : p.2.sharedEdge = key := by
    rcases hcase with rfl | rfl <;> rfl
  rw [hkey, hfl]
  rfl

/-! ### Spanning-tree BFS invariants -/

theorem parIter_stable {parent parent2 : List ℤ} {visited : List Bool}
    {root : ℤ}
    (hagree : ∀ f, zread visited f = some true → zread parent2 f = zread parent f)
    (hclosed : ∀ f g, zread visited f = some true → zread parent f = some g →
      g ≠ -1 → zread visited g = some true) :
    ∀ k f, zread visited f = some true → parIter parent k f = some root →
      parIter parent2 k f = some root := by
  intro k
  induction k with
  | zero => intro f _ h; exact h
  | succ k ih =>
    intro f hf h
    unfold parIter at h ⊢
    cases hg : zread parent f with
    | none => rw [hg] at h; simp at h
    | some g =>
      rw [hg] at h
      rw [hagree f hf, hg]
      by_cases hg1 : g = -1
      · simp [hg1] at h
      · simp only [if_neg hg1] at h ⊢
        exact ih g (hclosed f g hf hg hg1) h

theorem count_true_set {l l2 : List Bool} {i : ℤ}
    (hw : zwrite l i true = some l2) (hr : zread l i = some false) :
    l2.count true = l.count true + 1 := by
  obtain ⟨h0, hlt, rfl⟩ := zwrite_eq_some hw
  obtain ⟨-, hget⟩ := zread_eq_some.mp hr
  clear hw hr
  generalize hk : i.toNat = k at *
  clear hk h0 i
  induction l generalizing k with
  | nil => simp at hget
  | cons b t ih =>
    cases k with
    | zero =>
      cases hget
      simp [List.count_cons]
    | succ k =>
      simp only [List.get?_cons_succ] at hget
      simp only [List.set_cons_succ]
      have := ih k (by simpa using hlt) hget
      simp [List.count_cons, this]
      omega

theorem visitNbrs_inv {adj : FaceAdjacency} {root : ℤ} {n : ℕ} {cur : ℤ} :
    ∀ {nbrs : List FaceNeighbor} {q q2 : List ℤ} {vis vis2 : List Bool}
      {par par2 : List ℤ},
    visitNbrs cur nbrs q vis par = some (q2, vis2, par2) →
    (∀ e ∈ nbrs, e ∈ adj.get cur) →
    TreeInv adj root n (cur :: q) vis par →
    TreeInv adj root n (cur :: q2) vis2 par2 ∧
      (∀ f, zread vis f = some true → zread vis2 f = some true) ∧
      (∀ e ∈ nbrs, zread vis2 e.faceIndex = some true) := by
  intro nbrs
  induction nbrs with
  | nil =>
    intro q q2 vis vis2 par par2 h hsub hinv
    unfold visitNbrs at h
    obtain ⟨rfl, rfl, rfl⟩ : q = q2 ∧ vis = vis2 ∧ par = par2 := by
      simpa [Prod.ext_iff] using h
    exact ⟨hinv, fun f hf => hf, by simp⟩
  | cons nbr rest ih =>
    intro q q2 vis vis2 par par2 h hsub hinv
    unfold visitNbrs at h
    cases hv : zread vis nbr.faceIndex with
    | none => rw [hv] at h; simp at h
    | some b =>
      rw [hv] at h
      cases b with
      | true =>
        simp only at h
        obtain ⟨hinv2, hmono, hrest⟩ :=
          ih h (fun e he => hsub e (List.mem_cons_of_mem _ he)) hinv
        refine ⟨hinv2, hmono, ?_⟩
        intro e he
        rcases List.mem_cons.mp he with rfl | he2
        · exact hmono _ hv
        · exact hrest e he2
      | false =>
        simp only at h
        have hcurvis : zread vis cur = some true :=
          hinv.queueVisited cur (List.mem_cons_self _ _)
        cases hw1 : zwrite vis nbr.faceIndex true with
        | none => rw [hw1] at h; simp at h
        | some visb =>
          cases hw2 : zwrite par nbr.faceIndex cur with
          | none => rw [hw1, hw2] at h; simp at h
          | some parb =>
            rw [hw1, hw2] at h
            simp only at h
            have hcur_ne : cur ≠ nbr.faceIndex := by
              intro hc; rw [hc, hv] at hcurvis; simp at hcurvis
            have hroot_ne : root ≠ nbr.faceIndex := by
              intro hc
              have := hinv.rootVisited
              rw [hc, hv] at this; simp at this
            have mono1 : ∀ f, zread vis f = some true → zread visb f = some true := by
              intro f hf
              have hf_ne : f ≠ nbr.faceIndex := by
                intro hc; rw [hc, hv] at hf; simp at hf
              rw [zread_zwrite_ne hw1 hf_ne]; exact hf
            have hnbr_get : nbr ∈ adj.get cur := hsub nbr (List.mem_cons_self _ _)
            have hreach_nbr : Reaches adj root nbr.faceIndex :=
              Relation.ReflTransGen.tail (hinv.visitedReach cur hcurvis)
                ⟨nbr, hnbr_get, rfl⟩
            have hagree : ∀ f, zread vis f = some true → zread parb f = zread par f := by
              intro f hf
              have hf_ne : f ≠ nbr.faceIndex := by
                intro hc; rw [hc, hv] at hf; simp at hf
              exact zread_zwrite_ne hw2 hf_ne
            have hpclosed : ∀ f g, zread vis f = some true → zread par f = some g →
                g ≠ -1 → zread vis g = some true := by
              intro f g _ hpg hgne
              exact (hinv.parSet f g hpg hgne).2.1
            have hchain_stable := @parIter_stable _ _ _ root hagree hpclosed
            have hcur_nonneg : 0 ≤ cur := (zread_bounds hcurvis).1
            have hinvb : TreeInv adj root n (cur :: (q ++ [nbr.faceIndex])) visb parb := by
              refine ⟨?_, ?_, ?_, ?_, ?_, ?_, ?_, ?_, ?_, ?_⟩
              · rw [zwrite_length hw1]; exact hinv.lenV
              · rw [zwrite_length hw2]; exact hinv.lenP
              · rw [zread_zwrite_ne hw1 hroot_ne]; exact hinv.rootVisited
              · rw [zread_zwrite_ne hw2 hroot_ne]; exact hinv.rootPar
              · intro f hf
                by_cases hf_ne : f = nbr.faceIndex
                · rw [hf_ne]; exact hreach_nbr
                · rw [zread_zwrite_ne hw1 hf_ne] at hf
                  exact hinv.visitedReach f hf
              · intro f g hpg hgne
                by_cases hf_ne : f = nbr.faceIndex
                · subst hf_ne
                  rw [zread_zwrite_self hw2] at hpg
                  obtain rfl : cur = g := by simpa using hpg
                  exact ⟨zread_zwrite_self hw1, mono1 _ hcurvis, nbr, hnbr_get, rfl⟩
                · rw [zread_zwrite_ne hw2 hf_ne] at hpg
                  obtain ⟨h1, h2, h3⟩ := hinv.parSet f g hpg hgne
                  exact ⟨mono1 _ h1, mono1 _ h2, h3⟩
              · intro f hf
                by_cases hf_ne : f = nbr.faceIndex
                · subst hf_ne
                  obtain ⟨k, hk⟩ := hinv.visitedChain cur hcurvis
                  refine ⟨k + 1, ?_⟩
                  unfold parIter
                  rw [zread_zwrite_self hw2]
                  simp only [if_neg (by omega : ¬ cur = -1)]
                  exact hchain_stable k cur hcurvis hk
                · rw [zread_zwrite_ne hw1 hf_ne] at hf
                  obtain ⟨k, hk⟩ := hinv.visitedChain f hf
                  exact ⟨k, hchain_stable k f hf hk⟩
              · intro x hx
                rcases List.mem_cons.mp hx with rfl | hx2
                · exact mono1 _ hcurvis
                · rcases List.mem_append.mp hx2 with hx3 | hx4
                  · exact mono1 _ (hinv.queueVisited x (List.mem_cons_of_mem _ hx3))
                  · obtain rfl : x = nbr.faceIndex := by simpa using hx4
                    exact zread_zwrite_self hw1
              · have hnotin : nbr.faceIndex ∉ cur :: q := by
                  intro hc
                  have := hinv.queueVisited _ hc
                  rw [hv] at this; simp at this
                have : (cur :: q ++ [nbr.faceIndex]).Nodup := by
                  rw [List.nodup_append]
                  exact ⟨hinv.queueNodup, List.nodup_singleton _,
                    by intro a ha hb; obtain rfl : a = nbr.faceIndex := by simpa using hb
                       exact hnotin ha⟩
                simpa using this
              · intro f hf hfq e he
                have hf_ne : f ≠ nbr.faceIndex := by
                  intro hc
                  exact hfq (by rw [hc]; simp)
                rw [zread_zwrite_ne hw1 hf_ne] at hf
                have hfq2 : f ∉ cur :: q := by
                  intro hc
                  rcases List.mem_cons.mp hc with rfl | hc2
                  · exact hfq (List.mem_cons_self _ _)
                  · exact hfq (by simp [hc2])
                exact mono1 _ (hinv.closed f hf hfq2 e he)
            obtain ⟨hinv2, hmono, hrest⟩ :=
              ih h (fun e he => hsub e (List.mem_cons_of_mem _ he)) hinvb
            refine ⟨hinv2, fun f hf => hmono f (mono1 f hf), ?_⟩
            intro e he
            rcases List.mem_cons.mp he with rfl | he2
            · exact hmono _ (zread_zwrite_self hw1)
            · exact hrest e he2

theorem treeInv_dequeue {adj : FaceAdjacency} {root cur : ℤ} {n : ℕ}
    {q : List ℤ} {vis : List Bool} {par : List ℤ}
    (hinv : TreeInv adj root n (cur :: q) vis par)
    (hdone : ∀ e ∈ adj.get cur, zread vis e.faceIndex = some true) :
    TreeInv adj root n q vis par := by
  have hcurnotin : cur ∉ q := by
    have := hinv.queueNodup
    simp only [List.nodup_cons] at this
    exact this.1
  refine ⟨hinv.lenV, hinv.lenP, hinv.rootVisited, hinv.rootPar,
    hinv.visitedReach, hinv.parSet, hinv.visitedChain,
    fun x hx => hinv.queueVisited x (List.mem_cons_of_mem _ hx),
    (List.nodup_cons.mp hinv.queueNodup).2, ?_⟩
  intro f hf hfq e he
  by_cases hfc : f = cur
  · subst hfc; exact hdone e he
  · refine hinv.closed f hf ?_ e he
    intro hc
    rcases List.mem_cons.mp hc with h1 | h2
    · exact hfc h1
    · exact hfq h2

theorem bfsLoop_inv {adj : FaceAdjacency} {root : ℤ} {n : ℕ} :
    ∀ (fuel : ℕ) {q : List ℤ} {vis : List Bool} {par res : List ℤ},
    bfsLoop adj fuel q vis par = some res →
    TreeInv adj root n q vis par →
    ∃ vis2, TreeInv adj root n [] vis2 res ∧
      (∀ f, zread vis f = some true → zread vis2 f = some true) := by
  intro fuel
  induction fuel with
  | zero =>
    intro q vis par res h hinv
    cases q with
    | nil =>
      unfold bfsLoop at h
      obtain rfl : par = res := by simpa using h
      exact ⟨vis, hinv, fun f hf => hf⟩
    | cons cur rest => unfold bfsLoop at h; simp at h
  | succ fuel ih =>
    intro q vis par res h hinv
    cases q with
    | nil =>
      unfold bfsLoop at h
      obtain rfl : par = res := by simpa using h
      exact ⟨vis, hinv, fun f hf => hf⟩
    | cons cur rest =>
      unfold bfsLoop at h
      cases hrun : visitNbrs cur (adj.get cur) rest vis par with
      | none => rw [hrun] at h; simp at h
      | some trip =>
        obtain ⟨q2, vis2, par2⟩ := trip
        rw [hrun] at h
        simp only at h
        obtain ⟨hinv2, hmono, hdone⟩ := visitNbrs_inv hrun (fun e he => he) hinv
        have hinv3 : TreeInv adj root n q2 vis2 par2 := treeInv_dequeue hinv2 hdone
        obtain ⟨vis3, hinv4, hmono2⟩ := ih h hinv3
        exact ⟨vis3, hinv4, fun f hf => hmono2 f (hmono f hf)⟩

theorem treeInv_complete {adj : FaceAdjacency} {root : ℤ} {n : ℕ}
    {vis : List Bool} {par : List ℤ} (hinv : TreeInv adj root n [] vis par) :
    ∀ f, Reaches adj root f → zread vis f = some true := by
  intro f hf
  induction hf with
  | refl => exact hinv.rootVisited
  | tail hab hbc ih =>
    obtain ⟨e, he, rfl⟩ := hbc
    exact hinv.closed _ ih (by simp) e he

theorem parIter_succ (parent : List ℤ) (k : ℕ) (f : ℤ) :
    parIter parent (k + 1) f =
      match zread parent f with
      | none => none
      | some g => if g = -1 then none else parIter parent k g := rfl

theorem parIter_add {parent : List ℤ} (a b : ℕ) (f : ℤ) :
    parIter parent (a + b) f =
      (parIter parent b f).bind (fun g => parIter parent a g) := by
  induction b generalizing f with
  | zero => simp [parIter]
  | succ b ihb =>
    have hab : a + (b + 1) = (a + b) + 1 := by omega
    rw [hab, parIter_succ, parIter_succ]
    cases hg : zread parent f with
    | none => simp
    | some g =>
      simp only
      by_cases hg1 : g = -1
      · simp [hg1]
      · simp only [if_neg hg1]
        exact ihb g

theorem parIter_root_none {parent : List ℤ} {root : ℤ}
    (hroot : zread parent root = some (-1)) :
    ∀ k, 1 ≤ k → parIter parent k root = none := by
  intro k hk
  cases k with
  | zero => omega
  | succ k =>
    unfold parIter
    rw [hroot]
    simp

theorem parIter_no_cycle {parent : List ℤ} {root f : ℤ} {m k : ℕ}
    (hroot : zread parent root = some (-1))
    (hchain : parIter parent m f = some root)
    (hcyc : parIter parent k f = some f) (hk : 1 ≤ k) : False := by
  have h1 : parIter parent (k + m) f = none := by
    rw [parIter_add k m f, hchain]
    simpa using parIter_root_none hroot k hk
  have h2 : parIter parent (m + k) f = some root := by
    rw [parIter_add m k f, hcyc]
    simpa using hchain
  rw [Nat.add_comm k m] at h1
  rw [h1] at h2
  exact Option.noConfusion h2

theorem spanningTree_inv {adj : FaceAdjacency} {root : ℤ} {n : ℕ}
    {parent : List ℤ} (h : BuildFaceSpanningTree adj root n = some parent) :
    (0 ≤ root ∧ root.toNat < n) ∧
      ∃ vis, TreeInv adj root n [] vis parent := by
  unfold BuildFaceSpanningTree at h
  cases hw : zwrite (List.replicate n false) root true with
  | none => rw [hw] at h; simp at h
  | some vis0 =>
    rw [hw] at h
    simp only at h
    obtain ⟨hr0, hrlt, -⟩ := zwrite_eq_some hw
    have hrlt' : root.toNat < n := by simpa using hrlt
    have hinv0 : TreeInv adj root n [root] vis0 (List.replicate n (-1)) := by
      have hrv : zread vis0 root = some true := zread_zwrite_self hw
      have hother : ∀ f, f ≠ root → zread vis0 f = zread (List.replicate n false) f :=
        fun f hf => zread_zwrite_ne hw hf
      have honly : ∀ f, zread vis0 f = some true → f = root := by
        intro f hf
        by_contra hc
        rw [hother f hc] at hf
        obtain ⟨-, hg⟩ := zread_eq_some.mp hf
        obtain ⟨hlt, hval⟩ := List.get?_eq_some.mp hg
        simp at hval
      refine ⟨by rw [zwrite_length hw]; simp, by simp, hrv, ?_, ?_, ?_, ?_, ?_, ?_, ?_⟩
      · exact zread_replicate hr0 hrlt'
      · intro f hf
        rw [honly f hf]
        exact Relation.ReflTransGen.refl
      · intro f g hpg hgne
        exfalso
        obtain ⟨h0, hg⟩ := zread_eq_some.mp hpg
        obtain ⟨hlt, hval⟩ := List.get?_eq_some.mp hg
        apply hgne
        simpa using hval.symm
      · intro f hf
        rw [honly f hf]
        exact ⟨0, rfl⟩
      · intro x hx
        obtain rfl : x = root := by simpa using hx
        exact hrv
      · exact List.nodup_singleton _
      · intro f hf hfq e he
        exact absurd (honly f hf) (by intro hc; exact hfq (by simp [hc]))
    obtain ⟨vis2, hinv2, -⟩ := bfsLoop_inv n h hinv0
    exact ⟨⟨hr0, hrlt'⟩, vis2, hinv2⟩

theorem spanningTree_facts {adj : FaceAdjacency} {root : ℤ} {n : ℕ}
    {parent : List ℤ} (h : BuildFaceSpanningTree adj root n = some parent) :
    parent.length = n ∧
    zread parent root = some (-1) ∧
    (∀ f, 0 ≤ f → f.toNat < n → ¬ Reaches adj root f →
      zread parent f = some (-1)) ∧
    (∀ f, Reaches adj root f → ReachRoot parent root f) ∧
    (∀ f, Reaches adj root f → ∀ k, 1 ≤ k → parIter parent k f ≠ some f) ∧
    (∀ f g, zread parent f = some g → g ≠ -1 →
      ∃ e ∈ adj.get g, e.faceIndex = f) := by
  obtain ⟨⟨hr0, hrlt⟩, vis, hinv⟩ := spanningTree_inv h
  refine ⟨hinv.lenP, hinv.rootPar, ?_, ?_, ?_, ?_⟩
  · intro f hf0 hflt hnreach
    obtain ⟨g, hg⟩ := zread_of_lt (l := parent) hf0 (by rw [hinv.lenP]; exact hflt)
    by_cases hg1 : g = -1
    · rw [hg1] at hg; exact hg
    · exfalso
      obtain ⟨hvf, -, -⟩ := hinv.parSet f g hg hg1
      exact hnreach (hinv.visitedReach f hvf)
  · intro f hf
    exact hinv.visitedChain f (treeInv_complete hinv f hf)
  · intro f hf k hk hcyc
    obtain ⟨m, hm⟩ := hinv.visitedChain f (treeInv_complete hinv f hf)
    exact parIter_no_cycle hinv.rootPar hm hcyc hk
  · intro f g hpg hgne
    exact (hinv.parSet f g hpg hgne).2.2

theorem spanningTree_oob {adj : FaceAdjacency} {root : ℤ} {n : ℕ}
    (h : ¬ (0 ≤ root ∧ root.toNat < n)) :
    BuildFaceSpanningTree adj root n = none := by
  unfold BuildFaceSpanningTree
  cases hw : zwrite (List.replicate n false) root true with
  | none => rfl
  | some vis0 =>
    exfalso
    obtain ⟨h0, hlt, -⟩ := zwrite_eq_some hw
    exact h ⟨h0, by simpa using hlt⟩

theorem visitNbrs_total {cur : ℤ} :
    ∀ {nbrs : List FaceNeighbor} {q : List ℤ} {vis : List Bool} {par : List ℤ},
    (∀ e ∈ nbrs, 0 ≤ e.faceIndex ∧ e.faceIndex.toNat < vis.length) →
    par.length = vis.length →
    ∃ q2 vis2 par2 m, visitNbrs cur nbrs q vis par = some (q2, vis2, par2) ∧
      q2.length = q.length + m ∧ vis2.count true = vis.count true + m ∧
      vis2.length = vis.length ∧ par2.length = par.length := by
  intro nbrs
  induction nbrs with
  | nil =>
    intro q vis par _ _
    exact ⟨q, vis, par, 0, rfl, by omega, by omega, rfl, rfl⟩
  | cons nbr rest ih =>
    intro q vis par hwf hlen
    obtain ⟨hnn, hnlt⟩ := hwf nbr (List.mem_cons_self _ _)
    obtain ⟨b, hb⟩ := zread_of_lt (l := vis) hnn hnlt
    unfold visitNbrs
    rw [hb]
    cases b with
    | true =>
      simp only
      exact ih (fun e he => hwf e (List.mem_cons_of_mem _ he)) hlen
    | false =>
      simp only
      obtain ⟨vis2, hw1⟩ := zwrite_isSome (a := true) hnn hnlt
      obtain ⟨par2, hw2⟩ := zwrite_isSome (a := cur) hnn (by rw [hlen]; exact hnlt)
      rw [hw1, hw2]
      simp only
      have hlen2 : vis2.length = vis.length := zwrite_length hw1
      obtain ⟨q3, vis3, par3, m, hrun, hq3, hc3, hv3, hp3⟩ :=
        @ih (q ++ [nbr.faceIndex]) vis2 par2
          (fun e he => by rw [hlen2]; exact hwf e (List.mem_cons_of_mem _ he))
          (by rw [zwrite_length hw2, hlen, hlen2])
      refine ⟨q3, vis3, par3, m + 1, hrun, ?_, ?_, ?_, ?_⟩
      · simp at hq3; omega
      · rw [hc3, count_true_set hw1 hb]; omega
      · rw [hv3, hlen2]
      · rw [hp3, zwrite_length hw2]

theorem bfsLoop_total {adj : FaceAdjacency} {n : ℕ} :
    ∀ (fuel : ℕ) {q : List ℤ} {vis : List Bool} {par : List ℤ},
    AdjWF adj n → vis.length = n → par.length = n →
    n - vis.count true + q.length ≤ fuel →
    ∃ res, bfsLoop adj fuel q vis par = some res := by
  intro fuel
  induction fuel with
  | zero =>
    intro q vis par _ hlv _ hfuel
    cases q with
    | nil => exact ⟨par, rfl⟩
    | cons cur rest =>
      exfalso
      simp only [List.length_cons] at hfuel
      omega
  | succ fuel ih =>
    intro q vis par hA hlv hlp hfuel
    cases q with
    | nil => exact ⟨par, rfl⟩
    | cons cur rest =>
      have hwf : ∀ e ∈ adj.get cur, 0 ≤ e.faceIndex ∧ e.faceIndex.toNat < vis.length := by
        intro e he
        have := hA (cur, e) (mem_get_iff.mp he)
        exact ⟨this.2.1, by rw [hlv]; exact this.2.2⟩
      obtain ⟨q2, vis2, par2, m, hrun, hq2, hc2, hv2, hp2⟩ :=
        visitNbrs_total hwf (by rw [hlv, hlp])
      unfold bfsLoop
      rw [hrun]
      simp only
      have hc2le : vis2.count true ≤ vis2.length := List.count_le_length _ _
      refine ih hA (by omega) (by omega) ?_
      simp only [List.length_cons] at hfuel
      omega

theorem spanningTree_isSome {adj : FaceAdjacency} {root : ℤ} {n : ℕ}
    (hA : AdjWF adj n) (h0 : 0 ≤ root) (hlt : root.toNat < n) :
    ∃ parent, BuildFaceSpanningTree adj root n = some parent := by
  unfold BuildFaceSpanningTree
  obtain ⟨vis0, hw⟩ := zwrite_isSome (l := List.replicate n false) (a := true) h0
    (by simpa using hlt)
  rw [hw]
  simp only
  have hcount : vis0.count true = 1 := by
    have h1 : (List.replicate n false).count true = 0 := by
      simp [List.count_replicate]
    have := count_true_set hw (zread_replicate h0 hlt)
    omega
  refine bfsLoop_total n hA (by rw [zwrite_length hw]; simp) (by simp) ?_
  rw [hcount]
  simp only [List.length_singleton]
  omega

/-! ### Vector algebra -/

theorem lenSq_nonneg (v : Vec3) : 0 ≤ lenSq v := by
  unfold lenSq dot
  nlinarith [sq_nonneg v.x, sq_nonneg v.y, sq_nonneg v.z]

theorem vlen_sq {v : Vec3} : (vlen v) ^ 2 = lenSq v := by
  unfold vlen
  exact Real.sq_sqrt (lenSq_nonneg v)

theorem vlen_ne_zero {v : Vec3} (h : lenSq v ≠ 0) : vlen v ≠ 0 := by
  intro hc
  apply h
  rw [← vlen_sq, hc]
  ring

theorem vnormalize_ok {v u : Vec3} (h : vnormalize v = .ok u) :
    lenSq v ≠ 0 ∧ u = ⟨v.x / vlen v, v.y / vlen v, v.z / vlen v⟩ := by
  unfold vnormalize at h
  by_cases hz : lenSq v = 0
  · rw [if_pos hz] at h; exact absurd h (by simp)
  · rw [if_neg hz] at h
    exact ⟨hz, by injection h with h2; exact h2.symm⟩

theorem vnormalize_err {v : Vec3} (h : lenSq v = 0) :
    vnormalize v = .error .invalidGeometry := by
  unfold vnormalize
  rw [if_pos h]

theorem dot_vnormalize {v u : Vec3} (h : vnormalize v = .ok u) (a : Vec3) :
    dot a u = dot a v / vlen v := by
  obtain ⟨hz, rfl⟩ := vnormalize_ok h
  unfold dot
  field_simp

theorem vnormalize_unit {v u : Vec3} (h : vnormalize v = .ok u) :
    lenSq u = 1 := by
  obtain ⟨hz, rfl⟩ := vnormalize_ok h
  have hL : vlen v ≠ 0 := vlen_ne_zero hz
  have hL2 : (vlen v) ^ 2 = lenSq v := vlen_sq
  unfold lenSq dot at *
  field_simp
  linear_combination (-1 : ℝ) * hL2

theorem dot_cross_self_left (a b : Vec3) : dot (cross a b) a = 0 := by
  unfold dot cross; ring

theorem dot_cross_self_right (a b : Vec3) : dot (cross a b) b = 0 := by
  unfold dot cross; ring

theorem parseval_basis {a b q : Vec3} (ha : lenSq a = 1) (hb : lenSq b = 1)
    (hab : dot a b = 0) :
    (dot q a) ^ 2 + (dot q b) ^ 2 + (dot q (cross a b)) ^ 2 = lenSq q := by
  unfold lenSq dot cross at *
  linear_combination
    ((q.x^2 + q.y^2 + q.z^2) * (b.x^2 + b.y^2 + b.z^2)
      - (q.x*b.x + q.y*b.y + q.z*b.z)^2) * ha +
    ((q.x^2 + q.y^2 + q.z^2) - (q.x*a.x + q.y*a.y + q.z*a.z)^2) * hb +
    (2*(q.x*a.x + q.y*a.y + q.z*a.z)*(q.x*b.x + q.y*b.y + q.z*b.z)
      - (q.x^2 + q.y^2 + q.z^2)*(a.x*b.x + a.y*b.y + a.z*b.z)) * hab

theorem dot_comm (a b : Vec3) : dot a b = dot b a := by
  unfold dot; ring

theorem mapM_option_get {α β : Type _} {f : α → Option β} :
    ∀ {l : List α} {r : List β}, l.mapM f = some r →
      r.length = l.length ∧
      ∀ i, i < l.length → ∀ (d : α) (d2 : β), f (l.getD i d) = some (r.getD i d2) := by
  intro l
  induction l with
  | nil =>
    intro r h
    rw [List.mapM_nil] at h
    obtain rfl : ([] : List β) = r := Option.some.inj h
    refine ⟨rfl, ?_⟩
    intro i hi d d2
    simp at hi
  | cons a l ih =>
    intro r h
    rw [List.mapM_cons] at h
    cases hfa : f a with
    | none => rw [hfa] at h; simp at h
    | some b =>
      rw [hfa] at h
      cases hml : l.mapM f with
      | none => rw [hml] at h; simp at h
      | some bs =>
        rw [hml] at h
        obtain rfl : b :: bs = r := by simpa using h
        obtain ⟨hlen, hget⟩ := ih hml
        refine ⟨by simpa using hlen, ?_⟩
        intro i hi d d2
        cases i with
        | zero => simpa using hfa
        | succ i =>
          simp only [List.getD_cons_succ]
          exact hget i (by simpa using hi) d d2

theorem writeCoords_facts :
    ∀ {ids : List ℤ} {cs : List Point2} {v2d v2d2 : List Point2},
    writeCoords v2d ids cs = some v2d2 →
    v2d2.length = v2d.length ∧
      ∀ w, w ∉ ids → zread v2d2 w = zread v2d w := by
  intro ids
  induction ids with
  | nil =>
    intro cs v2d v2d2 h
    unfold writeCoords at h
    obtain rfl : v2d = v2d2 := by simpa using h
    exact ⟨rfl, fun w _ => rfl⟩
  | cons v vs ih =>
    intro cs v2d v2d2 h
    cases cs with
    | nil =>
      unfold writeCoords at h
      obtain rfl : v2d = v2d2 := by simpa using h
      exact ⟨rfl, fun w _ => rfl⟩
    | cons c cs2 =>
      unfold writeCoords at h
      cases hw : zwrite v2d v c with
      | none => rw [hw] at h; simp at h
      | some v2db =>
        rw [hw] at h
        simp only at h
        obtain ⟨hlen, hfr⟩ := ih h
        refine ⟨by rw [hlen, zwrite_length hw], ?_⟩
        intro w hwmem
        have hwv : w ≠ v := fun hc => hwmem (by simp [hc])
        have hwvs : w ∉ vs := fun hc => hwmem (by simp [hc])
        rw [hfr w hwvs, zread_zwrite_ne hw hwv]

theorem writeCoords_total :
    ∀ {ids : List ℤ} {cs : List Point2} {v2d : List Point2},
    (∀ v ∈ ids, 0 ≤ v ∧ v.toNat < v2d.length) →
    ∃ v2d2, writeCoords v2d ids cs = some v2d2 := by
  intro ids
  induction ids with
  | nil => intro cs v2d _; exact ⟨v2d, by simp [writeCoords]⟩
  | cons v vs ih =>
    intro cs v2d hb
    cases cs with
    | nil => exact ⟨v2d, by simp [writeCoords]⟩
    | cons c cs2 =>
      obtain ⟨h0, hlt⟩ := hb v (List.mem_cons_self _ _)
      obtain ⟨v2db, hw⟩ := zwrite_isSome (a := c) h0 hlt
      obtain ⟨v2d2, h2⟩ := @ih cs2 v2db
        (fun w hwm => by
          obtain ⟨hw0, hwlt⟩ := hb w (List.mem_cons_of_mem _ hwm)
          exact ⟨hw0, by rw [zwrite_length hw]; exact hwlt⟩)
      refine ⟨v2d2, ?_⟩
      unfold writeCoords
      rw [hw]
      exact h2

theorem writeCoords_read (g : ℤ → Point2) :
    ∀ {ids : List ℤ} {cs : List Point2} {v2d v2d2 : List Point2},
    writeCoords v2d ids cs = some v2d2 →
    cs.length = ids.length →
    (∀ i, i < ids.length → cs.getD i ⟨0, 0⟩ = g (ids.getD i 0)) →
    ∀ w ∈ ids, zread v2d2 w = some (g w) := by
  intro ids
  induction ids with
  | nil => intro cs v2d v2d2 _ _ _ w hw; simp at hw
  | cons v vs ih =>
    intro cs v2d v2d2 h hlen hg w hw
    cases cs with
    | nil => simp at hlen
    | cons c cs2 =>
      unfold writeCoords at h
      cases hwv : zwrite v2d v c with
      | none => rw [hwv] at h; simp at h
      | some v2db =>
        rw [hwv] at h
        simp only at h
        have hc : c = g v := by simpa using hg 0 (by simp)
        by_cases hmem : w ∈ vs
        · exact ih h (by simpa using hlen)
            (fun i hi => by simpa using hg (i + 1) (by simpa using hi)) w hmem
        · obtain rfl : w = v := by
            rcases List.mem_cons.mp hw with rfl | hc2
            · rfl
            · exact absurd hc2 hmem
          obtain ⟨-, hfr⟩ := writeCoords_facts h
          rw [hfr w hmem, zread_zwrite_self hwv, hc]

theorem faceBasis_ok {poly : Polyhedron} {face : Face} {p0 xA yA : Vec3}
    (h : faceBasis poly face = some (.ok (p0, xA, yA))) :
    3 ≤ face.vertices.length ∧
    ∃ p1 p2, zread poly.vertices (face.vertices.getD 0 0) = some p0 ∧
      zread poly.vertices (face.vertices.getD 1 0) = some p1 ∧
      zread poly.vertices (face.vertices.getD 2 0) = some p2 ∧
      vnormalize (sub p1 p0) = .ok xA ∧
      ∃ nrm, vnormalize (cross (sub p1 p0) (sub p2 p0)) = .ok nrm ∧
        yA = cross nrm xA := by
  unfold faceBasis at h
  by_cases hlen : face.vertices.length < 3
  · rw [if_pos hlen] at h; simp at h
  · rw [if_neg hlen] at h
    cases hr0 : zread poly.vertices (face.vertices.getD 0 0) with
    | none => rw [hr0] at h; simp at h
    | some q0 =>
      cases hr1 : zread poly.vertices (face.vertices.getD 1 0) with
      | none => rw [hr0, hr1] at h; simp at h
      | some q1 =>
        cases hr2 : zread poly.vertices (face.vertices.getD 2 0) with
        | none => rw [hr0, hr1, hr2] at h; simp at h
        | some q2 =>
          rw [hr0, hr1, hr2] at h
          simp only at h
          cases hn1 : vnormalize (sub q1 q0) with
          | error e => rw [hn1] at h; simp at h
          | ok xAxis =>
            rw [hn1] at h
            simp only at h
            cases hn2 : vnormalize (cross (sub q1 q0) (sub q2 q0)) with
            | error e => rw [hn2] at h; simp at h
            | ok nrm =>
              rw [hn2] at h
              simp only [Option.some.injEq, Except.ok.injEq, Prod.mk.injEq] at h
              obtain ⟨rfl, rfl, rfl⟩ := h
              exact ⟨by omega, q1, q2, rfl, rfl, rfl, hn1, nrm, hn2, rfl⟩

theorem faceBasis_err_cases {poly : Polyhedron} {face : Face} {e : GeomError}
    (h : faceBasis poly face = some (.error e)) : BadFace poly face := by
  unfold faceBasis at h
  by_cases hlen : face.vertices.length < 3
  · exact Or.inl hlen
  · rw [if_neg hlen] at h
    cases hr0 : zread poly.vertices (face.vertices.getD 0 0) with
    | none => rw [hr0] at h; simp at h
    | some q0 =>
      cases hr1 : zread poly.vertices (face.vertices.getD 1 0) with
      | none => rw [hr0, hr1] at h; simp at h
      | some q1 =>
        cases hr2 : zread poly.vertices (face.vertices.getD 2 0) with
        | none => rw [hr0, hr1, hr2] at h; simp at h
        | some q2 =>
          rw [hr0, hr1, hr2] at h
          simp only at h
          cases hn1 : vnormalize (sub q1 q0) with
          | error e2 =>
            right
            refine ⟨q0, q1, q2, hr0, hr1, hr2, Or.inl ?_⟩
            by_contra hc
            unfold vnormalize at hn1
            rw [if_neg hc] at hn1
            simp at hn1
          | ok xAxis =>
            rw [hn1] at h
            simp only at h
            cases hn2 : vnormalize (cross (sub q1 q0) (sub q2 q0)) with
            | error e2 =>
              right
              refine ⟨q0, q1, q2, hr0, hr1, hr2, Or.inr ?_⟩
              by_contra hc
              rw [vnormalize] at hn2
              rw [if_neg hc] at hn2
              simp at hn2
            | ok nrm => rw [hn2] at h; simp at h

theorem faceBasis_ok_of_good {poly : Polyhedron} {face : Face}
    (hlen : ¬ face.vertices.length < 3)
    {q0 q1 q2 : Vec3}
    (hr0 : zread poly.vertices (face.vertices.getD 0 0) = some q0)
    (hr1 : zread poly.vertices (face.vertices.getD 1 0) = some q1)
    (hr2 : zread poly.vertices (face.vertices.getD 2 0) = some q2)
    (he1 : lenSq (sub q1 q0) ≠ 0)
    (he2 : lenSq (cross (sub q1 q0) (sub q2 q0)) ≠ 0) :
    ∃ xA nrm, faceBasis poly face = some (.ok (q0, xA, cross nrm xA)) ∧
      vnormalize (sub q1 q0) = .ok xA ∧
      vnormalize (cross (sub q1 q0) (sub q2 q0)) = .ok nrm := by
  unfold faceBasis
  rw [if_neg hlen, hr0, hr1, hr2]
  simp only
  unfold vnormalize
  rw [if_neg he1, if_neg he2]
  simp only
  exact ⟨_, _, rfl, rfl, rfl⟩

theorem basis_proj_dist {poly : Polyhedron} {face : Face} {p0 xA yA : Vec3}
    (h : faceBasis poly face = some (.ok (p0, xA, yA))) :
    ∃ p1 p2, zread poly.vertices (face.vertices.getD 0 0) = some p0 ∧
      zread poly.vertices (face.vertices.getD 1 0) = some p1 ∧
      zread poly.vertices (face.vertices.getD 2 0) = some p2 ∧
      ∀ q : Vec3, dot q (cross (sub p1 p0) (sub p2 p0)) = 0 →
        (dot q xA) ^ 2 + (dot q yA) ^ 2 = lenSq q := by
  obtain ⟨-, p1, p2, hr0, hr1, hr2, hn1, nrm, hn2, rfl⟩ := faceBasis_ok h
  refine ⟨p1, p2, hr0, hr1, hr2, ?_⟩
  intro q hq
  have hxu : lenSq xA = 1 := vnormalize_unit hn1
  have hnu : lenSq nrm = 1 := vnormalize_unit hn2
  have hqn : dot q nrm = 0 := by
    rw [dot_vnormalize hn2 q, hq]
    simp
  have hnx : dot nrm xA = 0 := by
    rw [dot_vnormalize hn1 nrm]
    have h1 : dot nrm (sub p1 p0) = 0 := by
      rw [dot_comm nrm (sub p1 p0), dot_vnormalize hn2 (sub p1 p0)]
      rw [dot_comm (sub p1 p0) (cross (sub p1 p0) (sub p2 p0)), dot_cross_self_left]
      simp
    rw [h1]
    simp
  have hp := parseval_basis hnu hxu hnx (q := q)
  rw [hqn] at hp
  simpa using hp

theorem dot_sub_split (pa pb p0 w : Vec3) :
    dot (sub pa pb) w = dot (sub pa p0) w - dot (sub pb p0) w := by
  unfold dot sub; ring

theorem getD_mem_of_lt {l : List ℤ} {i : ℕ} (h : i < l.length) :
    l.getD i 0 ∈ l := by
  rw [List.getD_eq_get l 0 h]
  exact List.get_mem _ _ _

theorem cand_isometric {poly : Polyhedron} {face : Face} {p0 xA yA : Vec3}
    {cs : List Point2}
    (hb : faceBasis poly face = some (.ok (p0, xA, yA)))
    (hc : candCoords poly face p0 xA yA = some cs)
    (hpl : PlanarFace poly face) :
    IsomFace poly face cs := by
  obtain ⟨p1, p2, hr0, hr1, hr2, hdist⟩ := basis_proj_dist hb
  unfold candCoords at hc
  obtain ⟨hlen, hget⟩ := mapM_option_get hc
  refine ⟨hlen, ?_⟩
  intro i pa pb hi hra hrb
  have hj : (i + 1) % face.vertices.length < face.vertices.length :=
    Nat.mod_lt _ (by omega)
  have hcsi : cs.getD i ⟨0, 0⟩ = projVertex p0 xA yA pa := by
    have h2 := hget i hi 0 ⟨0, 0⟩
    rw [hra] at h2
    simpa using h2.symm
  have hcsj : cs.getD ((i + 1) % face.vertices.length) ⟨0, 0⟩ =
      projVertex p0 xA yA pb := by
    have h2 := hget _ hj 0 ⟨0, 0⟩
    rw [hrb] at h2
    simpa using h2.symm
  have hqa := hpl p0 p1 p2 hr0 hr1 hr2 _ (getD_mem_of_lt hi) pa hra
  have hqb := hpl p0 p1 p2 hr0 hr1 hr2 _ (getD_mem_of_lt hj) pb hrb
  have hq : dot (sub pa pb) (cross (sub p1 p0) (sub p2 p0)) = 0 := by
    rw [dot_sub_split pa pb p0, hqa, hqb]
    ring
  have hd := hdist (sub pa pb) hq
  rw [hcsi, hcsj]
  unfold dist2 dist3 projVertex
  simp only
  congr 1
  rw [show dot (sub pa p0) xA - dot (sub pb p0) xA = dot (sub pa pb) xA from
    (dot_sub_split pa pb p0 xA).symm]
  rw [show dot (sub pa p0) yA - dot (sub pb p0) yA = dot (sub pa pb) yA from
    (dot_sub_split pa pb p0 yA).symm]
  exact hd

theorem rigid_dist2 {c s : ℝ} (h : c ^ 2 + s ^ 2 = 1) (s0 t0 p q : Point2) :
    dist2 ⟨c * (p.x - s0.x) - s * (p.y - s0.y) + t0.x,
           s * (p.x - s0.x) + c * (p.y - s0.y) + t0.y⟩
          ⟨c * (q.x - s0.x) - s * (q.y - s0.y) + t0.x,
           s * (q.x - s0.x) + c * (q.y - s0.y) + t0.y⟩ = dist2 p q := by
  unfold dist2
  congr 1
  simp only
  linear_combination ((p.x - q.x) ^ 2 + (p.y - q.y) ^ 2) * h

theorem solve_unit {dsx dsy dtx dty : ℝ} (hs : dsx ^ 2 + dsy ^ 2 ≠ 0)
    (ht : dtx ^ 2 + dty ^ 2 ≠ 0) :
    ((dsx * dtx + dsy * dty) /
        (Real.sqrt (dsx ^ 2 + dsy ^ 2) * Real.sqrt (dtx ^ 2 + dty ^ 2))) ^ 2 +
    ((dsx * dty - dsy * dtx) /
        (Real.sqrt (dsx ^ 2 + dsy ^ 2) * Real.sqrt (dtx ^ 2 + dty ^ 2))) ^ 2 = 1 := by
  have hsq : (Real.sqrt (dsx ^ 2 + dsy ^ 2)) ^ 2 = dsx ^ 2 + dsy ^ 2 :=
    Real.sq_sqrt (by positivity)
  have htq : (Real.sqrt (dtx ^ 2 + dty ^ 2)) ^ 2 = dtx ^ 2 + dty ^ 2 :=
    Real.sq_sqrt (by positivity)
  rw [div_pow, div_pow, div_add_div_same, mul_pow, hsq, htq]
  rw [show (dsx * dtx + dsy * dty) ^ 2 + (dsx * dty - dsy * dtx) ^ 2 =
    (dsx ^ 2 + dsy ^ 2) * (dtx ^ 2 + dty ^ 2) from by ring]
  exact div_self (mul_ne_zero hs ht)

theorem getD_map_lt {α β : Type _} (f : α → β) {l : List α} {i : ℕ}
    (h : i < l.length) (d : α) (d2 : β) :
    (l.map f).getD i d2 = f (l.getD i d) := by
  rw [List.getD_eq_get l d h,
    List.getD_eq_get (l.map f) d2 (by simpa using h)]
  simp

theorem mapM_option_total {α β : Type _} {f : α → Option β} :
    ∀ {l : List α}, (∀ a ∈ l, (f a).isSome) → ∃ r, l.mapM f = some r := by
  intro l
  induction l with
  | nil => intro _; exact ⟨[], by rw [List.mapM_nil]; rfl⟩
  | cons a t ih =>
    intro h
    obtain ⟨b, hb⟩ := Option.isSome_iff_exists.mp (h a (List.mem_cons_self _ _))
    obtain ⟨r, hr⟩ := ih (fun x hx => h x (List.mem_cons_of_mem _ hx))
    exact ⟨b :: r, by rw [List.mapM_cons, hb, hr]; rfl⟩

theorem faceBasis_notBad {poly : Polyhedron} {face : Face} {p0 xA yA : Vec3}
    (h : faceBasis poly face = some (.ok (p0, xA, yA))) :
    ¬ BadFace poly face := by
  obtain ⟨hlen, p1, p2, hr0, hr1, hr2, hn1, nrm, hn2, -⟩ := faceBasis_ok h
  intro hbad
  rcases hbad with hl | ⟨q0, q1, q2, hq0, hq1, hq2, hor⟩
  · omega
  · obtain rfl : q0 = p0 := by rw [hr0] at hq0; exact (Option.some.inj hq0).symm
    obtain rfl : q1 = p1 := by rw [hr1] at hq1; exact (Option.some.inj hq1).symm
    obtain rfl : q2 = p2 := by rw [hr2] at hq2; exact (Option.some.inj hq2).symm
    rcases hor with h1 | h2
    · exact (vnormalize_ok hn1).1 h1
    · exact (vnormalize_ok hn2).1 h2

theorem faceBasis_total {poly : Polyhedron} {face : Face}
    (hmem : ∀ v ∈ face.vertices, 0 ≤ v ∧ v.toNat < poly.vertices.length) :
    ∃ r, faceBasis poly face = some r := by
  unfold faceBasis
  by_cases hlen : face.vertices.length < 3
  · rw [if_pos hlen]; exact ⟨_, rfl⟩
  · rw [if_neg hlen]
    obtain ⟨h00, h0lt⟩ := hmem _ (getD_mem_of_lt (l := face.vertices) (i := 0) (by omega))
    obtain ⟨h10, h1lt⟩ := hmem _ (getD_mem_of_lt (l := face.vertices) (i := 1) (by omega))
    obtain ⟨h20, h2lt⟩ := hmem _ (getD_mem_of_lt (l := face.vertices) (i := 2) (by omega))
    obtain ⟨q0, hq0⟩ := zread_of_lt h00 h0lt
    obtain ⟨q1, hq1⟩ := zread_of_lt h10 h1lt
    obtain ⟨q2, hq2⟩ := zread_of_lt h20 h2lt
    rw [hq0, hq1, hq2]
    simp only
    cases hn1 : vnormalize (sub q1 q0) with
    | error e => exact ⟨_, rfl⟩
    | ok xAxis =>
      cases hn2 : vnormalize (cross (sub q1 q0) (sub q2 q0)) with
      | error e => exact ⟨_, rfl⟩
      | ok nrm => exact ⟨_, rfl⟩

theorem candCoords_total {poly : Polyhedron} {face : Face} (p0 xA yA : Vec3)
    (hmem : ∀ v ∈ face.vertices, 0 ≤ v ∧ v.toNat < poly.vertices.length) :
    ∃ cs, candCoords poly face p0 xA yA = some cs := by
  unfold candCoords
  apply mapM_option_total
  intro v hv
  obtain ⟨h0, hlt⟩ := hmem v hv
  obtain ⟨pv, hpv⟩ := zread_of_lt h0 hlt
  rw [hpv]
  rfl

theorem placeRootFace_ok {poly : Polyhedron} {fidx : ℤ}
    {v2d cs v2d2 : List Point2}
    (h : placeRootFace poly fidx v2d = some (.ok (cs, v2d2))) :
    ∃ face p0 xA yA, zread poly.faces fidx = some face ∧
      faceBasis poly face = some (.ok (p0, xA, yA)) ∧
      candCoords poly face p0 xA yA = some cs ∧
      ¬ BadFace poly face ∧
      v2d2.length = v2d.length ∧
      (∀ w, w ∉ face.vertices → zread v2d2 w = zread v2d w) ∧
      (∀ w ∈ face.vertices, ∀ pw, zread poly.vertices w = some pw →
        zread v2d2 w = some (projVertex p0 xA yA pw)) := by
  unfold placeRootFace at h
  cases hface : zread poly.faces fidx with
  | none => rw [hface] at h; simp at h
  | some face =>
    rw [hface] at h
    simp only at h
    cases hb : faceBasis poly face with
    | none => rw [hb] at h; simp at h
    | some r =>
      rw [hb] at h
      cases r with
      | error e => simp at h
      | ok trip =>
        obtain ⟨p0, xA, yA⟩ := trip
        simp only at h
        cases hc : candCoords poly face p0 xA yA with
        | none => rw [hc] at h; simp at h
        | some cs0 =>
          rw [hc] at h
          simp only at h
          cases hw : writeCoords v2d face.vertices cs0 with
          | none => rw [hw] at h; simp at h
          | some v2db =>
            rw [hw] at h
            simp only [Option.some.injEq, Except.ok.injEq, Prod.mk.injEq] at h
            obtain ⟨rfl, rfl⟩ := h
            obtain ⟨hlenw, hframe⟩ := writeCoords_facts hw
            unfold candCoords at hc
            obtain ⟨hlencs, hget⟩ := mapM_option_get hc
            refine ⟨face, p0, xA, yA, rfl, hb, by unfold candCoords; exact hc,
              faceBasis_notBad hb, hlenw, hframe, ?_⟩
            intro w hwmem pw hpw
            have hg : ∀ i, i < face.vertices.length → cs0.getD i ⟨0, 0⟩ =
                (fun v => ((zread poly.vertices v).map (projVertex p0 xA yA)).getD ⟨0, 0⟩)
                  (face.vertices.getD i 0) := by
              intro i hi
              have h2 := hget i hi 0 ⟨0, 0⟩
              simp only
              rw [h2]
              rfl
            have hread := writeCoords_read
              (fun v => ((zread poly.vertices v).map (projVertex p0 xA yA)).getD ⟨0, 0⟩)
              hw hlencs hg w hwmem
            simp only at hread
            rw [hpw] at hread
            simpa using hread

theorem rigidFrom_dist {s0 s1 t0 t1 : Point2}
    (hs : (s1.x - s0.x) ^ 2 + (s1.y - s0.y) ^ 2 ≠ 0)
    (ht : (t1.x - t0.x) ^ 2 + (t1.y - t0.y) ^ 2 ≠ 0) (p q : Point2) :
    dist2 (rigidFrom s0 s1 t0 t1 p) (rigidFrom s0 s1 t0 t1 q) = dist2 p q := by
  unfold rigidFrom
  exact rigid_dist2 (solve_unit hs ht) s0 t0 p q

theorem placeAdjacentFace_ok {poly : Polyhedron} {nf : ℤ} {nbr : FaceNeighbor}
    {v2d cs v2d2 : List Point2}
    (h : placeAdjacentFace poly nf nbr v2d = some (.ok (cs, v2d2))) :
    ∃ face, zread poly.faces nf = some face ∧
      ¬ BadFace poly face ∧
      (PlanarFace poly face → IsomFace poly face cs) ∧
      v2d2.length = v2d.length ∧
      (∀ w, w ∉ face.vertices → zread v2d2 w = zread v2d w) := by
  unfold placeAdjacentFace at h
  cases hface : zread poly.faces nf with
  | none => rw [hface] at h; simp at h
  | some face =>
    rw [hface] at h
    simp only at h
    cases hb : faceBasis poly face with
    | none => rw [hb] at h; simp at h
    | some r =>
      rw [hb] at h
      cases r with
      | error e => simp at h
      | ok trip =>
        obtain ⟨p0, xA, yA⟩ := trip
        simp only at h
        cases hc : candCoords poly face p0 xA yA with
        | none => rw [hc] at h; simp at h
        | some cs0 =>
          rw [hc] at h
          simp only at h
          cases hpa : zread poly.vertices nbr.sharedEdge.1 with
          | none => rw [hpa] at h; simp at h
          | some pa =>
            cases hpb : zread poly.vertices nbr.sharedEdge.2 with
            | none => rw [hpa, hpb] at h; simp at h
            | some pb =>
              cases ht0 : zread v2d nbr.sharedEdge.1 with
              | none => rw [hpa, hpb, ht0] at h; simp at h
              | some t0 =>
                cases ht1 : zread v2d nbr.sharedEdge.2 with
                | none => rw [hpa, hpb, ht0, ht1] at h; simp at h
                | some t1 =>
                  rw [hpa, hpb, ht0, ht1] at h
                  simp only at h
                  by_cases hcond :
                      ((projVertex p0 xA yA pb).x - (projVertex p0 xA yA pa).x) ^ 2 +
                        ((projVertex p0 xA yA pb).y - (projVertex p0 xA yA pa).y) ^ 2 = 0 ∨
                      (t1.x - t0.x) ^ 2 + (t1.y - t0.y) ^ 2 = 0
                  · rw [if_pos hcond] at h; simp at h
                  · rw [if_neg hcond] at h
                    push_neg at hcond
                    obtain ⟨hs, ht⟩ := hcond
                    cases hw : writeCoords v2d face.vertices
                        (cs0.map (rigidFrom (projVertex p0 xA yA pa)
                          (projVertex p0 xA yA pb) t0 t1)) with
                    | none => rw [hw] at h; simp at h
                    | some v2db =>
                      rw [hw] at h
                      simp only [Option.some.injEq, Except.ok.injEq, Prod.mk.injEq] at h
                      obtain ⟨rfl, rfl⟩ := h
                      obtain ⟨hlenw, hframe⟩ := writeCoords_facts hw
                      refine ⟨face, rfl, faceBasis_notBad hb, ?_, hlenw, hframe⟩
                      intro hpl
                      obtain ⟨hlen0, hedges⟩ := cand_isometric hb hc hpl
                      refine ⟨by simpa using hlen0, ?_⟩
                      intro i qa qb hi hra hrb
                      have hi0 : i < cs0.length := by rw [hlen0]; exact hi
                      have hj0 : (i + 1) % face.vertices.length < cs0.length := by
                        rw [hlen0]; exact Nat.mod_lt _ (by omega)
                      rw [getD_map_lt (rigidFrom (projVertex p0 xA yA pa)
                          (projVertex p0 xA yA pb) t0 t1) hi0 ⟨0, 0⟩ ⟨0, 0⟩,
                        getD_map_lt (rigidFrom (projVertex p0 xA yA pa)
                          (projVertex p0 xA yA pb) t0 t1) hj0 ⟨0, 0⟩ ⟨0, 0⟩]
                      rw [rigidFrom_dist hs ht]
                      exact hedges i qa qb hi hra hrb

theorem placeRootFace_total {poly : Polyhedron} {fidx : ℤ} {v2d : List Point2}
    {face : Face} (hface : zread poly.faces fidx = some face)
    (hmem : ∀ v ∈ face.vertices, 0 ≤ v ∧ v.toNat < poly.vertices.length)
    (hlen : v2d.length = poly.vertices.length) :
    ∃ r, placeRootFace poly fidx v2d = some r := by
  unfold placeRootFace
  rw [hface]
  simp only
  obtain ⟨r, hr⟩ := @faceBasis_total poly face hmem
  rw [hr]
  cases r with
  | error e => exact ⟨_, rfl⟩
  | ok trip =>
    obtain ⟨p0, xA, yA⟩ := trip
    simp only
    obtain ⟨cs, hcs⟩ := @candCoords_total poly face p0 xA yA hmem
    rw [hcs]
    simp only
    obtain ⟨v2d2, hw⟩ := @writeCoords_total face.vertices cs v2d
      (fun v hv => by
        obtain ⟨h0, hlt⟩ := hmem v hv
        exact ⟨h0, by rw [hlen]; exact hlt⟩)
    rw [hw]
    exact ⟨_, rfl⟩

theorem placeAdjacentFace_total {poly : Polyhedron} {nf : ℤ} {nbr : FaceNeighbor}
    {v2d : List Point2} {face : Face}
    (hface : zread poly.faces nf = some face)
    (hmem : ∀ v ∈ face.vertices, 0 ≤ v ∧ v.toNat < poly.vertices.length)
    (hse1 : 0 ≤ nbr.sharedEdge.1 ∧ nbr.sharedEdge.1.toNat < poly.vertices.length)
    (hse2 : 0 ≤ nbr.sharedEdge.2 ∧ nbr.sharedEdge.2.toNat < poly.vertices.length)
    (hlen : v2d.length = poly.vertices.length) :
    ∃ r, placeAdjacentFace poly nf nbr v2d = some r := by
  unfold placeAdjacentFace
  rw [hface]
  simp only
  obtain ⟨r, hr⟩ := @faceBasis_total poly face hmem
  rw [hr]
  cases r with
  | error e => exact ⟨_, rfl⟩
  | ok trip =>
    obtain ⟨p0, xA, yA⟩ := trip
    simp only
    obtain ⟨cs, hcs⟩ := @candCoords_total poly face p0 xA yA hmem
    rw [hcs]
    simp only
    obtain ⟨pa, hpa⟩ := zread_of_lt (l := poly.vertices) hse1.1 hse1.2
    obtain ⟨pb, hpb⟩ := zread_of_lt (l := poly.vertices) hse2.1 hse2.2
    obtain ⟨t0, ht0⟩ := zread_of_lt (l := v2d) hse1.1 (by rw [hlen]; exact hse1.2)
    obtain ⟨t1, ht1⟩ := zread_of_lt (l := v2d) hse2.1 (by rw [hlen]; exact hse2.2)
    rw [hpa, hpb, ht0, ht1]
    simp only
    by_cases hcond :
        ((projVertex p0 xA yA pb).x - (projVertex p0 xA yA pa).x) ^ 2 +
          ((projVertex p0 xA yA pb).y - (projVertex p0 xA yA pa).y) ^ 2 = 0 ∨
        (t1.x - t0.x) ^ 2 + (t1.y - t0.y) ^ 2 = 0
    · rw [if_pos hcond]
      exact ⟨_, rfl⟩
    · rw [if_neg hcond]
      obtain ⟨v2d2, hw⟩ := @writeCoords_total face.vertices
        (cs.map (rigidFrom (projVertex p0 xA yA pa) (projVertex p0 xA yA pb) t0 t1))
        v2d
        (fun v hv => by
          obtain ⟨h0, hlt⟩ := hmem v hv
          exact ⟨h0, by rw [hlen]; exact hlt⟩)
      rw [hw]
      exact ⟨_, rfl⟩

/-! ### Unfolding-loop invariants -/

theorem placeNbrs_inv {poly : Polyhedron} {adj : FaceAdjacency}
    {parent : List ℤ} {root : ℤ} {n : ℕ} {cur : ℤ} :
    ∀ {nbrs : List FaceNeighbor} {q q2 : List ℤ} {placed placed2 : List Bool}
      {f2ds f2ds2 : List (List Point2)} {v2d v2d2 : List Point2},
    placeNbrs poly parent cur nbrs q placed f2ds v2d =
      some (.ok (q2, placed2, f2ds2, v2d2)) →
    (∀ e ∈ nbrs, e ∈ adj.get cur) →
    PlaceInv poly adj parent root n (cur :: q) placed f2ds v2d →
    PlaceInv poly adj parent root n (cur :: q2) placed2 f2ds2 v2d2 ∧
      (∀ f, zread placed f = some true → zread placed2 f = some true) ∧
      (∀ e ∈ nbrs, zread parent e.faceIndex = some cur →
        zread placed2 e.faceIndex = some true) ∧
      (∀ f, zread placed2 f = some false → zread placed f = some false) ∧
      (∀ v, UntouchedV poly adj root placed v → zread v2d2 v = zread v2d v) ∧
      (∀ f, zread placed f = some true → zread f2ds2 f = zread f2ds f) := by
  intro nbrs
  induction nbrs with
  | nil =>
    intro q q2 placed placed2 f2ds f2ds2 v2d v2d2 h hsub hinv
    unfold placeNbrs at h
    obtain ⟨rfl, rfl, rfl, rfl⟩ :
        q = q2 ∧ placed = placed2 ∧ f2ds = f2ds2 ∧ v2d = v2d2 := by
      simpa [Prod.ext_iff] using h
    exact ⟨hinv, fun f hf => hf, by simp, fun f hf => hf, fun v _ => rfl, fun f _ => rfl⟩
  | cons nbr rest ih =>
    intro q q2 placed placed2 f2ds f2ds2 v2d v2d2 h hsub hinv
    unfold placeNbrs at h
    cases hpv : zread parent nbr.faceIndex with
    | none => rw [hpv] at h; simp at h
    | some pv =>
      cases hpl : zread placed nbr.faceIndex with
      | none => rw [hpv, hpl] at h; simp at h
      | some pl =>
        rw [hpv, hpl] at h
        simp only at h
        by_cases hguard : pv = cur ∧ pl = false
        · rw [if_pos hguard] at h
          obtain ⟨hpvc, hplc⟩ := hguard
          subst hplc
          rw [hpvc] at hpv
          cases hpf : placeAdjacentFace poly nbr.faceIndex nbr v2d with
          | none => rw [hpf] at h; simp at h
          | some r =>
            rw [hpf] at h
            cases r with
            | error e => simp at h
            | ok pr =>
              obtain ⟨cs, v2db⟩ := pr
              simp only at h
              cases hw1 : zwrite placed nbr.faceIndex true with
              | none => rw [hw1] at h; simp at h
              | some placedb =>
                cases hw2 : zwrite f2ds nbr.faceIndex cs with
                | none => rw [hw1, hw2] at h; simp at h
                | some f2dsb =>
                  rw [hw1, hw2] at h
                  simp only at h
                  obtain ⟨face, hface, hnotbad, hisom, hlenv, hframe⟩ :=
                    placeAdjacentFace_ok hpf
                  have hcurpl : zread placed cur = some true :=
                    hinv.queuePlaced cur (List.mem_cons_self _ _)
                  have hcur_ne : cur ≠ nbr.faceIndex := by
                    intro hc; rw [hc, hpl] at hcurpl; simp at hcurpl
                  have hnbr_get : nbr ∈ adj.get cur := hsub nbr (List.mem_cons_self _ _)
                  have hreach_nbr : Reaches adj root nbr.faceIndex :=
                    Relation.ReflTransGen.tail (hinv.placedReach cur hcurpl)
                      ⟨nbr, hnbr_get, rfl⟩
                  have mono1 : ∀ f, zread placed f = some true →
                      zread placedb f = some true := by
                    intro f hf
                    have hf_ne : f ≠ nbr.faceIndex := by
                      intro hc; rw [hc, hpl] at hf; simp at hf
                    rw [zread_zwrite_ne hw1 hf_ne]; exact hf
                  have hinvb : PlaceInv poly adj parent root n
                      (cur :: (q ++ [nbr.faceIndex])) placedb f2dsb v2db := by
                    refine ⟨?_, ?_, ?_, ?_, ?_, ?_, ?_, ?_, ?_, ?_⟩
                    · rw [zwrite_length hw1]; exact hinv.lenPl
                    · rw [zwrite_length hw2]; exact hinv.lenF
                    · rw [hlenv]; exact hinv.lenV
                    · intro f hf
                      by_cases hf_ne : f = nbr.faceIndex
                      · rw [hf_ne]; exact hreach_nbr
                      · rw [zread_zwrite_ne hw1 hf_ne] at hf
                        exact hinv.placedReach f hf
                    · intro f hf
                      have hf_ne : f ≠ nbr.faceIndex := by
                        intro hc
                        rw [hc, zread_zwrite_self hw1] at hf
                        simp at hf
                      rw [zread_zwrite_ne hw1 hf_ne] at hf
                      rw [zread_zwrite_ne hw2 hf_ne]
                      exact hinv.unplacedDefault f hf
                    · intro f hf
                      by_cases hf_ne : f = nbr.faceIndex
                      · exact hf_ne ▸ ⟨face, hface, hnotbad⟩
                      · rw [zread_zwrite_ne hw1 hf_ne] at hf
                        exact hinv.placedGood f hf
                    · intro f face2 cs2 hf hface2 hcs2 hpl2
                      by_cases hf_ne : f = nbr.faceIndex
                      · subst hf_ne
                        rw [hface] at hface2
                        obtain rfl := Option.some.inj hface2
                        rw [zread_zwrite_self hw2] at hcs2
                        obtain rfl := Option.some.inj hcs2
                        exact hisom hpl2
                      · rw [zread_zwrite_ne hw1 hf_ne] at hf
                        rw [zread_zwrite_ne hw2 hf_ne] at hcs2
                        exact hinv.placedIsom f face2 cs2 hf hface2 hcs2 hpl2
                    · intro x hx
                      rcases List.mem_cons.mp hx with rfl | hx2
                      · exact mono1 _ hcurpl
                      · rcases List.mem_append.mp hx2 with hx3 | hx4
                        · exact mono1 _ (hinv.queuePlaced x (List.mem_cons_of_mem _ hx3))
                        · obtain rfl : x = nbr.faceIndex := by simpa using hx4
                          exact zread_zwrite_self hw1
                    · have hnotin : nbr.faceIndex ∉ cur :: q := by
                        intro hc
                        have := hinv.queuePlaced _ hc
                        rw [hpl] at this; simp at this
                      have hnd : (cur :: q ++ [nbr.faceIndex]).Nodup := by
                        rw [List.nodup_append]
                        exact ⟨hinv.queueNodup, List.nodup_singleton _,
                          by intro a ha hb
                             obtain rfl : a = nbr.faceIndex := by simpa using hb
                             exact hnotin ha⟩
                      simpa using hnd
                    · intro f hf hfq e he hpe
                      have hf_ne : f ≠ nbr.faceIndex := by
                        intro hc
                        exact hfq (by rw [hc]; simp)
                      rw [zread_zwrite_ne hw1 hf_ne] at hf
                      have hfq2 : f ∉ cur :: q := by
                        intro hc
                        rcases List.mem_cons.mp hc with rfl | hc2
                        · exact hfq (List.mem_cons_self _ _)
                        · exact hfq (by simp [hc2])
                      exact mono1 _ (hinv.closed f hf hfq2 e he hpe)
                  have monoF : ∀ f, zread placedb f = some false →
                      zread placed f = some false := by
                    intro f hf
                    have hf_ne : f ≠ nbr.faceIndex := by
                      intro hc
                      rw [hc, zread_zwrite_self hw1] at hf
                      simp at hf
                    rw [← zread_zwrite_ne hw1 hf_ne]
                    exact hf
                  obtain ⟨hinv2, hmono, hdone, hmonoF, hvframe, hfframe⟩ :=
                    ih h (fun e he => hsub e (List.mem_cons_of_mem _ he)) hinvb
                  refine ⟨hinv2, fun f hf => hmono f (mono1 f hf), ?_, ?_, ?_, ?_⟩
                  · intro e he hpe
                    rcases List.mem_cons.mp he with rfl | he2
                    · exact hmono _ (zread_zwrite_self hw1)
                    · exact hdone e he2 hpe
                  · intro f hf
                    exact monoF f (hmonoF f hf)
                  · intro v hv
                    have hv2 : UntouchedV poly adj root placedb v := by
                      intro f face2 hrf hpf hface2
                      exact hv f face2 hrf (monoF f hpf) hface2
                    rw [hvframe v hv2]
                    exact hframe v (hv nbr.faceIndex face hreach_nbr hpl hface)
                  · intro f hf
                    have hf_ne : f ≠ nbr.faceIndex := by
                      intro hc; rw [hc, hpl] at hf; simp at hf
                    rw [hfframe f (mono1 f hf), zread_zwrite_ne hw2 hf_ne]
        · rw [if_neg hguard] at h
          obtain ⟨hinv2, hmono, hdone, hmonoF, hvframe, hfframe⟩ :=
            ih h (fun e he => hsub e (List.mem_cons_of_mem _ he)) hinv
          refine ⟨hinv2, hmono, ?_, hmonoF, hvframe, hfframe⟩
          intro e he hpe
          rcases List.mem_cons.mp he with rfl | he2
          · rw [hpe] at hpv
            obtain rfl : cur = pv := Option.some.inj hpv
            have hpl_true : pl = true := by
              by_contra hc
              exact hguard ⟨rfl, by simpa using hc⟩
            exact hmono _ (hpl_true ▸ hpl)
          · exact hdone e he2 hpe

theorem placeInv_dequeue {poly : Polyhedron} {adj : FaceAdjacency}
    {parent : List ℤ} {root cur : ℤ} {n : ℕ} {q : List ℤ}
    {placed : List Bool} {f2ds : List (List Point2)} {v2d : List Point2}
    (hinv : PlaceInv poly adj parent root n (cur :: q) placed f2ds v2d)
    (hdone : ∀ e ∈ adj.get cur, zread parent e.faceIndex = some cur →
      zread placed e.faceIndex = some true) :
    PlaceInv poly adj parent root n q placed f2ds v2d := by
  refine ⟨hinv.lenPl, hinv.lenF, hinv.lenV, hinv.placedReach,
    hinv.unplacedDefault, hinv.placedGood, hinv.placedIsom,
    fun x hx => hinv.queuePlaced x (List.mem_cons_of_mem _ hx),
    (List.nodup_cons.mp hinv.queueNodup).2, ?_⟩
  intro f hf hfq e he hpe
  by_cases hfc : f = cur
  · subst hfc; exact hdone e he hpe
  · refine hinv.closed f hf ?_ e he hpe
    intro hc
    rcases List.mem_cons.mp hc with h1 | h2
    · exact hfc h1
    · exact hfq h2

theorem placeLoop_inv {poly : Polyhedron} {adj : FaceAdjacency}
    {parent : List ℤ} {root : ℤ} {n : ℕ} :
    ∀ (fuel : ℕ) {q : List ℤ} {placed placed2 : List Bool}
      {f2ds f2ds2 : List (List Point2)} {v2d v2d2 : List Point2},
    placeLoop poly adj parent fuel q placed f2ds v2d =
      some (.ok (placed2, f2ds2, v2d2)) →
    PlaceInv poly adj parent root n q placed f2ds v2d →
    PlaceInv poly adj parent root n [] placed2 f2ds2 v2d2 ∧
      (∀ f, zread placed f = some true → zread placed2 f = some true) ∧
      (∀ v, UntouchedV poly adj root placed v → zread v2d2 v = zread v2d v) ∧
      (∀ f, zread placed f = some true → zread f2ds2 f = zread f2ds f) := by
  intro fuel
  induction fuel with
  | zero =>
    intro q placed placed2 f2ds f2ds2 v2d v2d2 h hinv
    cases q with
    | nil =>
      unfold placeLoop at h
      obtain ⟨rfl, rfl, rfl⟩ : placed = placed2 ∧ f2ds = f2ds2 ∧ v2d = v2d2 := by
        simpa [Prod.ext_iff] using h
      exact ⟨hinv, fun f hf => hf, fun v _ => rfl, fun f _ => rfl⟩
    | cons cur rest => unfold placeLoop at h; simp at h
  | succ fuel ih =>
    intro q placed placed2 f2ds f2ds2 v2d v2d2 h hinv
    cases q with
    | nil =>
      unfold placeLoop at h
      obtain ⟨rfl, rfl, rfl⟩ : placed = placed2 ∧ f2ds = f2ds2 ∧ v2d = v2d2 := by
        simpa [Prod.ext_iff] using h
      exact ⟨hinv, fun f hf => hf, fun v _ => rfl, fun f _ => rfl⟩
    | cons cur rest =>
      unfold placeLoop at h
      cases hrun : placeNbrs poly parent cur (adj.get cur) rest placed f2ds v2d with
      | none => rw [hrun] at h; simp at h
      | some r =>
        rw [hrun] at h
        cases r with
        | error e => simp at h
        | ok quad =>
          obtain ⟨q2, placedb, f2dsb, v2db⟩ := quad
          simp only at h
          obtain ⟨hinv2, hmono, hdone, hmonoF, hvframe, hfframe⟩ :=
            placeNbrs_inv hrun (fun e he => he) hinv
          have hinv3 := placeInv_dequeue hinv2 hdone
          obtain ⟨hinv4, hmono2, hvframe2, hfframe2⟩ := ih h hinv3
          refine ⟨hinv4, fun f hf => hmono2 f (hmono f hf), ?_,
            fun f hf => by rw [hfframe2 f (hmono f hf), hfframe f hf]⟩
          intro v hv
          have hv2 : UntouchedV poly adj root placedb v := by
            intro f face2 hrf hpf hface2
            exact hv f face2 hrf (hmonoF f hpf) hface2
          rw [hvframe2 v hv2, hvframe v hv]

theorem zread_mem {α : Type _} {l : List α} {i : ℤ} {a : α}
    (h : zread l i = some a) : a ∈ l := by
  obtain ⟨-, hg⟩ := zread_eq_some.mp h
  exact List.get?_mem hg

theorem zread_getD {α : Type _} {l : List α} {i : ℤ} {a : α} (d : α)
    (h : zread l i = some a) : l.getD i.toNat d = a := by
  obtain ⟨-, hg⟩ := zread_eq_some.mp h
  obtain ⟨hlt, hval⟩ := List.get?_eq_some.mp hg
  rw [List.getD_eq_get l d hlt]
  exact hval

theorem placeInv_complete {poly : Polyhedron} {adj : FaceAdjacency}
    {parent : List ℤ} {root : ℤ} {n : ℕ} {placed : List Bool}
    {f2ds : List (List Point2)} {v2d : List Point2}
    (hinv : PlaceInv poly adj parent root n [] placed f2ds v2d)
    (hroot : zread placed root = some true)
    (hpar : ∀ f g, zread parent f = some g → g ≠ -1 →
      ∃ e ∈ adj.get g, e.faceIndex = f) :
    ∀ k f, parIter parent k f = some root → zread placed f = some true := by
  intro k
  induction k with
  | zero =>
    intro f hf
    obtain rfl : f = root := by simpa [parIter] using hf
    exact hroot
  | succ k ihk =>
    intro f hf
    rw [parIter_succ] at hf
    cases hg : zread parent f with
    | none => rw [hg] at hf; simp at hf
    | some g =>
      rw [hg] at hf
      by_cases hg1 : g = -1
      · simp [hg1] at hf
      · simp only [if_neg hg1] at hf
        have hgpl := ihk g hf
        obtain ⟨e, he, hef⟩ := hpar f g hg hg1
        have := hinv.closed g hgpl (by simp) e he (by rw [hef]; exact hg)
        rw [hef] at this
        exact this

theorem placeNbrs_total {poly : Polyhedron} {adj : FaceAdjacency}
    {parent : List ℤ} {n : ℕ} {cur : ℤ}
    (hA : AdjWF adj n) (hE : AdjEdgeWF poly.faces adj) (hwf : WFPoly poly)
    (hn : n = poly.faces.length) :
    ∀ {nbrs : List FaceNeighbor} {q : List ℤ} {placed : List Bool}
      {f2ds : List (List Point2)} {v2d : List Point2},
    (∀ e ∈ nbrs, e ∈ adj.get cur) →
    placed.length = n → f2ds.length = n → parent.length = n →
    v2d.length = poly.vertices.length →
    (∃ e, placeNbrs poly parent cur nbrs q placed f2ds v2d = some (.error e)) ∨
    (∃ q2 placed2 f2ds2 v2d2 m,
      placeNbrs poly parent cur nbrs q placed f2ds v2d =
        some (.ok (q2, placed2, f2ds2, v2d2)) ∧
      q2.length = q.length + m ∧ placed2.count true = placed.count true + m ∧
      placed2.length = n ∧ f2ds2.length = n ∧
      v2d2.length = poly.vertices.length) := by
  intro nbrs
  induction nbrs with
  | nil =>
    intro q placed f2ds v2d _ hlp hlf _ hlv
    right
    exact ⟨q, placed, f2ds, v2d, 0, rfl, by omega, by omega, hlp, hlf, hlv⟩
  | cons nbr rest ih =>
    intro q placed f2ds v2d hsub hlp hlf hlpar hlv
    have hic := hA (cur, nbr) (mem_get_iff.mp (hsub nbr (List.mem_cons_self _ _)))
    obtain ⟨hn0, hnlt⟩ := hic.2
    obtain ⟨pv, hpv⟩ := zread_of_lt (l := parent) hn0 (by rw [hlpar]; exact hnlt)
    obtain ⟨pl, hpl⟩ := zread_of_lt (l := placed) hn0 (by rw [hlp]; exact hnlt)
    unfold placeNbrs
    rw [hpv, hpl]
    simp only
    by_cases hguard : pv = cur ∧ pl = false
    · rw [if_pos hguard]
      obtain ⟨face, hface⟩ := zread_of_lt (l := poly.faces) hn0 (by rw [← hn]; exact hnlt)
      have hfacemem : face ∈ poly.faces := zread_mem hface
      have hmem : ∀ v ∈ face.vertices, 0 ≤ v ∧ v.toNat < poly.vertices.length :=
        fun v hv => hwf face hfacemem v hv
      have hEe := hE (cur, nbr) (mem_get_iff.mp (hsub nbr (List.mem_cons_self _ _)))
      have hgd : poly.faces.getD nbr.faceIndex.toNat ⟨[]⟩ = face :=
        zread_getD _ hface
      have hse1 : 0 ≤ nbr.sharedEdge.1 ∧ nbr.sharedEdge.1.toNat < poly.vertices.length := by
        refine hmem _ ?_
        rw [← hgd]
        exact hEe.2.1
      have hse2 : 0 ≤ nbr.sharedEdge.2 ∧ nbr.sharedEdge.2.toNat < poly.vertices.length := by
        refine hmem _ ?_
        rw [← hgd]
        exact hEe.2.2
      obtain ⟨r, hr⟩ := placeAdjacentFace_total hface hmem hse1 hse2 hlv
      rw [hr]
      cases r with
      | error e => left; exact ⟨e, rfl⟩
      | ok pr =>
        obtain ⟨cs, v2db⟩ := pr
        simp only
        obtain ⟨placedb, hw1⟩ := zwrite_isSome (l := placed) (a := true) hn0
          (by rw [hlp]; exact hnlt)
        obtain ⟨f2dsb, hw2⟩ := zwrite_isSome (l := f2ds) (a := cs) hn0
          (by rw [hlf]; exact hnlt)
        rw [hw1, hw2]
        simp only
        obtain ⟨-, -, -, -, hlenvb, -⟩ := placeAdjacentFace_ok hr
        have hplfalse : zread placed nbr.faceIndex = some false := by
          rw [hpl, hguard.2]
        rcases ih (q := q ++ [nbr.faceIndex])
            (fun e he => hsub e (List.mem_cons_of_mem _ he))
            (by rw [zwrite_length hw1]; exact hlp)
            (by rw [zwrite_length hw2]; exact hlf) hlpar
            (by rw [hlenvb]; exact hlv) with
          herr | hok
        · exact Or.inl herr
        · obtain ⟨q2, placed2, f2ds2, v2d2, m, hrun, hq2, hc2, hl1, hl2, hl3⟩ := hok
          right
          refine ⟨q2, placed2, f2ds2, v2d2, m + 1, hrun, ?_, ?_, hl1, hl2, hl3⟩
          · simp at hq2; omega
          · rw [hc2, count_true_set hw1 hplfalse]; omega
    · rw [if_neg hguard]
      exact ih (fun e he => hsub e (List.mem_cons_of_mem _ he)) hlp hlf hlpar hlv

theorem placeLoop_total {poly : Polyhedron} {adj : FaceAdjacency}
    {parent : List ℤ} {n : ℕ}
    (hA : AdjWF adj n) (hE : AdjEdgeWF poly.faces adj) (hwf : WFPoly poly)
    (hn : n = poly.faces.length) :
    ∀ (fuel : ℕ) {q : List ℤ} {placed : List Bool}
      {f2ds : List (List Point2)} {v2d : List Point2},
    placed.length = n → f2ds.length = n → parent.length = n →
    v2d.length = poly.vertices.length →
    n - placed.count true + q.length ≤ fuel →
    ∃ r, placeLoop poly adj parent fuel q placed f2ds v2d = some r := by
  intro fuel
  induction fuel with
  | zero =>
    intro q placed f2ds v2d _ _ _ _ hfuel
    cases q with
    | nil => exact ⟨_, rfl⟩
    | cons cur rest =>
      exfalso
      simp only [List.length_cons] at hfuel
      omega
  | succ fuel ih =>
    intro q placed f2ds v2d hlp hlf hlpar hlv hfuel
    cases q with
    | nil => exact ⟨_, rfl⟩
    | cons cur rest =>
      rcases @placeNbrs_total poly adj parent n cur hA hE hwf hn _ rest placed f2ds v2d
          (fun e he => he) hlp hlf hlpar hlv with
        ⟨e, herr⟩ | ⟨q2, placed2, f2ds2, v2d2, m, hrun, hq2, hc2, hl1, hl2, hl3⟩
      · refine ⟨.error e, ?_⟩
        unfold placeLoop
        rw [herr]
      · have hc2le : placed2.count true ≤ placed2.length := List.count_le_length _ _
        obtain ⟨r, hr⟩ := ih (q := q2) hl1 hl2 hlpar hl3 (by
          simp only [List.length_cons] at hfuel
          omega)
        refine ⟨r, ?_⟩
        unfold placeLoop
        rw [hrun]
        simp only
        exact hr

theorem UnfoldMesh_ok_facts {poly : Polyhedron} {root : ℤ} {σ : List (ℤ × ℤ)}
    {r : UnfoldResult} (h : UnfoldMesh poly root σ = some (.ok r)) :
    poly.faces.length ≠ 0 ∧
    BuildFaceSpanningTree (BuildFaceAdjacency poly.faces σ) root
      poly.faces.length = some r.spanningTree ∧
    ∃ placedF,
      PlaceInv poly (BuildFaceAdjacency poly.faces σ) r.spanningTree root
        poly.faces.length [] placedF r.face2D r.vertex2D ∧
      zread placedF root = some true ∧
      (∀ f, Reaches (BuildFaceAdjacency poly.faces σ) root f →
        zread placedF f = some true) ∧
      (∃ face p0 xA yA cs, zread poly.faces root = some face ∧
        faceBasis poly face = some (.ok (p0, xA, yA)) ∧
        candCoords poly face p0 xA yA = some cs ∧
        zread r.face2D root = some cs ∧
        (∀ w ∈ face.vertices,
          (∀ g gface, Reaches (BuildFaceAdjacency poly.faces σ) root g →
            g ≠ root → zread poly.faces g = some gface → w ∉ gface.vertices) →
          ∀ pw, zread poly.vertices w = some pw →
            zread r.vertex2D w = some (projVertex p0 xA yA pw))) ∧
      (∀ v, 0 ≤ v → v.toNat < poly.vertices.length →
        (∀ g gface, Reaches (BuildFaceAdjacency poly.faces σ) root g →
          zread poly.faces g = some gface → v ∉ gface.vertices) →
        zread r.vertex2D v = some ⟨0, 0⟩) := by
  unfold UnfoldMesh at h
  by_cases hz : poly.faces.length = 0
  · rw [if_pos hz] at h; simp at h
  · rw [if_neg hz] at h
    simp only at h
    cases htree : BuildFaceSpanningTree (BuildFaceAdjacency poly.faces σ) root
        poly.faces.length with
    | none => rw [htree] at h; simp at h
    | some parent =>
      rw [htree] at h
      simp only at h
      obtain ⟨⟨hr0, hrlt⟩, -⟩ := spanningTree_inv htree
      cases hwpl : zwrite (List.replicate poly.faces.length false) root true with
      | none => rw [hwpl] at h; simp at h
      | some placed0 =>
        rw [hwpl] at h
        simp only at h
        cases hroot : placeRootFace poly root
            (List.replicate poly.vertices.length ⟨0, 0⟩) with
        | none => rw [hroot] at h; simp at h
        | some rr =>
          rw [hroot] at h
          cases rr with
          | error e => simp at h
          | ok pr =>
            obtain ⟨cs, v2d2⟩ := pr
            simp only at h
            cases hwf2 : zwrite (List.replicate poly.faces.length
                ([] : List Point2)) root cs with
            | none => rw [hwf2] at h; simp at h
            | some f2ds2 =>
              rw [hwf2] at h
              simp only at h
              cases hloop : placeLoop poly (BuildFaceAdjacency poly.faces σ)
                  parent poly.faces.length [root] placed0 f2ds2 v2d2 with
              | none => rw [hloop] at h; simp at h
              | some lr =>
                rw [hloop] at h
                cases lr with
                | error e => simp at h
                | ok fin =>
                  obtain ⟨pl3, f2ds3, v2d3⟩ := fin
                  simp only [Option.some.injEq, Except.ok.injEq] at h
                  obtain rfl : r = ⟨v2d3, f2ds3, parent⟩ := by
                    cases h; rfl
                  obtain ⟨face, p0, xA, yA, hface, hb, hc, hnotbad, hlenv2,
                    hrframe, hrread⟩ := placeRootFace_ok hroot
                  have hpl0root : zread placed0 root = some true :=
                    zread_zwrite_self hwpl
                  have hpl0only : ∀ f, zread placed0 f = some true → f = root := by
                    intro f hf
                    by_contra hfc
                    rw [zread_zwrite_ne hwpl hfc] at hf
                    obtain ⟨-, hg⟩ := zread_eq_some.mp hf
                    obtain ⟨hlt2, hval⟩ := List.get?_eq_some.mp hg
                    simp at hval
                  have hpl0false : ∀ f, zread placed0 f = some false → f ≠ root := by
                    intro f hf hc
                    rw [hc, hpl0root] at hf
                    simp at hf
                  have hinv0 : PlaceInv poly (BuildFaceAdjacency poly.faces σ)
                      parent root poly.faces.length [root] placed0 f2ds2 v2d2 := by
                    refine ⟨by rw [zwrite_length hwpl]; simp,
                      by rw [zwrite_length hwf2]; simp,
                      by rw [hlenv2]; simp, ?_, ?_, ?_, ?_, ?_,
                      List.nodup_singleton _, ?_⟩
                    · intro f hf
                      rw [hpl0only f hf]
                      exact Relation.ReflTransGen.refl
                    · intro f hf
                      have hfne := hpl0false f hf
                      obtain ⟨hf0, hflt⟩ := zread_bounds hf
                      rw [zread_zwrite_ne hwf2 hfne]
                      refine zread_replicate hf0 ?_
                      rw [zwrite_length hwpl] at hflt
                      simpa using hflt
                    · intro f hf
                      rw [hpl0only f hf]
                      exact ⟨face, hface, hnotbad⟩
                    · intro f face2 cs2 hf hface2 hcs2 hpl2
                      rw [hpl0only f hf] at hface2 hcs2
                      rw [hface] at hface2
                      obtain rfl := Option.some.inj hface2
                      rw [zread_zwrite_self hwf2] at hcs2
                      obtain rfl := Option.some.inj hcs2
                      exact cand_isometric hb hc hpl2
                    · intro x hx
                      obtain rfl : x = root := by simpa using hx
                      exact hpl0root
                    · intro f hf hfq
                      exact absurd (hpl0only f hf) (by
                        intro hc; exact hfq (by simp [hc]))
                  obtain ⟨hinvF, hmono, hvframe, hfframe⟩ :=
                    placeLoop_inv poly.faces.length hloop hinv0
                  obtain ⟨hlenpar, hrootpar, -, hchain, -, hparadj⟩ :=
                    spanningTree_facts htree
                  refine ⟨hz, rfl, ?_⟩
                  refine ⟨_, hinvF, hmono root hpl0root, ?_, ?_, ?_⟩
                  · intro f hf
                    obtain ⟨k, hk⟩ := hchain f hf
                    exact placeInv_complete hinvF (hmono root hpl0root)
                      hparadj k f hk
                  · refine ⟨face, p0, xA, yA, cs, hface, hb, hc, ?_, ?_⟩
                    · have := hfframe root hpl0root
                      rw [this, zread_zwrite_self hwf2]
                    · intro w hwmem hsolo pw hpw
                      have huntouched : UntouchedV poly
                          (BuildFaceAdjacency poly.faces σ) root placed0 w := by
                        intro g gface hrg hpg hgface
                        exact hsolo g gface hrg (hpl0false g hpg) hgface
                      rw [hvframe w huntouched]
                      exact hrread w hwmem pw hpw
                  · intro v hv0 hvlt hnowhere
                    have huntouched : UntouchedV poly
                        (BuildFaceAdjacency poly.faces σ) root placed0 v := by
                      intro g gface hrg _ hgface
                      exact hnowhere g gface hrg hgface
                    rw [hvframe v huntouched]
                    have hvnotroot : v ∉ face.vertices :=
                      hnowhere root face Relation.ReflTransGen.refl hface
                    rw [hrframe v hvnotroot]
                    exact zread_replicate hv0 hvlt

theorem UnfoldMesh_empty {poly : Polyhedron} {root : ℤ} {σ : List (ℤ × ℤ)}
    (hz : poly.faces.length = 0) :
    UnfoldMesh poly root σ = some (.error .invalidGeometry) := by
  unfold UnfoldMesh
  rw [if_pos hz]

theorem UnfoldMesh_oob {poly : Polyhedron} {root : ℤ} {σ : List (ℤ × ℤ)}
    (hz : poly.faces.length ≠ 0)
    (h : ¬ (0 ≤ root ∧ root.toNat < poly.faces.length)) :
    UnfoldMesh poly root σ = none := by
  unfold UnfoldMesh
  rw [if_neg hz]
  simp only [spanningTree_oob h]

theorem UnfoldMesh_isSome {poly : Polyhedron} {root : ℤ} {σ : List (ℤ × ℤ)}
    (hwf : WFPoly poly) (h0 : 0 ≤ root) (hlt : root.toNat < poly.faces.length) :
    ∃ r, UnfoldMesh poly root σ = some r := by
  have hz : poly.faces.length ≠ 0 := by omega
  unfold UnfoldMesh
  rw [if_neg hz]
  simp only
  obtain ⟨parent, htree⟩ := spanningTree_isSome
    (adjWF_build poly.faces σ) h0 hlt
  rw [htree]
  simp only
  obtain ⟨placed0, hwpl⟩ := zwrite_isSome
    (l := List.replicate poly.faces.length false) (a := true) h0 (by simpa using hlt)
  rw [hwpl]
  simp only
  obtain ⟨face, hface⟩ := zread_of_lt (l := poly.faces) h0 hlt
  obtain ⟨rr, hroot⟩ := placeRootFace_total hface
    (fun v hv => hwf face (zread_mem hface) v hv) (List.length_replicate _ _)
  rw [hroot]
  cases rr with
  | error e => exact ⟨_, rfl⟩
  | ok pr =>
    obtain ⟨cs, v2d2⟩ := pr
    simp only
    obtain ⟨f2ds2, hwf2⟩ := zwrite_isSome
      (l := List.replicate poly.faces.length ([] : List Point2)) (a := cs)
      h0 (by simpa using hlt)
    rw [hwf2]
    simp only
    obtain ⟨f2, q0, qx, qy, -, -, -, -, hlenv2, -, -⟩ := placeRootFace_ok hroot
    have hcount : placed0.count true = 1 := by
      have h1 : (List.replicate poly.faces.length false).count true = 0 := by
        simp [List.count_replicate]
      have := count_true_set hwpl (zread_replicate h0 hlt)
      omega
    obtain ⟨lr, hloop⟩ := @placeLoop_total poly _ parent _
      (adjWF_build poly.faces σ) (adjEdgeWF_build poly.faces σ) hwf rfl
      poly.faces.length [root] placed0 f2ds2
      v2d2
      (by rw [zwrite_length hwpl]; exact List.length_replicate _ _)
      (by rw [zwrite_length hwf2]; exact List.length_replicate _ _)
      (spanningTree_facts htree).1
      (by rw [hlenv2]; exact List.length_replicate _ _)
      (by simp only [hcount, List.length_cons, List.length_nil]; omega)
    rw [hloop]
    cases lr with
    | error e => exact ⟨_, rfl⟩
    | ok fin =>
      obtain ⟨pl3, f2ds3, v2d3⟩ := fin
      exact ⟨_, rfl⟩

theorem UnfoldMesh_err_of_bad {poly : Polyhedron} {root : ℤ} {σ : List (ℤ × ℤ)}
    (hwf : WFPoly poly) (h0 : 0 ≤ root) (hlt : root.toNat < poly.faces.length)
    {f : ℤ} {face : Face}
    (hreach : Reaches (BuildFaceAdjacency poly.faces σ) root f)
    (hface : zread poly.faces f = some face) (hbad : BadFace poly face) :
    UnfoldMesh poly root σ = some (.error .invalidGeometry) := by
  obtain ⟨r, hr⟩ := UnfoldMesh_isSome (σ := σ) hwf h0 hlt
  cases r with
  | error e =>
    cases e
    exact hr
  | ok res =>
    exfalso
    obtain ⟨-, -, placedF, hinvF, -, hcomplete, -, -⟩ := UnfoldMesh_ok_facts hr
    have hplf := hcomplete f hreach
    obtain ⟨face2, hface2, hnotbad⟩ := hinvF.placedGood f hplf
    rw [hface] at hface2
    obtain rfl := Option.some.inj hface2
    exact hnotbad hbad

/-! ### Concrete evaluations -/

theorem sqrt_four : Real.sqrt 4 = 2 := by
  rw [show (4 : ℝ) = 2 ^ 2 by norm_num, Real.sqrt_sq (by norm_num : (0:ℝ) ≤ 2)]

theorem sqrt_sixteen : Real.sqrt 16 = 4 := by
  rw [show (16 : ℝ) = 4 ^ 2 by norm_num, Real.sqrt_sq (by norm_num : (0:ℝ) ≤ 4)]

theorem evalTriBasis :
    faceBasis triPoly ⟨[0,1,2]⟩ = some (.ok (⟨0,0,0⟩, ⟨1,0,0⟩, ⟨0,1,0⟩)) := by
  have hv0 : zread triPoly.vertices ((Face.mk [0,1,2]).vertices.getD 0 0) = some ⟨0,0,0⟩ := rfl
  have hv1 : zread triPoly.vertices ((Face.mk [0,1,2]).vertices.getD 1 0) = some ⟨1,0,0⟩ := rfl
  have hv2 : zread triPoly.vertices ((Face.mk [0,1,2]).vertices.getD 2 0) = some ⟨0,1,0⟩ := rfl
  have hs1 : sub ⟨1,0,0⟩ ⟨0,0,0⟩ = (⟨1,0,0⟩ : Vec3) := by simp [sub]
  have hs2 : sub ⟨0,1,0⟩ ⟨0,0,0⟩ = (⟨0,1,0⟩ : Vec3) := by simp [sub]
  have hc : cross ⟨1,0,0⟩ ⟨0,1,0⟩ = (⟨0,0,1⟩ : Vec3) := by simp [cross]
  have hn1 : vnormalize ⟨1,0,0⟩ = .ok ⟨1,0,0⟩ := by
    unfold vnormalize
    rw [if_neg (by norm_num [lenSq, dot])]
    simp [vlen, lenSq, dot]
  have hn2 : vnormalize ⟨0,0,1⟩ = .ok ⟨0,0,1⟩ := by
    unfold vnormalize
    rw [if_neg (by norm_num [lenSq, dot])]
    simp [vlen, lenSq, dot]
  have hc2 : cross ⟨0,0,1⟩ ⟨1,0,0⟩ = (⟨0,1,0⟩ : Vec3) := by simp [cross]
  unfold faceBasis
  rw [if_neg (by norm_num)]
  rw [hv0, hv1, hv2]
  simp only []
  rw [hs1, hs2, hn1, hc, hn2]
  simp only [hc2]

theorem evalTriCand :
    candCoords triPoly ⟨[0,1,2]⟩ ⟨0,0,0⟩ ⟨1,0,0⟩ ⟨0,1,0⟩ =
      some [⟨0,0⟩, ⟨1,0⟩, ⟨0,1⟩] := by
  unfold candCoords
  have h0 : zread triPoly.vertices 0 = some ⟨0,0,0⟩ := rfl
  have h1 : zread triPoly.vertices 1 = some ⟨1,0,0⟩ := rfl
  have h2 : zread triPoly.vertices 2 = some ⟨0,1,0⟩ := rfl
  simp only [List.mapM_cons, List.mapM_nil, h0, h1, h2, Option.map_some,
    Option.bind_eq_bind, Option.some_bind]
  norm_num [projVertex, dot, sub]

theorem evalTriRoot :
    placeRootFace triPoly 0 (List.replicate 3 ⟨0,0⟩) =
      some (.ok ([⟨0,0⟩, ⟨1,0⟩, ⟨0,1⟩], [⟨0,0⟩, ⟨1,0⟩, ⟨0,1⟩])) := by
  have hface : zread triPoly.faces 0 = some ⟨[0,1,2]⟩ := rfl
  unfold placeRootFace
  rw [hface]
  simp only [evalTriBasis, evalTriCand]
  have hw : writeCoords (List.replicate 3 ⟨0,0⟩) (Face.mk [0,1,2]).vertices
      [⟨0,0⟩, ⟨1,0⟩, ⟨0,1⟩] = some [⟨0,0⟩, ⟨1,0⟩, ⟨0,1⟩] := by
    unfold writeCoords
    simp only [zwrite, List.replicate]
    norm_num
    rfl
  rw [hw]

theorem evalTriFacesTree :
    BuildFaceSpanningTree (BuildFaceAdjacency [⟨[0,1,2]⟩] sigTri) 0 1 =
      some [-1] := by
  decide

theorem evalTriFacesAdjGet :
    (BuildFaceAdjacency [⟨[0,1,2]⟩] sigTri).get 0 = [] := by
  decide

theorem evalTri :
    UnfoldMesh triPoly 0 sigTri =
      some (.ok ⟨[⟨0,0⟩, ⟨1,0⟩, ⟨0,1⟩], [[⟨0,0⟩, ⟨1,0⟩, ⟨0,1⟩]], [-1]⟩) := by
  have hfaces : triPoly.faces = [⟨[0,1,2]⟩] := rfl
  simp only [UnfoldMesh, hfaces, show ([(⟨[0,1,2]⟩ : Face)] : List Face).length = 1 from rfl,
    show triPoly.vertices.length = 3 from rfl, show ((1 : ℕ) = 0) = False by simp, if_false,
    evalTriFacesTree]
  have hpl : zwrite (List.replicate 1 false) (0 : ℤ) true = some [true] := rfl
  rw [hpl]
  rw [evalTriRoot]
  have hw : zwrite (List.replicate 1 ([] : List Point2)) (0 : ℤ)
      [⟨0,0⟩, ⟨1,0⟩, ⟨0,1⟩] = some [[⟨0,0⟩, ⟨1,0⟩, ⟨0,1⟩]] := rfl
  simp only [hw]
  have hloop : placeLoop triPoly (BuildFaceAdjacency [⟨[0,1,2]⟩] sigTri) [-1]
      1 [0] [true] [[⟨0,0⟩, ⟨1,0⟩, ⟨0,1⟩]] [⟨0,0⟩, ⟨1,0⟩, ⟨0,1⟩] =
      some (.ok ([true], [[⟨0,0⟩, ⟨1,0⟩, ⟨0,1⟩]], [⟨0,0⟩, ⟨1,0⟩, ⟨0,1⟩])) := by
    unfold placeLoop
    rw [evalTriFacesAdjGet]
    unfold placeNbrs
    simp only []
    unfold placeLoop
    rfl
  simp only [hloop]

theorem evalBBasis :
    faceBasis polyB ⟨[0,1,2]⟩ = some (.error .invalidGeometry) := by
  have hv0 : zread polyB.vertices ((Face.mk [0,1,2]).vertices.getD 0 0) = some ⟨0,0,0⟩ := rfl
  have hv1 : zread polyB.vertices ((Face.mk [0,1,2]).vertices.getD 1 0) = some ⟨1,0,0⟩ := rfl
  have hv2 : zread polyB.vertices ((Face.mk [0,1,2]).vertices.getD 2 0) = some ⟨2,0,0⟩ := rfl
  have hs1 : sub ⟨1,0,0⟩ ⟨0,0,0⟩ = (⟨1,0,0⟩ : Vec3) := by simp [sub]
  have hs2 : sub ⟨2,0,0⟩ ⟨0,0,0⟩ = (⟨2,0,0⟩ : Vec3) := by simp [sub]
  have hc : cross ⟨1,0,0⟩ ⟨2,0,0⟩ = (⟨0,0,0⟩ : Vec3) := by simp [cross]
  have hn1 : vnormalize ⟨1,0,0⟩ = .ok ⟨1,0,0⟩ := by
    unfold vnormalize
    rw [if_neg (by norm_num [lenSq, dot])]
    simp [vlen, lenSq, dot]
  have hn2 : vnormalize (⟨0,0,0⟩ : Vec3) = .error .invalidGeometry :=
    vnormalize_err (by norm_num [lenSq, dot])
  unfold faceBasis
  rw [if_neg (by norm_num)]
  rw [hv0, hv1, hv2]
  simp only []
  rw [hs1, hs2, hn1, hc, hn2]

theorem evalBRoot :
    placeRootFace polyB 0 (List.replicate 3 ⟨0,0⟩) =
      some (.error .invalidGeometry) := by
  have hface : zread polyB.faces 0 = some ⟨[0,1,2]⟩ := rfl
  unfold placeRootFace
  rw [hface]
  simp only [evalBBasis]

theorem evalPolyB :
    UnfoldMesh polyB 0 sigTri = some (.error .invalidGeometry) := by
  have hfaces : polyB.faces = [⟨[0,1,2]⟩] := rfl
  simp only [UnfoldMesh, hfaces, show ([(⟨[0,1,2]⟩ : Face)] : List Face).length = 1 from rfl,
    show polyB.vertices.length = 3 from rfl, show ((1 : ℕ) = 0) = False by simp, if_false,
    evalTriFacesTree]
  have hpl : zwrite (List.replicate 1 false) (0 : ℤ) true = some [true] := rfl
  rw [hpl]
  rw [evalBRoot]

theorem evalABasis :
    faceBasis polyA ⟨[0,1,2]⟩ = some (.ok (⟨0,0,0⟩, ⟨1,0,0⟩, ⟨0,1,0⟩)) := by
  have hv0 : zread polyA.vertices ((Face.mk [0,1,2]).vertices.getD 0 0) = some ⟨0,0,0⟩ := rfl
  have hv1 : zread polyA.vertices ((Face.mk [0,1,2]).vertices.getD 1 0) = some ⟨1,0,0⟩ := rfl
  have hv2 : zread polyA.vertices ((Face.mk [0,1,2]).vertices.getD 2 0) = some ⟨0,1,0⟩ := rfl
  have hs1 : sub ⟨1,0,0⟩ ⟨0,0,0⟩ = (⟨1,0,0⟩ : Vec3) := by simp [sub]
  have hs2 : sub ⟨0,1,0⟩ ⟨0,0,0⟩ = (⟨0,1,0⟩ : Vec3) := by simp [sub]
  have hc : cross ⟨1,0,0⟩ ⟨0,1,0⟩ = (⟨0,0,1⟩ : Vec3) := by simp [cross]
  have hn1 : vnormalize ⟨1,0,0⟩ = .ok ⟨1,0,0⟩ := by
    unfold vnormalize
    rw [if_neg (by norm_num [lenSq, dot])]
    simp [vlen, lenSq, dot]
  have hn2 : vnormalize ⟨0,0,1⟩ = .ok ⟨0,0,1⟩ := by
    unfold vnormalize
    rw [if_neg (by norm_num [lenSq, dot])]
    simp [vlen, lenSq, dot]
  have hc2 : cross ⟨0,0,1⟩ ⟨1,0,0⟩ = (⟨0,1,0⟩ : Vec3) := by simp [cross]
  unfold faceBasis
  rw [if_neg (by norm_num)]
  rw [hv0, hv1, hv2]
  simp only []
  rw [hs1, hs2, hn1, hc, hn2]
  simp only [hc2]

theorem evalACand :
    candCoords polyA ⟨[0,1,2]⟩ ⟨0,0,0⟩ ⟨1,0,0⟩ ⟨0,1,0⟩ =
      some [⟨0,0⟩, ⟨1,0⟩, ⟨0,1⟩] := by
  unfold candCoords
  have h0 : zread polyA.vertices 0 = some ⟨0,0,0⟩ := rfl
  have h1 : zread polyA.vertices 1 = some ⟨1,0,0⟩ := rfl
  have h2 : zread polyA.vertices 2 = some ⟨0,1,0⟩ := rfl
  simp only [List.mapM_cons, List.mapM_nil, h0, h1, h2, Option.map_some,
    Option.bind_eq_bind, Option.some_bind]
  norm_num [projVertex, dot, sub]

theorem evalARoot :
    placeRootFace polyA 0 (List.replicate 5 ⟨0,0⟩) =
      some (.ok ([⟨0,0⟩, ⟨1,0⟩, ⟨0,1⟩],
        [⟨0,0⟩, ⟨1,0⟩, ⟨0,1⟩, ⟨0,0⟩, ⟨0,0⟩])) := by
  have hface : zread polyA.faces 0 = some ⟨[0,1,2]⟩ := rfl
  unfold placeRootFace
  rw [hface]
  simp only [evalABasis, evalACand]
  have hw : writeCoords (List.replicate 5 ⟨0,0⟩) (Face.mk [0,1,2]).vertices
      [⟨0,0⟩, ⟨1,0⟩, ⟨0,1⟩] = some [⟨0,0⟩, ⟨1,0⟩, ⟨0,1⟩, ⟨0,0⟩, ⟨0,0⟩] := by
    unfold writeCoords
    simp only [zwrite, List.replicate]
    norm_num
    rfl
  rw [hw]

theorem evalAFacesTree :
    BuildFaceSpanningTree (BuildFaceAdjacency [⟨[0,1,2]⟩, ⟨[3,4]⟩] sigA) 0 2 =
      some [-1, -1] := by
  decide

theorem evalAFacesAdjGet :
    (BuildFaceAdjacency [⟨[0,1,2]⟩, ⟨[3,4]⟩] sigA).get 0 = [] := by
  decide

theorem evalPolyA :
    UnfoldMesh polyA 0 sigA =
      some (.ok ⟨[⟨0,0⟩, ⟨1,0⟩, ⟨0,1⟩, ⟨0,0⟩, ⟨0,0⟩],
        [[⟨0,0⟩, ⟨1,0⟩, ⟨0,1⟩], []], [-1, -1]⟩) := by
  have hfaces : polyA.faces = [⟨[0,1,2]⟩, ⟨[3,4]⟩] := rfl
  simp only [UnfoldMesh, hfaces,
    show ([(⟨[0,1,2]⟩ : Face), ⟨[3,4]⟩] : List Face).length = 2 from rfl,
    show polyA.vertices.length = 5 from rfl, show ((2 : ℕ) = 0) = False by simp, if_false,
    evalAFacesTree]
  have hpl : zwrite (List.replicate 2 false) (0 : ℤ) true = some [true, false] := rfl
  rw [hpl]
  rw [evalARoot]
  have hw : zwrite (List.replicate 2 ([] : List Point2)) (0 : ℤ)
      [⟨0,0⟩, ⟨1,0⟩, ⟨0,1⟩] = some [[⟨0,0⟩, ⟨1,0⟩, ⟨0,1⟩], []] := rfl
  simp only [hw]
  have hloop : placeLoop polyA (BuildFaceAdjacency [⟨[0,1,2]⟩, ⟨[3,4]⟩] sigA) [-1, -1]
      2 [0] [true, false] [[⟨0,0⟩, ⟨1,0⟩, ⟨0,1⟩], []]
      [⟨0,0⟩, ⟨1,0⟩, ⟨0,1⟩, ⟨0,0⟩, ⟨0,0⟩] =
      some (.ok ([true, false], [[⟨0,0⟩, ⟨1,0⟩, ⟨0,1⟩], []],
        [⟨0,0⟩, ⟨1,0⟩, ⟨0,1⟩, ⟨0,0⟩, ⟨0,0⟩])) := by
    unfold placeLoop
    rw [evalAFacesAdjGet]
    unfold placeNbrs
    simp only []
    unfold placeLoop
    rfl
  simp only [hloop]

theorem vnorm_200 : vnormalize ⟨2,0,0⟩ = .ok ⟨1,0,0⟩ := by
  unfold vnormalize
  rw [if_neg (by norm_num [lenSq, dot])]
  have hv : vlen ⟨2,0,0⟩ = 2 := by
    unfold vlen lenSq dot
    norm_num [sqrt_four]
  rw [hv]
  norm_num

theorem vnorm_004 : vnormalize ⟨0,0,4⟩ = .ok ⟨0,0,1⟩ := by
  unfold vnormalize
  rw [if_neg (by norm_num [lenSq, dot])]
  have hv : vlen ⟨0,0,4⟩ = 4 := by
    unfold vlen lenSq dot
    norm_num [sqrt_sixteen]
  rw [hv]
  norm_num

theorem evalQBasis :
    faceBasis polyQ ⟨[0,1,2,3]⟩ = some (.ok (⟨0,0,0⟩, ⟨1,0,0⟩, ⟨0,1,0⟩)) := by
  have hv0 : zread polyQ.vertices ((Face.mk [0,1,2,3]).vertices.getD 0 0) = some ⟨0,0,0⟩ := rfl
  have hv1 : zread polyQ.vertices ((Face.mk [0,1,2,3]).vertices.getD 1 0) = some ⟨2,0,0⟩ := rfl
  have hv2 : zread polyQ.vertices ((Face.mk [0,1,2,3]).vertices.getD 2 0) = some ⟨2,2,0⟩ := rfl
  have hs1 : sub ⟨2,0,0⟩ ⟨0,0,0⟩ = (⟨2,0,0⟩ : Vec3) := by simp [sub]
  have hs2 : sub ⟨2,2,0⟩ ⟨0,0,0⟩ = (⟨2,2,0⟩ : Vec3) := by simp [sub]
  have hc : cross ⟨2,0,0⟩ ⟨2,2,0⟩ = (⟨0,0,4⟩ : Vec3) := by
    unfold cross; norm_num
  have hc2 : cross ⟨0,0,1⟩ ⟨1,0,0⟩ = (⟨0,1,0⟩ : Vec3) := by simp [cross]
  unfold faceBasis
  rw [if_neg (by norm_num)]
  rw [hv0, hv1, hv2]
  simp only []
  rw [hs1, hs2, vnorm_200, hc, vnorm_004]
  simp only [hc2]

theorem evalQCand :
    candCoords polyQ ⟨[0,1,2,3]⟩ ⟨0,0,0⟩ ⟨1,0,0⟩ ⟨0,1,0⟩ =
      some [⟨0,0⟩, ⟨2,0⟩, ⟨2,2⟩, ⟨0,2⟩] := by
  unfold candCoords
  have h0 : zread polyQ.vertices 0 = some ⟨0,0,0⟩ := rfl
  have h1 : zread polyQ.vertices 1 = some ⟨2,0,0⟩ := rfl
  have h2 : zread polyQ.vertices 2 = some ⟨2,2,0⟩ := rfl
  have h3 : zread polyQ.vertices 3 = some ⟨0,2,1⟩ := rfl
  simp only [List.mapM_cons, List.mapM_nil, h0, h1, h2, h3, Option.map_some,
    Option.bind_eq_bind, Option.some_bind]
  norm_num [projVertex, dot, sub]

theorem evalQRoot :
    placeRootFace polyQ 0 (List.replicate 4 ⟨0,0⟩) =
      some (.ok ([⟨0,0⟩, ⟨2,0⟩, ⟨2,2⟩, ⟨0,2⟩], [⟨0,0⟩, ⟨2,0⟩, ⟨2,2⟩, ⟨0,2⟩])) := by
  have hface : zread polyQ.faces 0 = some ⟨[0,1,2,3]⟩ := rfl
  unfold placeRootFace
  rw [hface]
  simp only [evalQBasis, evalQCand]
  have hw : writeCoords (List.replicate 4 ⟨0,0⟩) (Face.mk [0,1,2,3]).vertices
      [⟨0,0⟩, ⟨2,0⟩, ⟨2,2⟩, ⟨0,2⟩] = some [⟨0,0⟩, ⟨2,0⟩, ⟨2,2⟩, ⟨0,2⟩] := by
    unfold writeCoords
    simp only [zwrite, List.replicate]
    norm_num
    rfl
  rw [hw]

theorem evalQFacesTree :
    BuildFaceSpanningTree (BuildFaceAdjacency [⟨[0,1,2,3]⟩] sigQ) 0 1 =
      some [-1] := by
  decide

theorem evalQFacesAdjGet :
    (BuildFaceAdjacency [⟨[0,1,2,3]⟩] sigQ).get 0 = [] := by
  decide

theorem evalPolyQ :
    UnfoldMesh polyQ 0 sigQ =
      some (.ok ⟨[⟨0,0⟩, ⟨2,0⟩, ⟨2,2⟩, ⟨0,2⟩], [[⟨0,0⟩, ⟨2,0⟩, ⟨2,2⟩, ⟨0,2⟩]],
        [-1]⟩) := by
  have hfaces : polyQ.faces = [⟨[0,1,2,3]⟩] := rfl
  simp only [UnfoldMesh, hfaces,
    show ([(⟨[0,1,2,3]⟩ : Face)] : List Face).length = 1 from rfl,
    show polyQ.vertices.length = 4 from rfl, show ((1 : ℕ) = 0) = False by simp, if_false,
    evalQFacesTree]
  have hpl : zwrite (List.replicate 1 false) (0 : ℤ) true = some [true] := rfl
  rw [hpl]
  rw [evalQRoot]
  have hw : zwrite (List.replicate 1 ([] : List Point2)) (0 : ℤ)
      [⟨0,0⟩, ⟨2,0⟩, ⟨2,2⟩, ⟨0,2⟩] = some [[⟨0,0⟩, ⟨2,0⟩, ⟨2,2⟩, ⟨0,2⟩]] := rfl
  simp only [hw]
  have hloop : placeLoop polyQ (BuildFaceAdjacency [⟨[0,1,2,3]⟩] sigQ) [-1]
      1 [0] [true] [[⟨0,0⟩, ⟨2,0⟩, ⟨2,2⟩, ⟨0,2⟩]] [⟨0,0⟩, ⟨2,0⟩, ⟨2,2⟩, ⟨0,2⟩] =
      some (.ok ([true], [[⟨0,0⟩, ⟨2,0⟩, ⟨2,2⟩, ⟨0,2⟩]],
        [⟨0,0⟩, ⟨2,0⟩, ⟨2,2⟩, ⟨0,2⟩])) := by
    unfold placeLoop
    rw [evalQFacesAdjGet]
    unfold placeNbrs
    simp only []
    unfold placeLoop
    rfl
  simp only [hloop]

theorem vnorm_00m4 : vnormalize ⟨0,0,-4⟩ = .ok ⟨0,0,-1⟩ := by
  unfold vnormalize
  rw [if_neg (by norm_num [lenSq, dot])]
  have hv : vlen ⟨0,0,-4⟩ = 4 := by
    unfold vlen lenSq dot
    norm_num [sqrt_sixteen]
  rw [hv]
  norm_num

theorem evalCBasis0 :
    faceBasis polyC ⟨[0,1,2,3]⟩ = some (.ok (⟨0,0,0⟩, ⟨1,0,0⟩, ⟨0,1,0⟩)) := by
  have hv0 : zread polyC.vertices ((Face.mk [0,1,2,3]).vertices.getD 0 0) = some ⟨0,0,0⟩ := rfl
  have hv1 : zread polyC.vertices ((Face.mk [0,1,2,3]).vertices.getD 1 0) = some ⟨2,0,0⟩ := rfl
  have hv2 : zread polyC.vertices ((Face.mk [0,1,2,3]).vertices.getD 2 0) = some ⟨2,2,0⟩ := rfl
  have hs1 : sub ⟨2,0,0⟩ ⟨0,0,0⟩ = (⟨2,0,0⟩ : Vec3) := by simp [sub]
  have hs2 : sub ⟨2,2,0⟩ ⟨0,0,0⟩ = (⟨2,2,0⟩ : Vec3) := by simp [sub]
  have hc : cross ⟨2,0,0⟩ ⟨2,2,0⟩ = (⟨0,0,4⟩ : Vec3) := by
    unfold cross; norm_num
  have hc2 : cross ⟨0,0,1⟩ ⟨1,0,0⟩ = (⟨0,1,0⟩ : Vec3) := by simp [cross]
  unfold faceBasis
  rw [if_neg (by norm_num)]
  rw [hv0, hv1, hv2]
  simp only []
  rw [hs1, hs2, vnorm_200, hc, vnorm_004]
  simp only [hc2]

theorem evalCCand0 :
    candCoords polyC ⟨[0,1,2,3]⟩ ⟨0,0,0⟩ ⟨1,0,0⟩ ⟨0,1,0⟩ =
      some [⟨0,0⟩, ⟨2,0⟩, ⟨2,2⟩, ⟨0,2⟩] := by
  unfold candCoords
  have h0 : zread polyC.vertices 0 = some ⟨0,0,0⟩ := rfl
  have h1 : zread polyC.vertices 1 = some ⟨2,0,0⟩ := rfl
  have h2 : zread polyC.vertices 2 = some ⟨2,2,0⟩ := rfl
  have h3 : zread polyC.vertices 3 = some ⟨0,2,0⟩ := rfl
  simp only [List.mapM_cons, List.mapM_nil, h0, h1, h2, h3, Option.map_some,
    Option.bind_eq_bind, Option.some_bind]
  norm_num [projVertex, dot, sub]

theorem evalCRoot :
    placeRootFace polyC 0 (List.replicate 4 ⟨0,0⟩) =
      some (.ok ([⟨0,0⟩, ⟨2,0⟩, ⟨2,2⟩, ⟨0,2⟩], [⟨0,0⟩, ⟨2,0⟩, ⟨2,2⟩, ⟨0,2⟩])) := by
  have hface : zread polyC.faces 0 = some ⟨[0,1,2,3]⟩ := rfl
  unfold placeRootFace
  rw [hface]
  simp only [evalCBasis0, evalCCand0]
  have hw : writeCoords (List.replicate 4 ⟨0,0⟩) (Face.mk [0,1,2,3]).vertices
      [⟨0,0⟩, ⟨2,0⟩, ⟨2,2⟩, ⟨0,2⟩] = some [⟨0,0⟩, ⟨2,0⟩, ⟨2,2⟩, ⟨0,2⟩] := by
    unfold writeCoords
    simp only [zwrite, List.replicate]
    norm_num
    rfl
  rw [hw]

theorem evalCBasis1 :
    faceBasis polyC ⟨[3,2,0]⟩ = some (.ok (⟨0,2,0⟩, ⟨1,0,0⟩, ⟨0,-1,0⟩)) := by
  have hv0 : zread polyC.vertices ((Face.mk [3,2,0]).vertices.getD 0 0) = some ⟨0,2,0⟩ := rfl
  have hv1 : zread polyC.vertices ((Face.mk [3,2,0]).vertices.getD 1 0) = some ⟨2,2,0⟩ := rfl
  have hv2 : zread polyC.vertices ((Face.mk [3,2,0]).vertices.getD 2 0) = some ⟨0,0,0⟩ := rfl
  have hs1 : sub ⟨2,2,0⟩ ⟨0,2,0⟩ = (⟨2,0,0⟩ : Vec3) := by
    unfold sub; norm_num
  have hs2 : sub ⟨0,0,0⟩ ⟨0,2,0⟩ = (⟨0,-2,0⟩ : Vec3) := by
    unfold sub; norm_num
  have hc : cross ⟨2,0,0⟩ ⟨0,-2,0⟩ = (⟨0,0,-4⟩ : Vec3) := by
    unfold cross; norm_num
  have hc2 : cross ⟨0,0,-1⟩ ⟨1,0,0⟩ = (⟨0,-1,0⟩ : Vec3) := by
    unfold cross; norm_num
  unfold faceBasis
  rw [if_neg (by norm_num)]
  rw [hv0, hv1, hv2]
  simp only []
  rw [hs1, hs2, vnorm_200, hc, vnorm_00m4]
  simp only [hc2]

theorem evalCCand1 :
    candCoords polyC ⟨[3,2,0]⟩ ⟨0,2,0⟩ ⟨1,0,0⟩ ⟨0,-1,0⟩ =
      some [⟨0,0⟩, ⟨2,0⟩, ⟨0,2⟩] := by
  unfold candCoords
  have h0 : zread polyC.vertices 0 = some ⟨0,0,0⟩ := rfl
  have h2 : zread polyC.vertices 2 = some ⟨2,2,0⟩ := rfl
  have h3 : zread polyC.vertices 3 = some ⟨0,2,0⟩ := rfl
  simp only [List.mapM_cons, List.mapM_nil, h0, h2, h3, Option.map_some,
    Option.bind_eq_bind, Option.some_bind]
  norm_num [projVertex, dot, sub]

theorem rigidC_eval (p : Point2) :
    rigidFrom ⟨2,0⟩ ⟨0,0⟩ ⟨2,2⟩ ⟨0,2⟩ p = ⟨p.x, p.y + 2⟩ := by
  unfold rigidFrom
  simp only
  norm_num [sqrt_four]

theorem evalCAdjacent :
    placeAdjacentFace polyC 1 ⟨1, (2,3), (2,3)⟩
        [⟨0,0⟩, ⟨2,0⟩, ⟨2,2⟩, ⟨0,2⟩] =
      some (.ok ([⟨0,2⟩, ⟨2,2⟩, ⟨0,4⟩], [⟨0,4⟩, ⟨2,0⟩, ⟨2,2⟩, ⟨0,2⟩])) := by
  have hface : zread polyC.faces 1 = some ⟨[3,2,0]⟩ := rfl
  unfold placeAdjacentFace
  rw [hface]
  simp only [evalCBasis1, evalCCand1]
  have hpa : zread polyC.vertices (2 : ℤ) = some ⟨2,2,0⟩ := rfl
  have hpb : zread polyC.vertices (3 : ℤ) = some ⟨0,2,0⟩ := rfl
  have ht0 : zread [(⟨0,0⟩ : Point2), ⟨2,0⟩, ⟨2,2⟩, ⟨0,2⟩] (2 : ℤ) = some ⟨2,2⟩ := rfl
  have ht1 : zread [(⟨0,0⟩ : Point2), ⟨2,0⟩, ⟨2,2⟩, ⟨0,2⟩] (3 : ℤ) = some ⟨0,2⟩ := rfl
  rw [hpa, hpb, ht0, ht1]
  simp only []
  have hs0 : projVertex ⟨0,2,0⟩ ⟨1,0,0⟩ ⟨0,-1,0⟩ ⟨2,2,0⟩ = (⟨2,0⟩ : Point2) := by
    unfold projVertex dot sub; norm_num
  have hs1 : projVertex ⟨0,2,0⟩ ⟨1,0,0⟩ ⟨0,-1,0⟩ ⟨0,2,0⟩ = (⟨0,0⟩ : Point2) := by
    unfold projVertex dot sub; norm_num
  rw [hs0, hs1]
  rw [if_neg (by norm_num)]
  have hmap : List.map (rigidFrom ⟨2,0⟩ ⟨0,0⟩ ⟨2,2⟩ ⟨0,2⟩)
      [(⟨0,0⟩ : Point2), ⟨2,0⟩, ⟨0,2⟩] = [⟨0,2⟩, ⟨2,2⟩, ⟨0,4⟩] := by
    simp only [List.map_cons, List.map_nil, rigidC_eval]
    norm_num
  simp only [hmap]
  have hw : writeCoords [(⟨0,0⟩ : Point2), ⟨2,0⟩, ⟨2,2⟩, ⟨0,2⟩]
      (Face.mk [3,2,0]).vertices [⟨0,2⟩, ⟨2,2⟩, ⟨0,4⟩] =
      some [⟨0,4⟩, ⟨2,0⟩, ⟨2,2⟩, ⟨0,2⟩] := by
    unfold writeCoords
    simp only [zwrite]
    norm_num
    rfl
  rw [hw]

theorem evalCFacesTree :
    BuildFaceSpanningTree (BuildFaceAdjacency [⟨[0,1,2,3]⟩, ⟨[3,2,0]⟩] sigC) 0 2 =
      some [-1, 0] := by
  decide

theorem evalCAdjGet0 :
    (BuildFaceAdjacency [⟨[0,1,2,3]⟩, ⟨[3,2,0]⟩] sigC).get 0 =
      [⟨1, (2,3), (2,3)⟩, ⟨1, (0,3), (3,0)⟩] := by
  decide

theorem evalCAdjGet1 :
    (BuildFaceAdjacency [⟨[0,1,2,3]⟩, ⟨[3,2,0]⟩] sigC).get 1 =
      [⟨0, (2,3), (0,1)⟩, ⟨0, (0,3), (2,0)⟩] := by
  decide

theorem evalCLoop :
    placeLoop polyC (BuildFaceAdjacency [⟨[0,1,2,3]⟩, ⟨[3,2,0]⟩] sigC) [-1, 0]
      2 [0] [true, false] [[⟨0,0⟩, ⟨2,0⟩, ⟨2,2⟩, ⟨0,2⟩], []]
      [⟨0,0⟩, ⟨2,0⟩, ⟨2,2⟩, ⟨0,2⟩] =
      some (.ok ([true, true],
        [[⟨0,0⟩, ⟨2,0⟩, ⟨2,2⟩, ⟨0,2⟩], [⟨0,2⟩, ⟨2,2⟩, ⟨0,4⟩]],
        [⟨0,4⟩, ⟨2,0⟩, ⟨2,2⟩, ⟨0,2⟩])) := by
  have hpar1 : zread ([-1, 0] : List ℤ) 1 = some 0 := rfl
  have hpl1 : zread [true, false] 1 = some false := rfl
  unfold placeLoop
  rw [evalCAdjGet0]
  unfold placeNbrs
  rw [hpar1, hpl1]
  simp only []
  rw [if_pos (show True ∧ True from ⟨trivial, trivial⟩)]
  rw [evalCAdjacent]
  simp only []
  have hw1 : zwrite [true, false] (1 : ℤ) true = some [true, true] := rfl
  have hw2 : zwrite [[(⟨0,0⟩ : Point2), ⟨2,0⟩, ⟨2,2⟩, ⟨0,2⟩], []] (1 : ℤ)
      [⟨0,2⟩, ⟨2,2⟩, ⟨0,4⟩] =
      some [[⟨0,0⟩, ⟨2,0⟩, ⟨2,2⟩, ⟨0,2⟩], [⟨0,2⟩, ⟨2,2⟩, ⟨0,4⟩]] := rfl
  rw [hw1, hw2]
  simp only []
  unfold placeNbrs
  have hpl1b : zread [true, true] 1 = some true := rfl
  rw [hpar1, hpl1b]
  simp only []
  rw [if_neg (by simp : ¬ (True ∧ true = false))]
  unfold placeNbrs
  simp only []
  unfold placeLoop
  simp only [List.nil_append]
  rw [evalCAdjGet1]
  unfold placeNbrs
  have hpar0 : zread ([-1, 0] : List ℤ) 0 = some (-1) := rfl
  have hpl0 : zread [true, true] 0 = some true := rfl
  rw [hpar0, hpl0]
  simp only []
  rw [if_neg (by norm_num : ¬ ((-1 : ℤ) = 1 ∧ true = false))]
  unfold placeNbrs
  rw [hpar0, hpl0]
  simp only []
  rw [if_neg (by norm_num : ¬ ((-1 : ℤ) = 1 ∧ true = false))]
  unfold placeNbrs
  simp only []
  unfold placeLoop
  rfl

theorem evalPolyC :
    UnfoldMesh polyC 0 sigC =
      some (.ok ⟨[⟨0,4⟩, ⟨2,0⟩, ⟨2,2⟩, ⟨0,2⟩],
        [[⟨0,0⟩, ⟨2,0⟩, ⟨2,2⟩, ⟨0,2⟩], [⟨0,2⟩, ⟨2,2⟩, ⟨0,4⟩]], [-1, 0]⟩) := by
  have hfaces : polyC.faces = [⟨[0,1,2,3]⟩, ⟨[3,2,0]⟩] := rfl
  simp only [UnfoldMesh, hfaces,
    show ([(⟨[0,1,2,3]⟩ : Face), ⟨[3,2,0]⟩] : List Face).length = 2 from rfl,
    show polyC.vertices.length = 4 from rfl, show ((2 : ℕ) = 0) = False by simp, if_false,
    evalCFacesTree]
  have hpl : zwrite (List.replicate 2 false) (0 : ℤ) true = some [true, false] := rfl
  rw [hpl]
  rw [evalCRoot]
  have hw : zwrite (List.replicate 2 ([] : List Point2)) (0 : ℤ)
      [⟨0,0⟩, ⟨2,0⟩, ⟨2,2⟩, ⟨0,2⟩] =
      some [[⟨0,0⟩, ⟨2,0⟩, ⟨2,2⟩, ⟨0,2⟩], []] := rfl
  simp only [hw]
  simp only [evalCLoop]

/-! ### Shared helper lemmas for the claims -/

/-- Any face with exactly three vertices is (trivially) planar. -/
theorem triangle_planar {poly : Polyhedron} {face : Face}
    (h3 : face.vertices.length = 3) : PlanarFace poly face := by
  obtain ⟨a, b, c, hf⟩ := List.length_eq_three.mp h3
  intro p0 p1 p2 h0 h1 h2 v hv pv hpv
  rw [hf] at h0 h1 h2 hv
  simp only [List.getD_cons_zero, List.getD_cons_succ] at h0 h1 h2
  rcases (by simpa using hv : v = a ∨ v = b ∨ v = c) with rfl | rfl | rfl
  · rw [h0] at hpv
    obtain rfl := Option.some.inj hpv
    unfold dot cross sub
    ring
  · rw [h1] at hpv
    obtain rfl := Option.some.inj hpv
    unfold dot cross sub
    ring
  · rw [h2] at hpv
    obtain rfl := Option.some.inj hpv
    unfold dot cross sub
    ring

/-- The first two candidate coordinates of any face basis: the face's first
vertex lands at the origin and its second at `(d, 0)` with `d` its 3D
distance from the first. -/
theorem cand_first_two {poly : Polyhedron} {face : Face} {p0 xA yA : Vec3}
    {cs : List Point2}
    (hb : faceBasis poly face = some (.ok (p0, xA, yA)))
    (hc : candCoords poly face p0 xA yA = some cs) :
    zread poly.vertices (face.vertices.getD 0 0) = some p0 ∧
    ∃ p1, zread poly.vertices (face.vertices.getD 1 0) = some p1 ∧
      cs.getD 0 ⟨0, 0⟩ = ⟨0, 0⟩ ∧
      cs.getD 1 ⟨0, 0⟩ = ⟨dist3 p0 p1, 0⟩ := by
  obtain ⟨hlen3, p1, p2, hr0, hr1, hr2, hn1, nrm, hn2, hyA⟩ := faceBasis_ok hb
  unfold candCoords at hc
  obtain ⟨hlen, hget⟩ := mapM_option_get hc
  have hL : lenSq (sub p1 p0) ≠ 0 := (vnormalize_ok hn1).1
  have hLv : vlen (sub p1 p0) ≠ 0 := vlen_ne_zero hL
  have hc0 : cs.getD 0 ⟨0, 0⟩ = projVertex p0 xA yA p0 := by
    have h2 := hget 0 (by omega) 0 ⟨0, 0⟩
    rw [hr0] at h2
    simpa using h2.symm
  have hc1 : cs.getD 1 ⟨0, 0⟩ = projVertex p0 xA yA p1 := by
    have h2 := hget 1 (by omega) 0 ⟨0, 0⟩
    rw [hr1] at h2
    simpa using h2.symm
  refine ⟨hr0, p1, hr1, ?_, ?_⟩
  · rw [hc0]
    unfold projVertex sub dot
    simp only
    congr 1 <;> ring
  · rw [hc1]
    have hd3 : dist3 p0 p1 = vlen (sub p1 p0) := by
      unfold dist3 vlen
      congr 1
      unfold lenSq dot sub
      ring
    have hx : dot (sub p1 p0) xA = dist3 p0 p1 := by
      rw [dot_vnormalize hn1]
      rw [show dot (sub p1 p0) (sub p1 p0) = lenSq (sub p1 p0) from rfl]
      rw [hd3, ← vlen_sq, pow_two, mul_div_assoc, div_self hLv, mul_one]
    have hy : dot (sub p1 p0) yA = 0 := by
      obtain ⟨-, hxa⟩ := vnormalize_ok hn1
      rw [hyA, hxa]
      unfold dot cross sub
      ring
    unfold projVertex
    rw [hx, hy]

/-! ### The claims -/

/-- C3: for every adjacency graph, root face and face count on which the
BFS completes, the parent array has `parent[root] = -1`, faces outside the
root's connected component keep `parent = -1`, every reachable face's
parent chain reaches the root (so each reachable non-root face has exactly
one path of parent links back to it, the parent being a function), the
chain never returns to its starting face (acyclicity), and every parent
link is an edge of the adjacency graph. -/
theorem claimC3 {adj : FaceAdjacency} {root : ℤ} {n : ℕ} {parent : List ℤ}
    (h : BuildFaceSpanningTree adj root n = some parent) :
    zread parent root = some (-1) ∧
    (∀ f, 0 ≤ f → f.toNat < n → ¬ Reaches adj root f →
      zread parent f = some (-1)) ∧
    (∀ f, Reaches adj root f → ReachRoot parent root f) ∧
    (∀ f, Reaches adj root f → ∀ k, 1 ≤ k → parIter parent k f ≠ some f) ∧
    (∀ f g, zread parent f = some g → g ≠ -1 →
      ∃ e ∈ adj.get g, e.faceIndex = f) := by
  obtain ⟨-, h1, h2, h3, h4, h5⟩ := spanningTree_facts h
  exact ⟨h1, h2, h3, h4, h5⟩

/-- C3 witness: the spanning tree of two triangles sharing an edge,
rooted at face 0, is `[-1, 0]`, and the claimed tree facts hold of it. -/
theorem claimC3_witness :
    zread ([-1, 0] : List ℤ) 0 = some (-1) ∧
    (∀ f, 0 ≤ f → f.toNat < 2 →
      ¬ Reaches (BuildFaceAdjacency twoTriFaces sigTT) 0 f →
      zread ([-1, 0] : List ℤ) f = some (-1)) ∧
    (∀ f, Reaches (BuildFaceAdjacency twoTriFaces sigTT) 0 f →
      ReachRoot [-1, 0] 0 f) ∧
    (∀ f, Reaches (BuildFaceAdjacency twoTriFaces sigTT) 0 f → ∀ k, 1 ≤ k →
      parIter [-1, 0] k f ≠ some f) ∧
    (∀ f g, zread ([-1, 0] : List ℤ) f = some g → g ≠ -1 →
      ∃ e ∈ (BuildFaceAdjacency twoTriFaces sigTT).get g, e.faceIndex = f) :=
  claimC3 (by decide)

/-- C6: the adjacency graph is symmetric — whenever face `A`'s neighbor
list holds an entry naming `B` across canonical edge `E`, face `B`'s
neighbor list holds an entry naming `A` across the same `E`. -/
theorem claimC6 {faces : List Face} {σ : List (ℤ × ℤ)} {A B : ℤ}
    {E sl : ℤ × ℤ}
    (h : (⟨B, E, sl⟩ : FaceNeighbor) ∈ (BuildFaceAdjacency faces σ).get A) :
    ∃ sl2, (⟨A, E, sl2⟩ : FaceNeighbor) ∈ (BuildFaceAdjacency faces σ).get B := by
  obtain ⟨sl2, hmem⟩ := adj_symm_entries (mem_get_iff.mp h)
  exact ⟨sl2, mem_get_iff.mpr hmem⟩

/-- C6 witness: in the two-triangle mesh, face 0 names face 1 across edge
(0,1), and symmetrically face 1 names face 0 across the same edge. -/
theorem claimC6_witness :
    ∃ sl2, (⟨0, (0, 1), sl2⟩ : FaceNeighbor) ∈
      (BuildFaceAdjacency twoTriFaces sigTT).get 1 :=
  claimC6 (show (⟨1, (0, 1), (0, 1)⟩ : FaceNeighbor) ∈
    (BuildFaceAdjacency twoTriFaces sigTT).get 0 from by decide)

/-- C10: `UnfoldMesh` and `BuildFaceSpanningTree` have the unstated
precondition `0 ≤ rootFace < nFaces`: on a well-formed, nonempty polyhedron
a root in that range makes every array access in bounds (both functions
return a value), while a root outside it makes both functions fault
(`none`, the out-of-bounds slice index) instead of returning a typed error. -/
theorem claimC10 {poly : Polyhedron} {root : ℤ} {σ : List (ℤ × ℤ)}
    (hwf : WFPoly poly) (hz : poly.faces.length ≠ 0) :
    ((0 ≤ root ∧ root.toNat < poly.faces.length) →
      (∃ r, UnfoldMesh poly root σ = some r) ∧
      ∃ p, BuildFaceSpanningTree (BuildFaceAdjacency poly.faces σ) root
        poly.faces.length = some p) ∧
    (¬ (0 ≤ root ∧ root.toNat < poly.faces.length) →
      UnfoldMesh poly root σ = none ∧
      BuildFaceSpanningTree (BuildFaceAdjacency poly.faces σ) root
        poly.faces.length = none) := by
  constructor
  · rintro ⟨h0, hlt⟩
    exact ⟨UnfoldMesh_isSome hwf h0 hlt,
      spanningTree_isSome (adjWF_build poly.faces σ) h0 hlt⟩
  · intro hn
    exact ⟨UnfoldMesh_oob hz hn, spanningTree_oob hn⟩

/-- C10 witness: on the single triangle, root 0 is in range and both
functions return values; any root outside `[0, 1)` would fault. -/
theorem claimC10_witness :
    ((0 ≤ (0 : ℤ) ∧ (0 : ℤ).toNat < triPoly.faces.length) →
      (∃ r, UnfoldMesh triPoly 0 sigTri = some r) ∧
      ∃ p, BuildFaceSpanningTree (BuildFaceAdjacency triPoly.faces sigTri) 0
        triPoly.faces.length = some p) ∧
    (¬ (0 ≤ (0 : ℤ) ∧ (0 : ℤ).toNat < triPoly.faces.length) →
      UnfoldMesh triPoly 0 sigTri = none ∧
      BuildFaceSpanningTree (BuildFaceAdjacency triPoly.faces sigTri) 0
        triPoly.faces.length = none) :=
  claimC10 (by unfold WFPoly; decide) (by decide)

/-- C1 (corrected): `UnfoldMesh` returns `InvalidGeometry` when the
polyhedron has no faces, and when any face REACHABLE from the root is bad
(fewer than 3 vertices, a numerically zero-length first edge, or a zero
face normal); the zero-length first edge is caught by the explicit
normalization pre-check.  The original "exactly when" fails in both
directions: an unreachable degenerate face is never visited and raises
nothing, and a zero normal (collinear first three vertices) also raises
`InvalidGeometry` though the claim's list does not mention it. -/
theorem claimC1 (poly : Polyhedron) (root : ℤ) (σ : List (ℤ × ℤ)) :
    (poly.faces.length = 0 →
      UnfoldMesh poly root σ = some (.error .invalidGeometry)) ∧
    (WFPoly poly → 0 ≤ root → root.toNat < poly.faces.length →
      ∀ f face, Reaches (BuildFaceAdjacency poly.faces σ) root f →
        zread poly.faces f = some face → BadFace poly face →
        UnfoldMesh poly root σ = some (.error .invalidGeometry)) :=
  ⟨fun hz => UnfoldMesh_empty hz,
   fun hwf h0 hlt _f _face hreach hface hbad =>
     UnfoldMesh_err_of_bad hwf h0 hlt hreach hface hbad⟩

/-- C1 witness: the empty polyhedron errors, and the collinear triangle
(zero normal, reachable as the root itself) errors. -/
theorem claimC1_witness :
    UnfoldMesh polyE 0 [] = some (.error .invalidGeometry) ∧
    UnfoldMesh polyB 0 sigTri = some (.error .invalidGeometry) :=
  ⟨(claimC1 polyE 0 []).1 rfl,
   (claimC1 polyB 0 sigTri).2 (by unfold WFPoly; decide) (by norm_num)
     (by decide) 0 ⟨[0, 1, 2]⟩ Relation.ReflTransGen.refl rfl
     (Or.inr ⟨⟨0,0,0⟩, ⟨1,0,0⟩, ⟨2,0,0⟩, rfl, rfl, rfl,
       Or.inr (by norm_num [lenSq, dot, cross, sub])⟩)⟩

/-- C1 counterexample to the original "exactly when": `polyA` has the face
`[3,4]` with fewer than 3 vertices, yet — that face being unreachable from
root 0 — `UnfoldMesh` succeeds instead of erroring. -/
theorem claimC1_cex :
    (⟨[3, 4]⟩ : Face) ∈ polyA.faces ∧
    ((⟨[3, 4]⟩ : Face)).vertices.length < 3 ∧
    UnfoldMesh polyA 0 sigA =
      some (.ok ⟨[⟨0,0⟩, ⟨1,0⟩, ⟨0,1⟩, ⟨0,0⟩, ⟨0,0⟩],
        [[⟨0,0⟩, ⟨1,0⟩, ⟨0,1⟩], []], [-1, -1]⟩) ∧
    UnfoldMesh polyA 0 sigA ≠ some (.error .invalidGeometry) := by
  refine ⟨by decide, by decide, evalPolyA, ?_⟩
  rw [evalPolyA]
  simp

/-- C2 (corrected): for every face `UnfoldMesh` places (every face
reachable from the root in a successful run) that is PLANAR, every edge of
the face (consecutive vertex pairs, wrapping) keeps its 3D length in the
face's `face2D` entry — exactly, in the real-number model.  The original
claim, with no planarity hypothesis, is false: a non-planar face is placed
by projecting onto the plane of its first three vertices, which shortens
edges leaving that plane (`claimC2_cex`). -/
theorem claimC2 {poly : Polyhedron} {root : ℤ} {σ : List (ℤ × ℤ)}
    {r : UnfoldResult} (h : UnfoldMesh poly root σ = some (.ok r)) :
    ∀ f face cs, Reaches (BuildFaceAdjacency poly.faces σ) root f →
      zread poly.faces f = some face → zread r.face2D f = some cs →
      PlanarFace poly face → IsomFace poly face cs := by
  obtain ⟨-, -, placedF, hinv, -, hcomp, -, -⟩ := UnfoldMesh_ok_facts h
  intro f face cs hreach hface hcs hpl
  exact hinv.placedIsom f face cs (hcomp f hreach) hface hcs hpl

/-- C2 witness: the single placed triangle keeps all three edge lengths. -/
theorem claimC2_witness :
    IsomFace triPoly ⟨[0, 1, 2]⟩ [⟨0, 0⟩, ⟨1, 0⟩, ⟨0, 1⟩] :=
  claimC2 evalTri 0 ⟨[0, 1, 2]⟩ [⟨0, 0⟩, ⟨1, 0⟩, ⟨0, 1⟩]
    Relation.ReflTransGen.refl rfl rfl (triangle_planar rfl)

/-- C2 counterexample to the original claim: the non-planar quadrilateral
`polyQ` is placed successfully, but its placement is NOT an isometry — the
edge from vertex 2 to vertex 3 has 3D length √5 and 2D length 2. -/
theorem claimC2_cex :
    UnfoldMesh polyQ 0 sigQ =
      some (.ok ⟨[⟨0,0⟩, ⟨2,0⟩, ⟨2,2⟩, ⟨0,2⟩],
        [[⟨0,0⟩, ⟨2,0⟩, ⟨2,2⟩, ⟨0,2⟩]], [-1]⟩) ∧
    ¬ IsomFace polyQ ⟨[0, 1, 2, 3]⟩ [⟨0,0⟩, ⟨2,0⟩, ⟨2,2⟩, ⟨0,2⟩] := by
  refine ⟨evalPolyQ, ?_⟩
  rintro ⟨-, hiso⟩
  have h23 := hiso 2 ⟨2,2,0⟩ ⟨0,2,1⟩ (by norm_num) rfl rfl
  have h2 : dist2 ⟨2,2⟩ ⟨0,2⟩ = 2 := by
    unfold dist2
    norm_num [sqrt_four]
  have h5 : dist3 ⟨2,2,0⟩ ⟨0,2,1⟩ = Real.sqrt 5 := by
    unfold dist3 lenSq dot sub
    norm_num
  rw [show ((2 + 1) % (Face.mk [0,1,2,3]).vertices.length) = 3 from rfl] at h23
  rw [show ([⟨0,0⟩, ⟨2,0⟩, ⟨2,2⟩, ⟨0,2⟩] : List Point2).getD 2 ⟨0,0⟩ = ⟨2,2⟩ from rfl,
    show ([⟨0,0⟩, ⟨2,0⟩, ⟨2,2⟩, ⟨0,2⟩] : List Point2).getD 3 ⟨0,0⟩ = ⟨0,2⟩ from rfl,
    h2, h5] at h23
  have h55 : (Real.sqrt 5) ^ 2 = 5 := Real.sq_sqrt (by norm_num)
  rw [← h23] at h55
  norm_num at h55

/-- C7 (corrected): in every successful run the root face's `face2D` entry
places the face's first vertex at `(0, 0)` and its second at `(d, 0)`,
where `d` is the 3D Euclidean distance between those two vertices.  The
original claim's further assertion about the GLOBAL `vertex2D` table is
false: a later-placed face sharing the vertex overwrites the global entry
(`claimC7_cex`). -/
theorem claimC7 {poly : Polyhedron} {root : ℤ} {σ : List (ℤ × ℤ)}
    {r : UnfoldResult} (h : UnfoldMesh poly root σ = some (.ok r)) :
    ∃ face cs p0 p1,
      zread poly.faces root = some face ∧
      zread r.face2D root = some cs ∧
      zread poly.vertices (face.vertices.getD 0 0) = some p0 ∧
      zread poly.vertices (face.vertices.getD 1 0) = some p1 ∧
      cs.getD 0 ⟨0, 0⟩ = ⟨0, 0⟩ ∧
      cs.getD 1 ⟨0, 0⟩ = ⟨dist3 p0 p1, 0⟩ := by
  obtain ⟨-, -, placedF, -, -, -, hrootfacts, -⟩ := UnfoldMesh_ok_facts h
  obtain ⟨face, p0, xA, yA, cs, hface, hb, hc, hcs, -⟩ := hrootfacts
  obtain ⟨hr0, p1, hr1, h0, h1⟩ := cand_first_two hb hc
  exact ⟨face, cs, p0, p1, hface, hcs, hr0, hr1, h0, h1⟩

/-- C7 witness: the unfolded triangle's root entry starts `(0,0), (1,0)`,
with 1 the 3D length of the first edge. -/
theorem claimC7_witness :
    ∃ face cs p0 p1,
      zread triPoly.faces 0 = some face ∧
      zread ([[⟨0,0⟩, ⟨1,0⟩, ⟨0,1⟩]] : List (List Point2)) 0 = some cs ∧
      zread triPoly.vertices (face.vertices.getD 0 0) = some p0 ∧
      zread triPoly.vertices (face.vertices.getD 1 0) = some p1 ∧
      cs.getD 0 ⟨0, 0⟩ = ⟨0, 0⟩ ∧
      cs.getD 1 ⟨0, 0⟩ = ⟨dist3 p0 p1, 0⟩ :=
  claimC7 evalTri

/-- C7 counterexample to the original claim's `vertex2D` part: unfolding
`polyC` from its square root face places the root's first vertex at
`(0, 0)` in `face2D`, but the global `vertex2D` entry of that vertex ends
at `(0, 4)` — the coplanar triangle placed afterwards contains vertex 0 and
overwrites the table (last writer wins). -/
theorem claimC7_cex :
    UnfoldMesh polyC 0 sigC =
      some (.ok ⟨[⟨0,4⟩, ⟨2,0⟩, ⟨2,2⟩, ⟨0,2⟩],
        [[⟨0,0⟩, ⟨2,0⟩, ⟨2,2⟩, ⟨0,2⟩], [⟨0,2⟩, ⟨2,2⟩, ⟨0,4⟩]], [-1, 0]⟩) ∧
    (⟨[0, 1, 2, 3]⟩ : Face).vertices.getD 0 0 = 0 ∧
    zread ([[⟨0,0⟩, ⟨2,0⟩, ⟨2,2⟩, ⟨0,2⟩], [⟨0,2⟩, ⟨2,2⟩, ⟨0,4⟩]] :
      List (List Point2)) 0 = some [⟨0,0⟩, ⟨2,0⟩, ⟨2,2⟩, ⟨0,2⟩] ∧
    zread ([⟨0,4⟩, ⟨2,0⟩, ⟨2,2⟩, ⟨0,2⟩] : List Point2) 0 = some ⟨0, 4⟩ ∧
    (⟨0, 4⟩ : Point2) ≠ ⟨0, 0⟩ := by
  refine ⟨evalPolyC, rfl, rfl, rfl, ?_⟩
  intro hc
  have hy := congrArg Point2.y hc
  norm_num at hy

/-- C8: in every successful run, a face not connected to the root keeps
`parent = -1`, its `face2D` entry stays the default `[]`, and a vertex
belonging only to unreachable faces keeps the default global 2D entry
`(0, 0)` — the unfolding loop never writes either. -/
theorem claimC8 {poly : Polyhedron} {root : ℤ} {σ : List (ℤ × ℤ)}
    {r : UnfoldResult} (h : UnfoldMesh poly root σ = some (.ok r)) :
    (∀ f, 0 ≤ f → f.toNat < poly.faces.length →
      ¬ Reaches (BuildFaceAdjacency poly.faces σ) root f →
      zread r.spanningTree f = some (-1) ∧ zread r.face2D f = some []) ∧
    (∀ v, 0 ≤ v → v.toNat < poly.vertices.length →
      (∀ g gface, Reaches (BuildFaceAdjacency poly.faces σ) root g →
        zread poly.faces g = some gface → v ∉ gface.vertices) →
      zread r.vertex2D v = some ⟨0, 0⟩) := by
  obtain ⟨-, htree, placedF, hinv, -, -, -, huntouch⟩ := UnfoldMesh_ok_facts h
  refine ⟨?_, huntouch⟩
  intro f h0 hlt hnreach
  obtain ⟨-, -, hm1, -, -, -⟩ := spanningTree_facts htree
  refine ⟨hm1 f h0 hlt hnreach, ?_⟩
  obtain ⟨b, hbread⟩ := zread_of_lt h0
    (show f.toNat < placedF.length by rw [hinv.lenPl]; exact hlt)
  cases b with
  | false => exact hinv.unplacedDefault f hbread
  | true => exact absurd (hinv.placedReach f hbread) hnreach

/-- C8 witness: in `polyA` the two-vertex face 1 shares no edge with the
root triangle; its tree and `face2D` entries stay at the defaults and the
vertices 3, 4 (belonging only to it) keep the default `(0, 0)`. -/
theorem claimC8_witness :
    (∀ f, 0 ≤ f → f.toNat < polyA.faces.length →
      ¬ Reaches (BuildFaceAdjacency polyA.faces sigA) 0 f →
      zread ([-1, -1] : List ℤ) f = some (-1) ∧
      zread ([[⟨0,0⟩, ⟨1,0⟩, ⟨0,1⟩], []] : List (List Point2)) f = some []) ∧
    (∀ v, 0 ≤ v → v.toNat < polyA.vertices.length →
      (∀ g gface, Reaches (BuildFaceAdjacency polyA.faces sigA) 0 g →
        zread polyA.faces g = some gface → v ∉ gface.vertices) →
      zread ([⟨0,0⟩, ⟨1,0⟩, ⟨0,1⟩, ⟨0,0⟩, ⟨0,0⟩] : List Point2) v =
        some ⟨0, 0⟩) :=
  claimC8 evalPolyA

/-- C9 (corrected): when the local-edge lookup fails for an edge key whose
face list has exactly two entries, the adjacency builder SILENTLY skips the
edge (the `continue`) and still reports no error — it never signals an
inconsistent-topology failure to the caller. -/
theorem claimC9 {faces : List Face} {key : ℤ × ℤ} {f0 f1 : ℕ}
    {acc : List (ℤ × FaceNeighbor)}
    (h : findEdgeInFace (faces.getD f0 ⟨[]⟩) key = none ∨
         findEdgeInFace (faces.getD f1 ⟨[]⟩) key = none) :
    processEdgeEntry faces key [f0, f1] acc = acc ∧
    BuildFaceAdjacencyErr faces [key] = none := by
  refine ⟨?_, rfl⟩
  unfold processEdgeEntry
  cases h1 : findEdgeInFace (faces.getD f0 ⟨[]⟩) key with
  | none => simp only [h1]
  | some e0 =>
    cases h2 : findEdgeInFace (faces.getD f1 ⟨[]⟩) key with
    | none => simp only [h1, h2]
    | some e1 =>
      exfalso
      rcases h with h | h
      · rw [h1] at h; exact Option.noConfusion h
      · rw [h2] at h; exact Option.noConfusion h

/-- C9 witness: an edge map claiming key (0,1) touches face `[2,3,4]`
(which has no such edge) is skipped without any entry or error. -/
theorem claimC9_witness :
    processEdgeEntry [⟨[0, 1, 2]⟩, ⟨[2, 3, 4]⟩] (0, 1) [0, 1] [] = [] ∧
    BuildFaceAdjacencyErr [⟨[0, 1, 2]⟩, ⟨[2, 3, 4]⟩] [(0, 1)] = none :=
  claimC9 (Or.inr (by decide))

/-- C9 counterexample to the original claim: a key whose recorded face
cannot be located produces no failure signal of any kind — the lookup
fails, the entry list is unchanged and the error result is `none`. -/
theorem claimC9_cex :
    findEdgeInFace ⟨[2, 3, 4]⟩ (0, 1) = none ∧
    processEdgeEntry [⟨[0, 1, 2]⟩, ⟨[2, 3, 4]⟩] (0, 1) [0, 1] [] = [] ∧
    BuildFaceAdjacencyErr [⟨[0, 1, 2]⟩, ⟨[2, 3, 4]⟩] [(0, 1)] = none := by
  decide

/-- C4 (code bug): edge (0,1) of `nmFaces` is used by three faces; the
builder generates no neighbor entries for it — as the spec requires — but
surfaces NO diagnostic either (its error result is the constant `none`,
Go's `return &adj, nil`), while the ordinary shared edge (1,2) still yields
its symmetric entry pair.  The spec mandates a `NonManifoldEdge`
diagnostic here, so the code diverges from the spec. -/
theorem claimC4 :
    (edgeFaces nmFaces (0, 1)).length = 3 ∧
    (∀ p ∈ (BuildFaceAdjacency nmFaces signm).entries,
      p.2.sharedEdge ≠ (0, 1)) ∧
    BuildFaceAdjacencyErr nmFaces signm = none ∧
    (edgeFaces nmFaces (1, 2)).length = 2 ∧
    (BuildFaceAdjacency nmFaces signm).entries =
      [(0, ⟨3, (1, 2), (1, 2)⟩), (3, ⟨0, (1, 2), (0, 1)⟩)] := by
  decide

/-- C5 (code bug): the pipeline is NOT a pure function of polyhedron and
root — it also depends on the Go map's iteration order.  Two legitimate
iteration orders of the same edge map give different spanning trees for
`c5Faces` (face 3's BFS parent is 1 under one order, 2 under the other),
so `UnfoldMesh`'s output (which contains the parent array) differs between
runs. -/
theorem claimC5 :
    ValidKeyOrder c5Faces sig51 ∧ ValidKeyOrder c5Faces sig52 ∧
    BuildFaceSpanningTree (BuildFaceAdjacency c5Faces sig51) 0 4 =
      some [-1, 0, 0, 1] ∧
    BuildFaceSpanningTree (BuildFaceAdjacency c5Faces sig52) 0 4 =
      some [-1, 0, 0, 2] ∧
    ([-1, 0, 0, 1] : List ℤ) ≠ [-1, 0, 0, 2] := by
  decide
